import Mathlib

/-!
# Wire codec of `proto`: primitive types and packet framing

A shallow embedding of `type.go`, `utils.go`, `packet.go`, `errors.go` and the
packet catalogue of `handshake.go`, `login.go` and `status.go`.

Conventions of the embedding

* A Go `byte` is a `UInt8`; a `[]byte` is a `List UInt8`.
* A Go `io.Reader` is the list of bytes still to be read (an in-memory stream
  that ends with `io.EOF`); every read function returns the stream that is
  left, so the number of bytes taken from the source can be observed.
* A Go `io.Writer` is the list of bytes written so far; every write appends
  and succeeds, as `bytes.Buffer` does.
* Go's fixed-width integers are `Int`/`Nat` with explicit wrap-around
  (`int32`, `uint32`, `int64`, `uint64`); Go's `int` is 64 bits wide.
* `ReadFrom` takes the value held by the receiver before the call and returns
  the value it holds afterwards together with `(n, err)`.
* A function that can hit a Go run-time panic returns `Option`, `none` being
  the panic.
* The buffer pool `bufPool` is explicit state only where its content is the
  subject (`RawPacket.packWithCompressionPool`); `Pack` and `Unpack` start from
  the scratch buffer after `Reset`.
-/

namespace Proto

/-! ## Errors, readers and writers -/

/-- Error values that the codec returns. -/
inductive Error
  | EOF
  | ErrUnexpectedEOF
  | VarIntTooBig
  | VarLongTooBig
  | belowThreshold (size threshold : Int)
  | aboveMaximum (size maximum : Int)
  | zlib (code : Nat)
  | notImplemented (name : String)
  | wrongPacket (expect get : Int)
  | invalidPacketID (record : String) (id : Int)
  deriving DecidableEq, Repr

/-- Function `WrongPacketError` of `errors.go`: the error
`wrong packet id: expect <expect>, get <get>`. -/
def WrongPacketError (expect get : Int) : Error := Error.wrongPacket expect get

/-- An `io.Reader`: the bytes that have not been read yet. -/
abbrev Reader := List UInt8

/-- An `io.Writer`: the bytes written so far. -/
abbrev Writer := List UInt8

/-- Outcome of a `ReadFrom`: the receiver after the call, the returned `n` and
`err`, and the reader after the call. -/
structure ReadResult (α : Type) where
  val : α
  n : Int
  err : Option Error
  rest : Reader
  deriving DecidableEq, Repr

/-- Outcome of a `WriteTo`: the writer after the call and the returned `n` and
`err`. -/
structure WriteResult where
  w : Writer
  n : Int
  err : Option Error
  deriving DecidableEq, Repr

/-- Method `w.Write(p)` of an in-memory writer: appends `p`, returns `len(p)`. -/
def Write (w : Writer) (p : List UInt8) : WriteResult :=
  ⟨w ++ p, p.length, none⟩

/-- Function `readByte` of `utils.go`: one byte of the reader, or `io.EOF`. -/
def readByte : Reader → UInt8 × Option Error × Reader
  | [] => (0, some Error.EOF, [])
  | b :: r => (b, none, r)

/-! ## Integer conversions -/

/-- Go conversion `uint32(x)`. -/
def uint32 (x : Int) : Nat := (x % 2 ^ 32).toNat

/-- Go conversion `int32(x)`. -/
def int32 (x : Int) : Int := (x + 2 ^ 31) % 2 ^ 32 - 2 ^ 31

/-- Go conversion `uint64(x)`. -/
def uint64 (x : Int) : Nat := (x % 2 ^ 64).toNat

/-- Go conversion `int64(x)`. -/
def int64 (x : Int) : Int := (x + 2 ^ 63) % 2 ^ 64 - 2 ^ 63

/-! ## VarInt and VarLong -/

/-- Constant `MaxVarIntLen`. -/
def MaxVarIntLen : Nat := 5

/-- Constant `MaxVarLongLen`. -/
def MaxVarLongLen : Nat := 10

/-- The `for` loop that `VarInt.WriteTo` and `VarLong.WriteTo` both have, on the
unsigned value `num`; it returns the slice `vi`. The first argument bounds the
number of rounds: every round shifts `num` right by seven bits, so the bit
width of `num` is always enough (`writeLoop_fuel`). -/
def writeLoop : Nat → Nat → List UInt8
  | 0, _ => []
  | fuel + 1, num =>
    let b := num &&& 0x7F
    let num := num >>> 7
    if num ≠ 0 then UInt8.ofNat (b ||| 0x80) :: writeLoop fuel num
    else [UInt8.ofNat b]

/-- Method `VarInt.WriteTo`. -/
def VarInt.WriteTo (v : Int) (w : Writer) : WriteResult :=
  Write w (writeLoop 32 (uint32 v))

/-- Method `VarLong.WriteTo`. -/
def VarLong.WriteTo (v : Int) (w : Writer) : WriteResult :=
  Write w (writeLoop 64 (uint64 v))

/-- The `for` loop of `VarInt.ReadFrom`: `v` is the receiver before the call,
`vi` the accumulator, `n` the loop counter. The match on the reader is the
call of `readByte`. -/
def VarInt.readLoop (v : Int) : Nat → Nat → Reader → ReadResult Int
  | _, n, [] =>
    if n > MaxVarIntLen then ⟨v, n, some Error.VarIntTooBig, []⟩
    else ⟨v, n, some Error.EOF, []⟩
  | vi, n, sec :: r =>
    if n > MaxVarIntLen then ⟨v, n, some Error.VarIntTooBig, sec :: r⟩
    else
      let vi := vi ||| ((sec.toNat &&& 0x7F) <<< (7 * n)) % 2 ^ 32
      if sec.toNat &&& 0x80 ≠ 0 then VarInt.readLoop v vi (n + 1) r
      else ⟨int32 vi, (n + 1 : Nat), none, r⟩

/-- Method `VarInt.ReadFrom`. -/
def VarInt.ReadFrom (v : Int) (r : Reader) : ReadResult Int :=
  VarInt.readLoop v 0 0 r

/-- The `for` loop of `VarLong.ReadFrom`. -/
def VarLong.readLoop (v : Int) : Nat → Nat → Reader → ReadResult Int
  | _, n, [] =>
    if n ≥ MaxVarLongLen then ⟨v, n, some Error.VarLongTooBig, []⟩
    else ⟨v, n, some Error.EOF, []⟩
  | V, n, sec :: r =>
    if n ≥ MaxVarLongLen then ⟨v, n, some Error.VarLongTooBig, sec :: r⟩
    else
      let V := V ||| ((sec.toNat &&& 0x7F) <<< (7 * n)) % 2 ^ 64
      if sec.toNat &&& 0x80 ≠ 0 then VarLong.readLoop v V (n + 1) r
      else ⟨int64 V, (n + 1 : Nat), none, r⟩

/-- Method `VarLong.ReadFrom`. -/
def VarLong.ReadFrom (v : Int) (r : Reader) : ReadResult Int :=
  VarLong.readLoop v 0 0 r

/-! ## Reading and copying a fixed number of bytes -/

/-- Outcome of `io.ReadFull(r, buf)`: the buffer after the call, the returned
`n` and `err`, and the reader after the call. -/
structure FullResult where
  buf : List UInt8
  n : Int
  err : Option Error
  rest : Reader
  deriving DecidableEq, Repr

/-- Function `io.ReadFull(r, buf)`: fills `buf` from the reader. When the reader
holds fewer than `len(buf)` bytes it copies what there is and fails with
`io.EOF` if it read nothing and `io.ErrUnexpectedEOF` otherwise. -/
def ReadFull (r : Reader) (buf : List UInt8) : FullResult :=
  if buf.length ≤ r.length then
    ⟨r.take buf.length, buf.length, none, r.drop buf.length⟩
  else
    ⟨r ++ buf.drop r.length, r.length,
      some (if r.length = 0 then Error.EOF else Error.ErrUnexpectedEOF), []⟩

/-- Outcome of `io.CopyN(dst, src, n)`: the destination buffer after the call,
the returned count and error, and the source after the call. -/
structure CopyResult where
  dst : Writer
  written : Int
  err : Option Error
  rest : Reader
  deriving DecidableEq, Repr

/-- Function `io.CopyN(dst, src, n)` into a `bytes.Buffer`: copies `n` bytes, or
fails with `io.EOF` when the source ends earlier; for `n ≤ 0` the limited
reader is at its end at once, nothing is copied and no error is returned. -/
def CopyN (dst : Writer) (src : Reader) (n : Int) : CopyResult :=
  if n ≤ 0 then ⟨dst, 0, none, src⟩
  else if n.toNat ≤ src.length then ⟨dst ++ src.take n.toNat, n, none, src.drop n.toNat⟩
  else ⟨dst ++ src, src.length, some Error.EOF, []⟩

/-! ## Long and Position -/

/-- Go `a >> k` on an `int64`: arithmetic shift. -/
def sar64 (a : Int) (k : Nat) : Int := a / 2 ^ k

/-- Go `a << k` on an `int64`: the bits shifted out are lost. -/
def shl64 (a : Int) (k : Nat) : Int := int64 (a * 2 ^ k)

/-- Go `a & m` on two `int64`: the AND of the two's-complement bit patterns. -/
def and64 (a m : Int) : Int := int64 ((uint64 a &&& uint64 m : Nat) : Int)

/-- Method `Long.ReadFrom`. The shifts and ORs of the source are on `int64`;
here they are taken on the bit patterns and the result is read as `int64`. -/
def Long.ReadFrom (l : Int) (r : Reader) : ReadResult Int :=
  let f := ReadFull r (List.replicate 8 0)
  match f.err with
  | some e => ⟨l, f.n, some e, f.rest⟩
  | none =>
    let bs := fun (i : Nat) => (f.buf.getD i 0).toNat
    ⟨int64 ((((bs 0 <<< 56) % 2 ^ 64 ||| (bs 1 <<< 48) % 2 ^ 64 ||| (bs 2 <<< 40) % 2 ^ 64 |||
        (bs 3 <<< 32) % 2 ^ 64 ||| (bs 4 <<< 24) % 2 ^ 64 ||| (bs 5 <<< 16) % 2 ^ 64 |||
        (bs 6 <<< 8) % 2 ^ 64 ||| bs 7 : Nat) : Int)), f.n, none, f.rest⟩

/-- Method `Long.WriteTo`. -/
def Long.WriteTo (l : Int) (w : Writer) : WriteResult :=
  let n := uint64 l
  Write w [UInt8.ofNat (n >>> 56), UInt8.ofNat (n >>> 48), UInt8.ofNat (n >>> 40),
    UInt8.ofNat (n >>> 32), UInt8.ofNat (n >>> 24), UInt8.ofNat (n >>> 16),
    UInt8.ofNat (n >>> 8), UInt8.ofNat n]

/-- Type `Position`; the fields are Go `int`. -/
structure Position where
  X : Int
  Y : Int
  Z : Int
  deriving DecidableEq, Repr

/-- Method `Position.ReadFrom`. -/
def Position.ReadFrom (p : Position) (r : Reader) : ReadResult Position :=
  let res := Long.ReadFrom 0 r
  match res.err with
  | some e => ⟨p, res.n, some e, res.rest⟩
  | none =>
    let v := res.val
    let x := sar64 v 38
    let y := and64 v 0xFFF
    let z := sar64 (shl64 v 26) 38
    let x := if x ≥ 2 ^ 25 then x - 2 ^ 26 else x
    let y := if y ≥ 2 ^ 11 then y - 2 ^ 12 else y
    let z := if z ≥ 2 ^ 25 then z - 2 ^ 26 else z
    ⟨⟨x, y, z⟩, res.n, none, res.rest⟩

/-- The loop `for i := 7; i >= 0; i-- { b[i] = byte(position); position >>= 8 }`
of `Position.WriteTo`: the first argument counts the rounds still to run, the
last one is the part `b[i+1:]` of the array filled so far. -/
def Position.fillLoop : Nat → Nat → List UInt8 → List UInt8
  | 0, _, b => b
  | k + 1, position, b => Position.fillLoop k (position >>> 8) (UInt8.ofNat position :: b)

/-- Method `Position.WriteTo`. -/
def Position.WriteTo (p : Position) (w : Writer) : WriteResult :=
  let position := (uint64 (and64 p.X 0x3FFFFFF) <<< 38) % 2 ^ 64 |||
    uint64 (shl64 (and64 p.Z 0x3FFFFFF) 12) ||| uint64 (and64 p.Y 0xFFF)
  Write w (Position.fillLoop 8 position [])

/-! ## RawPacket: framing -/

/-- Type `RawPacket`. `Data` is the slice `p.Data`; `spare` holds the bytes of
its backing array between `len(p.Data)` and `cap(p.Data)`. -/
structure RawPacket where
  ID : Int
  Data : List UInt8
  spare : List UInt8
  deriving DecidableEq, Repr

/-- The `compress/zlib` package, as far as `packet.go` uses it.
`deflate b` is what a `zlib.Writer` has written to its underlying buffer once
the bytes `b` were written to it and it was closed.
`inflate c` is `zlib.NewReader` on a reader that holds exactly `c`: an error
when `NewReader` fails, otherwise the bytes that reads from the new reader
yield, and the error that reads return once these bytes are used up (`io.EOF`
for a stream that ends regularly). -/
structure Zlib where
  deflate : List UInt8 → List UInt8
  inflate : List UInt8 → Except Error (List UInt8 × Error)

/-- A codec that stores the bytes as they are; it serves as a concrete
instance of `Zlib`. -/
def Zlib.stored : Zlib :=
  ⟨fun b => b, fun c => Except.ok (c, Error.EOF)⟩

/-- The error that `readByte` and `io.ReadFull` return on a `zlib` reader
whose end-of-stream error is `e`, given the error they return on an in-memory
reader with the same bytes. -/
def zlibEnd (e : Error) : Error → Error
  | Error.EOF => e
  | Error.ErrUnexpectedEOF => if e = Error.EOF then Error.ErrUnexpectedEOF else e
  | err => err

/-- Constant `maxDataLength` of `unpackWithCompression`. -/
def maxDataLength : Int := 2097152

/-- Outcome of `Unpack`: the packet and the reader after the call, and the
returned error. -/
structure UnpackResult where
  p : RawPacket
  reader : Reader
  err : Option Error
  deriving DecidableEq, Repr

/-- The statement
`if cap(p.Data) < dataLength { p.Data = make([]byte, dataLength) } else { p.Data = p.Data[:dataLength] }`
of both unpack functions; `none` is the run-time panic of slicing with a
negative bound. -/
def RawPacket.setLen (p : RawPacket) (dataLength : Int) : Option RawPacket :=
  if ((p.Data.length + p.spare.length : Nat) : Int) < dataLength then
    some { p with Data := List.replicate dataLength.toNat 0, spare := [] }
  else if dataLength < 0 then none
  else
    some { p with Data := (p.Data ++ p.spare).take dataLength.toNat,
                  spare := (p.Data ++ p.spare).drop dataLength.toNat }

/-- Method `RawPacket.packWithoutCompression`: the writer after the call and
the returned error. The scratch buffer is emptied by `buffer.Reset()` before
it is used, so it starts as the empty buffer. -/
def RawPacket.packWithoutCompression (p : RawPacket) (writer : Writer) :
    Writer × Option Error :=
  let buffer : Writer := []
  let r1 := VarInt.WriteTo p.ID buffer
  match r1.err with
  | some e => (writer, some e)
  | none =>
    let buffer := r1.w
    let totalLength : Int := (buffer.length : Int) + (p.Data.length : Int)
    let r2 := VarInt.WriteTo (int32 totalLength) writer
    match r2.err with
    | some e => (r2.w, some e)
    | none =>
      let r3 := Write r2.w buffer
      match r3.err with
      | some e => (r3.w, some e)
      | none =>
        let r4 := Write r3.w p.Data
        (r4.w, r4.err)

/-- Method `RawPacket.packWithCompression`. -/
def RawPacket.packWithCompression (z : Zlib) (p : RawPacket) (writer : Writer)
    (threshold : Int) : Writer × Option Error :=
  let buffer : Writer := []
  if (p.Data.length : Int) < threshold then
    let r1 := VarInt.WriteTo 0 buffer
    match r1.err with
    | some e => (writer, some e)
    | none =>
      let r2 := VarInt.WriteTo p.ID r1.w
      match r2.err with
      | some e => (writer, some e)
      | none =>
        let r3 := Write r2.w p.Data
        match r3.err with
        | some e => (writer, some e)
        | none =>
          let buffer := r3.w
          let r4 := VarInt.WriteTo (int32 (buffer.length : Int)) writer
          match r4.err with
          | some e => (r4.w, some e)
          | none =>
            let r5 := Write r4.w buffer
            (r5.w, r5.err)
  else
    let ri := VarInt.WriteTo p.ID []
    match ri.err with
    | some e => (writer, some e)
    | none =>
      let idLength := ri.n
      let dataLength : Int := (p.Data.length : Int)
      let buffer := buffer ++ z.deflate (ri.w ++ p.Data)
      let rt := VarInt.WriteTo (int32 (idLength + dataLength)) []
      match rt.err with
      | some e => (writer, some e)
      | none =>
        let totalDataLength := rt.w
        let totalDataLengthLength := rt.n
        let r1 := VarInt.WriteTo (int32 (totalDataLengthLength + (buffer.length : Int))) writer
        match r1.err with
        | some e => (r1.w, some e)
        | none =>
          let r2 := Write r1.w totalDataLength
          match r2.err with
          | some e => (r2.w, some e)
          | none =>
            let r3 := Write r2.w buffer
            (r3.w, r3.err)

/-- Method `RawPacket.Pack`. -/
def RawPacket.Pack (z : Zlib) (p : RawPacket) (writer : Writer) (threshold : Int) :
    Writer × Option Error :=
  if threshold ≥ 0 then p.packWithCompression z writer threshold
  else p.packWithoutCompression writer

/-- Method `RawPacket.unpackWithoutCompression`. -/
def RawPacket.unpackWithoutCompression (p : RawPacket) (reader : Reader) :
    Option UnpackResult :=
  let rl := VarInt.ReadFrom 0 reader
  match rl.err with
  | some e => some ⟨p, rl.rest, some e⟩
  | none =>
    let length := rl.val
    let ri := VarInt.ReadFrom 0 rl.rest
    match ri.err with
    | some e => some ⟨p, ri.rest, some e⟩
    | none =>
      let p := { p with ID := int32 ri.val }
      let dataLength : Int := length - ri.n
      match p.setLen dataLength with
      | none => none
      | some p =>
        let f := ReadFull ri.rest p.Data
        some ⟨{ p with Data := f.buf }, f.rest, f.err⟩

/-- Method `RawPacket.unpackWithCompression`. -/
def RawPacket.unpackWithCompression (z : Zlib) (p : RawPacket) (reader : Reader)
    (threshold : Int) : Option UnpackResult :=
  let rl := VarInt.ReadFrom 0 reader
  match rl.err with
  | some e => some ⟨p, rl.rest, some e⟩
  | none =>
    let length := rl.val
    let c := CopyN [] rl.rest length
    match c.err with
    | some e => some ⟨p, c.rest, some e⟩
    | none =>
      let outer := c.rest
      let rd := VarInt.ReadFrom 0 c.dst
      match rd.err with
      | some e => some ⟨p, outer, some e⟩
      | none =>
        let dataLength := rd.val
        let dataLengthLength := rd.n
        if dataLength ≠ 0 then
          if dataLength < threshold then
            some ⟨p, outer, some (Error.belowThreshold dataLength threshold)⟩
          else if dataLength > maxDataLength then
            some ⟨p, outer, some (Error.aboveMaximum dataLength maxDataLength)⟩
          else
            match z.inflate rd.rest with
            | Except.error e => some ⟨p, outer, some e⟩
            | Except.ok (out, endErr) =>
              let ri := VarInt.ReadFrom 0 out
              match ri.err with
              | some e => some ⟨p, outer, some (zlibEnd endErr e)⟩
              | none =>
                let dataLength := int32 (dataLength - int32 ri.n)
                match p.setLen dataLength with
                | none => none
                | some p =>
                  let p := { p with ID := int32 ri.val }
                  let f := ReadFull ri.rest p.Data
                  some ⟨{ p with Data := f.buf }, outer, f.err.map (zlibEnd endErr)⟩
        else
          let ri := VarInt.ReadFrom 0 rd.rest
          match ri.err with
          | some e => some ⟨p, outer, some e⟩
          | none =>
            let dataLength := int32 (length - dataLengthLength - ri.n)
            match p.setLen dataLength with
            | none => none
            | some p =>
              let p := { p with ID := int32 ri.val }
              let f := ReadFull ri.rest p.Data
              some ⟨{ p with Data := f.buf }, outer, f.err⟩

/-- Method `RawPacket.Unpack`. -/
def RawPacket.Unpack (z : Zlib) (p : RawPacket) (reader : Reader) (threshold : Int) :
    Option UnpackResult :=
  if threshold ≥ 0 then p.unpackWithCompression z reader threshold
  else p.unpackWithoutCompression reader

/-! ## The other primitive types

Integer values are `Int`, a `String` is the sequence of its bytes, a `UUID` is
the list of its 16 bytes, and a `Float` or `Double` is its IEEE-754 bit
pattern, on which `math.Float32bits` and `math.Float32frombits` are the
identity. -/

/-- Go conversion `uint16(x)`. -/
def uint16 (x : Int) : Nat := (x % 2 ^ 16).toNat

/-- Go conversion `int16(x)`. -/
def int16 (x : Int) : Int := (x + 2 ^ 15) % 2 ^ 16 - 2 ^ 15

/-- Go conversion `int8(x)`. -/
def int8 (x : Int) : Int := (x + 2 ^ 7) % 2 ^ 8 - 2 ^ 7

/-- Go conversion `byte(x)`. -/
def byte (x : Int) : UInt8 := UInt8.ofNat (x % 2 ^ 8).toNat

/-- Method `Boolean.ReadFrom`. -/
def Boolean.ReadFrom (b : Bool) (r : Reader) : ReadResult Bool :=
  match readByte r with
  | (_, some e, r') => ⟨b, 1, some e, r'⟩
  | (v, none, r') => ⟨decide (v ≠ 0), 1, none, r'⟩

/-- Method `Boolean.WriteTo`. -/
def Boolean.WriteTo (b : Bool) (w : Writer) : WriteResult :=
  let v : UInt8 := if b then 0x01 else 0x00
  Write w [v]

/-- Method `Byte.ReadFrom`. -/
def Byte.ReadFrom (b : Int) (r : Reader) : ReadResult Int :=
  match readByte r with
  | (_, some e, r') => ⟨b, 0, some e, r'⟩
  | (v, none, r') => ⟨int8 (v.toNat : Int), 1, none, r'⟩

/-- Method `Byte.WriteTo`. -/
def Byte.WriteTo (b : Int) (w : Writer) : WriteResult :=
  Write w [byte b]

/-- Method `UnsignedByte.ReadFrom`. -/
def UnsignedByte.ReadFrom (u : Int) (r : Reader) : ReadResult Int :=
  match readByte r with
  | (_, some e, r') => ⟨u, 0, some e, r'⟩
  | (v, none, r') => ⟨(v.toNat : Int), 1, none, r'⟩

/-- Method `UnsignedByte.WriteTo`. -/
def UnsignedByte.WriteTo (u : Int) (w : Writer) : WriteResult :=
  Write w [byte u]

/-- Method `Short.ReadFrom`. The shift and the OR of the source are on `int16`;
here they are taken on the bit patterns and the result is read as `int16`. -/
def Short.ReadFrom (s : Int) (r : Reader) : ReadResult Int :=
  let f := ReadFull r (List.replicate 2 0)
  match f.err with
  | some e => ⟨s, f.n, some e, f.rest⟩
  | none =>
    let bs := fun (i : Nat) => (f.buf.getD i 0).toNat
    ⟨int16 ((((bs 0 <<< 8) % 2 ^ 16 ||| bs 1 : Nat) : Int)), f.n, none, f.rest⟩

/-- Method `Short.WriteTo`. -/
def Short.WriteTo (s : Int) (w : Writer) : WriteResult :=
  let n := uint16 s
  Write w [UInt8.ofNat (n >>> 8), UInt8.ofNat n]

/-- Method `UnsignedShort.ReadFrom`: the `int16` value of `Short.ReadFrom`,
converted to `uint16`. -/
def UnsignedShort.ReadFrom (us : Int) (r : Reader) : ReadResult Int :=
  let f := ReadFull r (List.replicate 2 0)
  match f.err with
  | some e => ⟨us, f.n, some e, f.rest⟩
  | none =>
    let bs := fun (i : Nat) => (f.buf.getD i 0).toNat
    ⟨((uint16 (int16 ((((bs 0 <<< 8) % 2 ^ 16 ||| bs 1 : Nat) : Int))) : Nat) : Int), f.n, none,
      f.rest⟩

/-- Method `UnsignedShort.WriteTo`. -/
def UnsignedShort.WriteTo (us : Int) (w : Writer) : WriteResult :=
  let n := uint16 us
  Write w [UInt8.ofNat (n >>> 8), UInt8.ofNat n]

/-- Method `Int.ReadFrom`. -/
def Int.ReadFrom (i : Int) (r : Reader) : ReadResult Int :=
  let f := ReadFull r (List.replicate 4 0)
  match f.err with
  | some e => ⟨i, f.n, some e, f.rest⟩
  | none =>
    let bs := fun (k : Nat) => (f.buf.getD k 0).toNat
    ⟨int32 ((((bs 0 <<< 24) % 2 ^ 32 ||| (bs 1 <<< 16) % 2 ^ 32 ||| (bs 2 <<< 8) % 2 ^ 32 |||
      bs 3 : Nat) : Int)), f.n, none, f.rest⟩

/-- Method `Int.WriteTo`. -/
def Int.WriteTo (i : Int) (w : Writer) : WriteResult :=
  let n := uint32 i
  Write w [UInt8.ofNat (n >>> 24), UInt8.ofNat (n >>> 16), UInt8.ofNat (n >>> 8), UInt8.ofNat n]

/-- Method `Float.ReadFrom`, on the bit pattern of the float. -/
def Float.ReadFrom (f : Nat) (r : Reader) : ReadResult Nat :=
  let res := Int.ReadFrom 0 r
  match res.err with
  | some e => ⟨f, res.n, some e, res.rest⟩
  | none => ⟨uint32 res.val, res.n, none, res.rest⟩

/-- Method `Float.WriteTo`, on the bit pattern of the float. -/
def Float.WriteTo (f : Nat) (w : Writer) : WriteResult :=
  Int.WriteTo (int32 (f : Int)) w

/-- Method `Double.ReadFrom`, on the bit pattern of the float. -/
def Double.ReadFrom (d : Nat) (r : Reader) : ReadResult Nat :=
  let res := Long.ReadFrom 0 r
  match res.err with
  | some e => ⟨d, res.n, some e, res.rest⟩
  | none => ⟨uint64 res.val, res.n, none, res.rest⟩

/-- Method `Double.WriteTo`, on the bit pattern of the float. -/
def Double.WriteTo (d : Nat) (w : Writer) : WriteResult :=
  Long.WriteTo (int64 (d : Int)) w

/-- Method `String.ReadFrom`; `none` is the run-time panic of `make([]byte, l)`
with a negative length. -/
def String.ReadFrom (s : List UInt8) (r : Reader) : Option (ReadResult (List UInt8)) :=
  let rl := VarInt.ReadFrom 0 r
  match rl.err with
  | some e => some ⟨s, rl.n, some e, rl.rest⟩
  | none =>
    let n := rl.n
    let l := rl.val
    if l < 0 then none
    else
      let bs : List UInt8 := List.replicate l.toNat 0
      let f := ReadFull rl.rest bs
      match f.err with
      | some e => some ⟨s, n, some e, f.rest⟩
      | none => some ⟨f.buf, n + l, none, f.rest⟩

/-- Method `String.WriteTo`. -/
def String.WriteTo (s : List UInt8) (w : Writer) : WriteResult :=
  let byteStr := s
  let r1 := VarInt.WriteTo (int32 (byteStr.length : Int)) w
  match r1.err with
  | some e => ⟨r1.w, r1.n, some e⟩
  | none =>
    let r2 := Write r1.w byteStr
    ⟨r2.w, r1.n + r2.n, r2.err⟩

/-- Methods `EntityMetadata.ReadFrom`, `Slot.ReadFrom` and `NBTTag.ReadFrom`:
they read nothing and fail. -/
def notImplemented.ReadFrom {α : Type} (name : String) (old : α) (r : Reader) : ReadResult α :=
  ⟨old, 0, some (Error.notImplemented name), r⟩

/-- Methods `EntityMetadata.WriteTo`, `Slot.WriteTo` and `NBTTag.WriteTo`: they
write nothing and fail. -/
def notImplemented.WriteTo (name : String) (w : Writer) : WriteResult :=
  ⟨w, 0, some (Error.notImplemented name)⟩

/-- Method `Angle.ReadFrom`. -/
def Angle.ReadFrom (a : Int) (r : Reader) : ReadResult Int :=
  Byte.ReadFrom a r

/-- Method `Angle.WriteTo`. -/
def Angle.WriteTo (a : Int) (w : Writer) : WriteResult :=
  Byte.WriteTo a w

/-- Method `UUID.ReadFrom`. -/
def UUID.ReadFrom (u : List UInt8) (r : Reader) : ReadResult (List UInt8) :=
  let f := ReadFull r u
  ⟨f.buf, f.n, f.err, f.rest⟩

/-- Method `UUID.WriteTo`. -/
def UUID.WriteTo (u : List UInt8) (w : Writer) : WriteResult :=
  Write w u

/-- Method `ByteArray.ReadFrom`. The buffer made from the slice is emptied by
`buf.Reset()` before the copy. -/
def ByteArray.ReadFrom (b : List UInt8) (r : Reader) : ReadResult (List UInt8) :=
  let rl := VarInt.ReadFrom 0 r
  match rl.err with
  | some e => ⟨b, rl.n, some e, rl.rest⟩
  | none =>
    let buf : Writer := []
    let c := CopyN buf rl.rest rl.val
    ⟨c.dst, rl.n + c.written, c.err, c.rest⟩

/-- Method `ByteArray.WriteTo`. -/
def ByteArray.WriteTo (b : List UInt8) (w : Writer) : WriteResult :=
  let r1 := VarInt.WriteTo (int32 (b.length : Int)) w
  match r1.err with
  | some e => ⟨r1.w, r1.n, some e⟩
  | none =>
    let r2 := Write r1.w b
    ⟨r2.w, r1.n + r2.n, r2.err⟩

/-! ## RawPacket: Marshal and Unmarshal -/

/-- Interface `Type`: a value of one of the primitive types, or a slot that
holds one. -/
inductive Value
  | Boolean (b : Bool)
  | Byte (v : ℤ)
  | UnsignedByte (v : ℤ)
  | Short (v : ℤ)
  | UnsignedShort (v : ℤ)
  | Int (v : ℤ)
  | Long (v : ℤ)
  | Float (bits : Nat)
  | Double (bits : Nat)
  | String (s : List UInt8)
  | VarInt (v : ℤ)
  | VarLong (v : ℤ)
  | EntityMetadata
  | Slot
  | NBTTag
  | Position (p : Position)
  | Angle (v : ℤ)
  | UUID (u : List UInt8)
  | ByteArray (b : List UInt8)
  deriving DecidableEq, Repr

/-- The Go types that implement `Type`. -/
inductive Kind
  | Boolean | Byte | UnsignedByte | Short | UnsignedShort | Int | Long | Float | Double
  | String | VarInt | VarLong | EntityMetadata | Slot | NBTTag | Position | Angle | UUID
  | ByteArray
  deriving DecidableEq, Repr

/-- The Go type of a value. -/
def Value.kind : Value → Kind
  | Value.Boolean _ => Kind.Boolean
  | Value.Byte _ => Kind.Byte
  | Value.UnsignedByte _ => Kind.UnsignedByte
  | Value.Short _ => Kind.Short
  | Value.UnsignedShort _ => Kind.UnsignedShort
  | Value.Int _ => Kind.Int
  | Value.Long _ => Kind.Long
  | Value.Float _ => Kind.Float
  | Value.Double _ => Kind.Double
  | Value.String _ => Kind.String
  | Value.VarInt _ => Kind.VarInt
  | Value.VarLong _ => Kind.VarLong
  | Value.EntityMetadata => Kind.EntityMetadata
  | Value.Slot => Kind.Slot
  | Value.NBTTag => Kind.NBTTag
  | Value.Position _ => Kind.Position
  | Value.Angle _ => Kind.Angle
  | Value.UUID _ => Kind.UUID
  | Value.ByteArray _ => Kind.ByteArray

/-- The receiver of a `ReadResult`, wrapped as a `Value`. -/
def ReadResult.wrap {α : Type} (f : α → Value) (res : ReadResult α) : ReadResult Value :=
  ⟨f res.val, res.n, res.err, res.rest⟩

/-- Method `t.WriteTo(w)` of a `Type`. -/
def Value.WriteTo : Value → Writer → WriteResult
  | Value.Boolean b, w => Boolean.WriteTo b w
  | Value.Byte v, w => Byte.WriteTo v w
  | Value.UnsignedByte v, w => UnsignedByte.WriteTo v w
  | Value.Short v, w => Short.WriteTo v w
  | Value.UnsignedShort v, w => UnsignedShort.WriteTo v w
  | Value.Int v, w => Int.WriteTo v w
  | Value.Long v, w => Long.WriteTo v w
  | Value.Float f, w => Float.WriteTo f w
  | Value.Double d, w => Double.WriteTo d w
  | Value.String s, w => String.WriteTo s w
  | Value.VarInt v, w => VarInt.WriteTo v w
  | Value.VarLong v, w => VarLong.WriteTo v w
  | Value.EntityMetadata, w => notImplemented.WriteTo "proto.EntityMetadata" w
  | Value.Slot, w => notImplemented.WriteTo "proto.Slot" w
  | Value.NBTTag, w => notImplemented.WriteTo "proto.NBTTag" w
  | Value.Position p, w => Position.WriteTo p w
  | Value.Angle v, w => Angle.WriteTo v w
  | Value.UUID u, w => UUID.WriteTo u w
  | Value.ByteArray b, w => ByteArray.WriteTo b w

/-- Method `t.ReadFrom(r)` of a `Type`; `none` is a run-time panic. -/
def Value.ReadFrom : Value → Reader → Option (ReadResult Value)
  | Value.Boolean b, r => some ((Boolean.ReadFrom b r).wrap Value.Boolean)
  | Value.Byte v, r => some ((Byte.ReadFrom v r).wrap Value.Byte)
  | Value.UnsignedByte v, r => some ((UnsignedByte.ReadFrom v r).wrap Value.UnsignedByte)
  | Value.Short v, r => some ((Short.ReadFrom v r).wrap Value.Short)
  | Value.UnsignedShort v, r => some ((UnsignedShort.ReadFrom v r).wrap Value.UnsignedShort)
  | Value.Int v, r => some ((Int.ReadFrom v r).wrap Value.Int)
  | Value.Long v, r => some ((Long.ReadFrom v r).wrap Value.Long)
  | Value.Float f, r => some ((Float.ReadFrom f r).wrap Value.Float)
  | Value.Double d, r => some ((Double.ReadFrom d r).wrap Value.Double)
  | Value.String s, r => (String.ReadFrom s r).map (ReadResult.wrap Value.String)
  | Value.VarInt v, r => some ((VarInt.ReadFrom v r).wrap Value.VarInt)
  | Value.VarLong v, r => some ((VarLong.ReadFrom v r).wrap Value.VarLong)
  | Value.EntityMetadata, r =>
    some (notImplemented.ReadFrom "proto.EntityMetadata" Value.EntityMetadata r)
  | Value.Slot, r => some (notImplemented.ReadFrom "proto.Slot" Value.Slot r)
  | Value.NBTTag, r => some (notImplemented.ReadFrom "proto.NBTTag" Value.NBTTag r)
  | Value.Position p, r => some ((Position.ReadFrom p r).wrap Value.Position)
  | Value.Angle v, r => some ((Angle.ReadFrom v r).wrap Value.Angle)
  | Value.UUID u, r => some ((UUID.ReadFrom u r).wrap Value.UUID)
  | Value.ByteArray b, r => some ((ByteArray.ReadFrom b r).wrap Value.ByteArray)

/-- The loop of `RawPacket.Marshal` over `types`, on the local buffer: the
buffer after the loop and the error that ends it. -/
def marshalLoop : Writer → List Value → Writer × Option Error
  | buffer, [] => (buffer, none)
  | buffer, t :: types =>
    let res := t.WriteTo buffer
    match res.err with
    | some e => (res.w, some e)
    | none => marshalLoop res.w types

/-- Method `RawPacket.Marshal`: the packet after the call and the returned
error. The capacity that the buffer leaves behind `p.Data` is not fixed by the
source; `slack` stands for the bytes of the backing array behind the data. -/
def RawPacket.Marshal (p : RawPacket) (types : List Value) (slack : List UInt8) :
    RawPacket × Option Error :=
  match marshalLoop [] types with
  | (_, some e) => (p, some e)
  | (buffer, none) => ({ p with Data := buffer, spare := slack }, none)

/-- Outcome of `Unmarshal`: the slots after the call and the returned error. -/
structure UnmarshalResult where
  types : List Value
  err : Option Error
  deriving DecidableEq, Repr

/-- The loop of `RawPacket.Unmarshal` over the slots `types`, on the reader;
`none` is a run-time panic. -/
def unmarshalLoop : Reader → List Value → Option UnmarshalResult
  | _, [] => some ⟨[], none⟩
  | reader, t :: types =>
    match t.ReadFrom reader with
    | none => none
    | some res =>
      match res.err with
      | some e => some ⟨res.val :: types, some e⟩
      | none =>
        match unmarshalLoop res.rest types with
        | none => none
        | some u => some ⟨res.val :: u.types, u.err⟩

/-- Method `RawPacket.Unmarshal`. -/
def RawPacket.Unmarshal (p : RawPacket) (types : List Value) : Option UnmarshalResult :=
  unmarshalLoop p.Data types

/-- The values that the Go type of each kind holds: the range of the integer
types (Go `int` for the fields of a `Position`) and the 16 bytes of a `UUID`. -/
def Value.wf : Value → Prop
  | Value.Byte v => -2 ^ 7 ≤ v ∧ v < 2 ^ 7
  | Value.UnsignedByte v => 0 ≤ v ∧ v < 2 ^ 8
  | Value.Short v => -2 ^ 15 ≤ v ∧ v < 2 ^ 15
  | Value.UnsignedShort v => 0 ≤ v ∧ v < 2 ^ 16
  | Value.Int v => -2 ^ 31 ≤ v ∧ v < 2 ^ 31
  | Value.Long v => -2 ^ 63 ≤ v ∧ v < 2 ^ 63
  | Value.Float f => f < 2 ^ 32
  | Value.Double d => d < 2 ^ 64
  | Value.VarInt v => -2 ^ 31 ≤ v ∧ v < 2 ^ 31
  | Value.VarLong v => -2 ^ 63 ≤ v ∧ v < 2 ^ 63
  | Value.Position p =>
    (-2 ^ 63 ≤ p.X ∧ p.X < 2 ^ 63) ∧ (-2 ^ 63 ≤ p.Y ∧ p.Y < 2 ^ 63) ∧ (-2 ^ 63 ≤ p.Z ∧ p.Z < 2 ^ 63)
  | Value.Angle v => -2 ^ 7 ≤ v ∧ v < 2 ^ 7
  | Value.UUID u => u.length = 16
  | _ => True

/-- The values of the supported kinds: Boolean, Byte, UnsignedByte, Short,
UnsignedShort, Int, Long, VarInt, VarLong, UUID and Angle within the range of
their type, a Position within its bit widths, and a String or ByteArray whose
byte length fits a non-negative VarInt. -/
def Value.supported : Value → Prop
  | Value.Float _ => False
  | Value.Double _ => False
  | Value.EntityMetadata => False
  | Value.Slot => False
  | Value.NBTTag => False
  | Value.Position p =>
    (-2 ^ 25 ≤ p.X ∧ p.X ≤ 2 ^ 25 - 1) ∧ (-2 ^ 25 ≤ p.Z ∧ p.Z ≤ 2 ^ 25 - 1) ∧
      (-2 ^ 11 ≤ p.Y ∧ p.Y ≤ 2 ^ 11 - 1)
  | Value.String s => (s.length : ℤ) ≤ 2 ^ 31 - 1
  | Value.ByteArray b => (b.length : ℤ) ≤ 2 ^ 31 - 1
  | v => v.wf

instance Value.wf.decidable (v : Value) : Decidable v.wf := by
  cases v <;> unfold Value.wf <;> infer_instance

instance Value.supported.decidable (v : Value) : Decidable v.supported := by
  cases v <;> unfold Value.supported <;> infer_instance

/-- Big-endian byte order, as the format table states it: the `k` low bytes of
the bit pattern `x`, most significant byte first. -/
def bigEndian : Nat → Nat → List UInt8
  | 0, _ => []
  | k + 1, x => UInt8.ofNat (x / 256 ^ k) :: bigEndian k x

/-- The two's-complement bit pattern of `v` in a word of `bits` bits. -/
def twosComplement (bits : Nat) (v : Int) : Nat := (v % 2 ^ bits).toNat

/-- A string of `2^31` zero bytes. -/
def hugeString : List UInt8 := List.replicate 2147483648 0

/-- A payload of `2^31 - 2` zero bytes. -/
def hugePayload : List UInt8 := List.replicate 2147483646 0

/-- Constant `Handshake_ID`. -/
def Handshake_ID : Int := 0x00

/-- Constant `LegacyServerListPing_ID`. -/
def LegacyServerListPing_ID : Int := 0xFE

/-- Constant `LoginDisconnect_ID`. -/
def LoginDisconnect_ID : Int := 0x00

/-- Constant `EncryptionRequest_ID`. -/
def EncryptionRequest_ID : Int := 0x01

/-- Constant `LoginSuccess_ID`. -/
def LoginSuccess_ID : Int := 0x02

/-- Constant `SetCompression_ID`. -/
def SetCompression_ID : Int := 0x03

/-- Constant `LoginPluginRequest_ID`. -/
def LoginPluginRequest_ID : Int := 0x04

/-- Constant `LoginStart_ID`. -/
def LoginStart_ID : Int := 0x00

/-- Constant `EncryptionResponse_ID`. -/
def EncryptionResponse_ID : Int := 0x01

/-- Constant `LoginPluginResponse_ID`. -/
def LoginPluginResponse_ID : Int := 0x04

/-- Constant `Response_ID`. -/
def Response_ID : Int := 0x00

/-- Constant `Pong_ID`. -/
def Pong_ID : Int := 0x01

/-- Constant `Request_ID`. -/
def Request_ID : Int := 0x00

/-- Constant `Ping_ID`. -/
def Ping_ID : Int := 0x01

/-- Interface `Packet`: the record types of `handshake.go`, `login.go` and
`status.go`, each with its fields in declaration order. -/
inductive Packet
  | Handshake (ProtocolVersion : Int) (ServerAddress : List UInt8) (ServerPort : Int)
      (NextState : Int)
  | LegacyServerListPing (Payload : Int)
  | LoginDisconnect (Reason : List UInt8)
  | EncryptionRequest (ServerID : List UInt8) (PublicKeyLength : Int) (PublicKey : List UInt8)
      (VerifyTokenLength : Int) (VerifyToken : List UInt8)
  | LoginSuccess (UUID : List UInt8) (Username : List UInt8)
  | SetCompression (Threshold : Int)
  | LoginPluginRequest (MessageID : Int) (Channel : List UInt8) (Data : List UInt8)
  | LoginStart (Name : List UInt8)
  | EncryptionResponse (SharedSecretLength : Int) (SharedSecret : List UInt8)
      (VerifyTokenLength : Int) (VerifyToken : List UInt8)
  | LoginPluginResponse (MessageID : Int) (Successful : Bool) (Data : List UInt8)
  | Response (JSONResponse : List UInt8)
  | Pong (Payload : Int)
  | Request
  | Ping (Payload : Int)
  deriving DecidableEq, Repr

/-- Method `ToRaw` of each record type: the RawPacket after the call and the
returned error; `slack` is the one of `Marshal`. -/
def Packet.ToRaw : Packet → RawPacket → List UInt8 → RawPacket × Option Error
  | Packet.Handshake pv sa sp ns, p, slack =>
    RawPacket.Marshal { p with ID := Handshake_ID }
      [Value.VarInt pv, Value.String sa, Value.UnsignedShort sp, Value.VarInt ns] slack
  | Packet.LegacyServerListPing pl, p, slack =>
    RawPacket.Marshal { p with ID := LegacyServerListPing_ID } [Value.UnsignedByte pl] slack
  | Packet.LoginDisconnect re, p, slack =>
    RawPacket.Marshal { p with ID := LoginDisconnect_ID } [Value.String re] slack
  | Packet.EncryptionRequest si kl pk tl vt, p, slack =>
    RawPacket.Marshal { p with ID := EncryptionRequest_ID }
      [Value.String si, Value.VarInt kl, Value.ByteArray pk, Value.VarInt tl, Value.ByteArray vt]
      slack
  | Packet.LoginSuccess uu un, p, slack =>
    RawPacket.Marshal { p with ID := LoginSuccess_ID } [Value.UUID uu, Value.String un] slack
  | Packet.SetCompression th, p, slack =>
    RawPacket.Marshal { p with ID := SetCompression_ID } [Value.VarInt th] slack
  | Packet.LoginPluginRequest mi ch da, p, slack =>
    RawPacket.Marshal { p with ID := LoginPluginRequest_ID }
      [Value.VarInt mi, Value.String ch, Value.ByteArray da] slack
  | Packet.LoginStart na, p, slack =>
    RawPacket.Marshal { p with ID := LoginStart_ID } [Value.String na] slack
  | Packet.EncryptionResponse sl ss tl vt, p, slack =>
    RawPacket.Marshal { p with ID := EncryptionResponse_ID }
      [Value.VarInt sl, Value.ByteArray ss, Value.VarInt tl, Value.ByteArray vt] slack
  | Packet.LoginPluginResponse mi su da, p, slack =>
    RawPacket.Marshal { p with ID := LoginPluginResponse_ID }
      [Value.VarInt mi, Value.Boolean su, Value.ByteArray da] slack
  | Packet.Response js, p, slack =>
    RawPacket.Marshal { p with ID := Response_ID } [Value.String js] slack
  | Packet.Pong pl, p, slack =>
    RawPacket.Marshal { p with ID := Pong_ID } [Value.Long pl] slack
  | Packet.Request, p, _ => ({ p with ID := Request_ID }, none)
  | Packet.Ping pl, p, slack =>
    RawPacket.Marshal { p with ID := Ping_ID } [Value.Long pl] slack

/-- Method `FromRaw` of each record type: the record after the call and the
returned error; `none` is a run-time panic. The error of the identity check is
`fmt.Errorf("invalid packet ID for <record>: %d", p.ID)`. -/
def Packet.FromRaw : Packet → RawPacket → Option (Packet × Option Error)
  | Packet.Handshake pv sa sp ns, p =>
    if p.ID ≠ Handshake_ID then
      some (Packet.Handshake pv sa sp ns, some (Error.invalidPacketID "Handshake" p.ID))
    else
      match p.Unmarshal
        [Value.VarInt pv, Value.String sa, Value.UnsignedShort sp, Value.VarInt ns] with
      | some ⟨[Value.VarInt pv, Value.String sa, Value.UnsignedShort sp, Value.VarInt ns], err⟩ =>
        some (Packet.Handshake pv sa sp ns, err)
      | _ => none
  | Packet.LegacyServerListPing pl, p =>
    if p.ID ≠ LegacyServerListPing_ID then
      some (Packet.LegacyServerListPing pl,
        some (Error.invalidPacketID "LegacyServerListPing" p.ID))
    else
      match p.Unmarshal [Value.UnsignedByte pl] with
      | some ⟨[Value.UnsignedByte pl], err⟩ => some (Packet.LegacyServerListPing pl, err)
      | _ => none
  | Packet.LoginDisconnect re, p =>
    if p.ID ≠ LoginDisconnect_ID then
      some (Packet.LoginDisconnect re, some (Error.invalidPacketID "LoginDisconnect" p.ID))
    else
      match p.Unmarshal [Value.String re] with
      | some ⟨[Value.String re], err⟩ => some (Packet.LoginDisconnect re, err)
      | _ => none
  | Packet.EncryptionRequest si kl pk tl vt, p =>
    if p.ID ≠ EncryptionRequest_ID then
      some (Packet.EncryptionRequest si kl pk tl vt,
        some (Error.invalidPacketID "EncryptionRequest" p.ID))
    else
      match p.Unmarshal
        [Value.String si, Value.VarInt kl, Value.ByteArray pk, Value.VarInt tl,
          Value.ByteArray vt] with
      | some ⟨[Value.String si, Value.VarInt kl, Value.ByteArray pk, Value.VarInt tl,
          Value.ByteArray vt], err⟩ =>
        some (Packet.EncryptionRequest si kl pk tl vt, err)
      | _ => none
  | Packet.LoginSuccess uu un, p =>
    if p.ID ≠ LoginSuccess_ID then
      some (Packet.LoginSuccess uu un, some (Error.invalidPacketID "LoginSuccess" p.ID))
    else
      match p.Unmarshal [Value.UUID uu, Value.String un] with
      | some ⟨[Value.UUID uu, Value.String un], err⟩ => some (Packet.LoginSuccess uu un, err)
      | _ => none
  | Packet.SetCompression th, p =>
    if p.ID ≠ SetCompression_ID then
      some (Packet.SetCompression th, some (Error.invalidPacketID "SetCompression" p.ID))
    else
      match p.Unmarshal [Value.VarInt th] with
      | some ⟨[Value.VarInt th], err⟩ => some (Packet.SetCompression th, err)
      | _ => none
  | Packet.LoginPluginRequest mi ch da, p =>
    if p.ID ≠ LoginPluginRequest_ID then
      some (Packet.LoginPluginRequest mi ch da,
        some (Error.invalidPacketID "LoginPluginRequest" p.ID))
    else
      match p.Unmarshal [Value.VarInt mi, Value.String ch, Value.ByteArray da] with
      | some ⟨[Value.VarInt mi, Value.String ch, Value.ByteArray da], err⟩ =>
        some (Packet.LoginPluginRequest mi ch da, err)
      | _ => none
  | Packet.LoginStart na, p =>
    if p.ID ≠ LoginStart_ID then
      some (Packet.LoginStart na, some (Error.invalidPacketID "LoginStart" p.ID))
    else
      match p.Unmarshal [Value.String na] with
      | some ⟨[Value.String na], err⟩ => some (Packet.LoginStart na, err)
      | _ => none
  | Packet.EncryptionResponse sl ss tl vt, p =>
    if p.ID ≠ EncryptionResponse_ID then
      some (Packet.EncryptionResponse sl ss tl vt,
        some (Error.invalidPacketID "EncryptionResponse" p.ID))
    else
      match p.Unmarshal
        [Value.VarInt sl, Value.ByteArray ss, Value.VarInt tl, Value.ByteArray vt] with
      | some ⟨[Value.VarInt sl, Value.ByteArray ss, Value.VarInt tl, Value.ByteArray vt], err⟩ =>
        some (Packet.EncryptionResponse sl ss tl vt, err)
      | _ => none
  | Packet.LoginPluginResponse mi su da, p =>
    if p.ID ≠ LoginPluginResponse_ID then
      some (Packet.LoginPluginResponse mi su da,
        some (Error.invalidPacketID "LoginPluginResponse" p.ID))
    else
      match p.Unmarshal [Value.VarInt mi, Value.Boolean su, Value.ByteArray da] with
      | some ⟨[Value.VarInt mi, Value.Boolean su, Value.ByteArray da], err⟩ =>
        some (Packet.LoginPluginResponse mi su da, err)
      | _ => none
  | Packet.Response js, p =>
    if p.ID ≠ Response_ID then
      some (Packet.Response js, some (Error.invalidPacketID "Response" p.ID))
    else
      match p.Unmarshal [Value.String js] with
      | some ⟨[Value.String js], err⟩ => some (Packet.Response js, err)
      | _ => none
  | Packet.Pong pl, p =>
    if p.ID ≠ Pong_ID then
      some (Packet.Pong pl, some (Error.invalidPacketID "Pong" p.ID))
    else
      match p.Unmarshal [Value.Long pl] with
      | some ⟨[Value.Long pl], err⟩ => some (Packet.Pong pl, err)
      | _ => none
  | Packet.Request, p =>
    if p.ID ≠ Request_ID then
      some (Packet.Request, some (Error.invalidPacketID "Request" p.ID))
    else some (Packet.Request, none)
  | Packet.Ping pl, p =>
    if p.ID ≠ Ping_ID then
      some (Packet.Ping pl, some (Error.invalidPacketID "Ping" p.ID))
    else
      match p.Unmarshal [Value.Long pl] with
      | some ⟨[Value.Long pl], err⟩ => some (Packet.Ping pl, err)
      | _ => none

/-- The declared id of a record: its constant `<record>_ID`. -/
def Packet.ID : Packet → Int
  | Packet.Handshake _ _ _ _ => Handshake_ID
  | Packet.LegacyServerListPing _ => LegacyServerListPing_ID
  | Packet.LoginDisconnect _ => LoginDisconnect_ID
  | Packet.EncryptionRequest _ _ _ _ _ => EncryptionRequest_ID
  | Packet.LoginSuccess _ _ => LoginSuccess_ID
  | Packet.SetCompression _ => SetCompression_ID
  | Packet.LoginPluginRequest _ _ _ => LoginPluginRequest_ID
  | Packet.LoginStart _ => LoginStart_ID
  | Packet.EncryptionResponse _ _ _ _ => EncryptionResponse_ID
  | Packet.LoginPluginResponse _ _ _ => LoginPluginResponse_ID
  | Packet.Response _ => Response_ID
  | Packet.Pong _ => Pong_ID
  | Packet.Request => Request_ID
  | Packet.Ping _ => Ping_ID

/-- The name of the type of a record. -/
def Packet.name : Packet → String
  | Packet.Handshake _ _ _ _ => "Handshake"
  | Packet.LegacyServerListPing _ => "LegacyServerListPing"
  | Packet.LoginDisconnect _ => "LoginDisconnect"
  | Packet.EncryptionRequest _ _ _ _ _ => "EncryptionRequest"
  | Packet.LoginSuccess _ _ => "LoginSuccess"
  | Packet.SetCompression _ => "SetCompression"
  | Packet.LoginPluginRequest _ _ _ => "LoginPluginRequest"
  | Packet.LoginStart _ => "LoginStart"
  | Packet.EncryptionResponse _ _ _ _ => "EncryptionResponse"
  | Packet.LoginPluginResponse _ _ _ => "LoginPluginResponse"
  | Packet.Response _ => "Response"
  | Packet.Pong _ => "Pong"
  | Packet.Request => "Request"
  | Packet.Ping _ => "Ping"

/-- The fields of a record in declaration order. -/
def Packet.fields : Packet → List Value
  | Packet.Handshake pv sa sp ns =>
    [Value.VarInt pv, Value.String sa, Value.UnsignedShort sp, Value.VarInt ns]
  | Packet.LegacyServerListPing pl => [Value.UnsignedByte pl]
  | Packet.LoginDisconnect re => [Value.String re]
  | Packet.EncryptionRequest si kl pk tl vt =>
    [Value.String si, Value.VarInt kl, Value.ByteArray pk, Value.VarInt tl, Value.ByteArray vt]
  | Packet.LoginSuccess uu un => [Value.UUID uu, Value.String un]
  | Packet.SetCompression th => [Value.VarInt th]
  | Packet.LoginPluginRequest mi ch da =>
    [Value.VarInt mi, Value.String ch, Value.ByteArray da]
  | Packet.LoginStart na => [Value.String na]
  | Packet.EncryptionResponse sl ss tl vt =>
    [Value.VarInt sl, Value.ByteArray ss, Value.VarInt tl, Value.ByteArray vt]
  | Packet.LoginPluginResponse mi su da =>
    [Value.VarInt mi, Value.Boolean su, Value.ByteArray da]
  | Packet.Response js => [Value.String js]
  | Packet.Pong pl => [Value.Long pl]
  | Packet.Request => []
  | Packet.Ping pl => [Value.Long pl]

/-! ## The buffer pool -/

/-- What `bufPool` can hold: a `sync.Pool` stores values of any type, here a
`*bytes.Buffer` with its content or a `*int`. -/
inductive PoolItem
  | buffer (content : List UInt8)
  | intPtr (v : Int)
  deriving DecidableEq, Repr

/-- The items that `bufPool` holds, as `sync.Pool` keeps them for one goroutine
between two garbage collections: the slot `private` and the list `shared`. -/
structure Pool where
  priv : Option PoolItem
  shared : List PoolItem
  deriving DecidableEq, Repr

/-- Method `bufPool.Get()`: the item of the private slot if there is one, else
the head of the shared list, else a new empty buffer from `New`. -/
def bufPool.Get : Pool → PoolItem × Pool
  | ⟨some x, shared⟩ => (x, ⟨none, shared⟩)
  | ⟨none, x :: shared⟩ => (x, ⟨none, shared⟩)
  | ⟨none, []⟩ => (PoolItem.buffer [], ⟨none, []⟩)

/-- Method `bufPool.Put(x)`: into the private slot if it is free, else at the
head of the shared list. -/
def bufPool.Put : Pool → PoolItem → Pool
  | ⟨none, shared⟩, x => ⟨some x, shared⟩
  | ⟨some y, shared⟩, x => ⟨some y, x :: shared⟩

/-- The type assertion `.(*bytes.Buffer)`; `none` is its run-time panic. -/
def PoolItem.asBuffer : PoolItem → Option (List UInt8)
  | PoolItem.buffer content => some content
  | PoolItem.intPtr _ => none

/-- The calls of `packWithCompression` on `bufPool`, with a writer that does
not fail: the pool after the call, `none` when a type assertion panics. At the
deferred calls both buffers have been emptied by `WriteTo(writer)`. -/
def RawPacket.packWithCompressionPool (p : RawPacket) (threshold : Int) (pool : Pool) :
    Option Pool :=
  let (x, pool) := bufPool.Get pool
  match x.asBuffer with
  | none => none
  | some _ =>
    let buffer := PoolItem.buffer []
    if (p.Data.length : Int) < threshold then
      some (bufPool.Put pool buffer)
    else
      let dataLength : Int := p.Data.length
      let (y, pool) := bufPool.Get pool
      match y.asBuffer with
      | none => none
      | some _ =>
        let pool := bufPool.Put pool (PoolItem.intPtr dataLength)
        some (bufPool.Put pool buffer)

/-! ## Bit fields of a word -/

/-- The value of a byte sequence read as a big-endian unsigned number. -/
def beValue (bs : List UInt8) : Nat :=
  bs.foldl (fun acc b => 256 * acc + b.toNat) 0

/-- The signed (two's-complement) value of the `width` bits of `word` from bit
`lo` upwards. -/
def signedBits (word lo width : Nat) : Int :=
  let u := word / 2 ^ lo % 2 ^ width
  if 2 ^ (width - 1) ≤ u then (u : Int) - 2 ^ width else (u : Int)

/-! # Properties -/

/-! ## Bit-level facts -/

theorem and_7F (x : Nat) : x &&& 0x7F = x % 128 :=
  Nat.and_pow_two_sub_one_eq_mod x 7

theorem shr_7 (x : Nat) : x >>> 7 = x / 128 :=
  Nat.shiftRight_eq_div_pow x 7

theorem or_80 (b : Nat) (hb : b < 128) : b ||| 0x80 = b + 128 := by
  have h := Nat.mul_add_lt_is_or (i := 7) (b := b) (by simpa using hb) 1
  simp only [Nat.reducePow, Nat.mul_one] at h
  rw [Nat.lor_comm, ← h, Nat.add_comm]

theorem lor_shift (vi g k : Nat) (h : vi < 2 ^ k) :
    vi ||| g * 2 ^ k = vi + g * 2 ^ k := by
  have h2 := Nat.mul_add_lt_is_or h g
  rw [Nat.lor_comm, Nat.mul_comm g, ← h2, Nat.add_comm]

set_option maxRecDepth 100000 in
theorem and_80_lt : ∀ n : Nat, n < 256 → ((n &&& 0x80 ≠ 0) ↔ 128 ≤ n) := by
  decide

theorem toNat_ofNat_lt (n : Nat) (h : n < 256) : (UInt8.ofNat n).toNat = n :=
  Nat.mod_eq_of_lt h

/-! ## VarInt and VarLong: encoding length -/

theorem writeLoop_length_le : ∀ (fuel k num : Nat), num < 128 ^ k → 1 ≤ k → k ≤ fuel →
    (writeLoop fuel num).length ≤ k := by
  intro fuel
  induction fuel with
  | zero => intro k num _ h1 h2; omega
  | succ fuel ih =>
    intro k num hnum h1 h2
    simp only [writeLoop, and_7F, shr_7]
    split
    · rename_i hne
      have hk : 2 ≤ k := by
        rcases Nat.lt_or_ge k 2 with h | h
        · have : k = 1 := by omega
          subst this
          simp at hnum
          omega
        · exact h
      have hlt : num / 128 < 128 ^ (k - 1) := by
        have : 128 ^ k = 128 ^ (k - 1) * 128 := by
          rw [← Nat.pow_succ]; congr 1; omega
        rw [this] at hnum
        exact Nat.div_lt_of_lt_mul (by rw [Nat.mul_comm]; exact hnum)
      have := ih (k - 1) (num / 128) hlt (by omega) (by omega)
      simp only [List.length_cons]
      omega
    · simp only [List.length_singleton]
      omega

theorem writeLoop_length_ge : ∀ (fuel k num : Nat), 128 ^ k ≤ num → k < fuel →
    k + 1 ≤ (writeLoop fuel num).length := by
  intro fuel
  induction fuel with
  | zero => intro k num _ h; omega
  | succ fuel ih =>
    intro k num hnum hk
    simp only [writeLoop, and_7F, shr_7]
    cases k with
    | zero => split <;> simp
    | succ k =>
      have hge : 128 ^ k ≤ num / 128 := by
        rw [Nat.pow_succ] at hnum
        exact (Nat.le_div_iff_mul_le (by norm_num)).mpr hnum
      have hpos : 0 < 128 ^ k := Nat.pow_pos (by norm_num)
      have hne : num / 128 ≠ 0 := by omega
      rw [if_pos hne]
      have := ih k (num / 128) hge (by omega)
      simp only [List.length_cons]
      omega

theorem writeLoop_length_pos (fuel num : Nat) : 1 ≤ (writeLoop (fuel + 1) num).length := by
  simp only [writeLoop]
  split <;> simp

/-- The result of `writeLoop` does not depend on the bound on its rounds, once
the bound is large enough for `num`. -/
theorem writeLoop_fuel : ∀ (f1 f2 num : Nat), num < 128 ^ (f1 + 1) → num < 128 ^ (f2 + 1) →
    writeLoop (f1 + 1) num = writeLoop (f2 + 1) num := by
  intro f1
  induction f1 with
  | zero =>
    intro f2 num h1 _
    have h0 : num / 128 = 0 := by simp at h1; omega
    simp only [writeLoop, shr_7, h0, ne_eq, not_true_eq_false, if_false]
  | succ f1 ih =>
    intro f2 num h1 h2
    by_cases h0 : num / 128 = 0
    · simp only [writeLoop, shr_7, h0, ne_eq, not_true_eq_false, if_false]
    · cases f2 with
      | zero => simp at h2; omega
      | succ f2 =>
        have a1 : num / 128 < 128 ^ (f1 + 1) := by
          rw [Nat.pow_succ] at h1
          exact Nat.div_lt_of_lt_mul (by rw [Nat.mul_comm]; exact h1)
        have a2 : num / 128 < 128 ^ (f2 + 1) := by
          rw [Nat.pow_succ] at h2
          exact Nat.div_lt_of_lt_mul (by rw [Nat.mul_comm]; exact h2)
        have e1 : writeLoop (f1 + 1 + 1) num =
            UInt8.ofNat (num &&& 0x7F ||| 0x80) :: writeLoop (f1 + 1) (num / 128) := by
          rw [writeLoop]
          simp only [shr_7, h0, ne_eq, not_false_eq_true, if_true]
        have e2 : writeLoop (f2 + 1 + 1) num =
            UInt8.ofNat (num &&& 0x7F ||| 0x80) :: writeLoop (f2 + 1) (num / 128) := by
          rw [writeLoop]
          simp only [shr_7, h0, ne_eq, not_false_eq_true, if_true]
        rw [e1, e2, ih f2 (num / 128) a1 a2]

/-! ## VarInt: decoding what was encoded -/

theorem VarInt.readLoop_cons_more (v : Int) (vi n : Nat) (b : UInt8) (r : Reader)
    (hn : n ≤ 5) (hb : 128 ≤ b.toNat) :
    VarInt.readLoop v vi n (b :: r) =
      VarInt.readLoop v (vi ||| (b.toNat % 128 * 2 ^ (7 * n)) % 2 ^ 32) (n + 1) r := by
  have h80 : b.toNat &&& 0x80 ≠ 0 := (and_80_lt b.toNat b.toNat_lt).mpr hb
  have hn2 : ¬ n > MaxVarIntLen := by simp only [MaxVarIntLen]; omega
  rw [VarInt.readLoop]
  simp only [hn2, if_false, h80, ne_eq, not_false_eq_true, if_true, and_7F, Nat.shiftLeft_eq]

theorem VarInt.readLoop_cons_last (v : Int) (vi n : Nat) (b : UInt8) (r : Reader)
    (hn : n ≤ 5) (hb : b.toNat < 128) :
    VarInt.readLoop v vi n (b :: r) =
      ⟨int32 ((vi ||| (b.toNat % 128 * 2 ^ (7 * n)) % 2 ^ 32 : Nat) : Int), ((n + 1 : Nat) : Int),
        none, r⟩ := by
  have h80 : ¬ (b.toNat &&& 0x80 ≠ 0) := by
    rw [and_80_lt b.toNat b.toNat_lt]; omega
  have hn2 : ¬ n > MaxVarIntLen := by simp only [MaxVarIntLen]; omega
  rw [VarInt.readLoop]
  simp only [hn2, if_false, h80, and_7F, Nat.shiftLeft_eq]

theorem group_split (num P : Nat) : num % 128 * P + num / 128 * (128 * P) = num * P := by
  have h := Nat.div_add_mod num 128
  calc num % 128 * P + num / 128 * (128 * P)
      = (128 * (num / 128) + num % 128) * P := by ring
    _ = num * P := by rw [h]

theorem VarInt.readLoop_writeLoop (v : Int) (s : Reader) :
    ∀ (fuel num vi n : Nat), num < 128 ^ (fuel + 1) → vi < 2 ^ (7 * n) → n ≤ 5 →
      vi + num * 2 ^ (7 * n) < 2 ^ 32 →
      VarInt.readLoop v vi n (writeLoop (fuel + 1) num ++ s) =
        ⟨int32 ((vi + num * 2 ^ (7 * n) : Nat) : Int),
          ((n + (writeLoop (fuel + 1) num).length : Nat) : Int), none, s⟩ := by
  intro fuel
  induction fuel with
  | zero =>
    intro num vi n hnum hvi hn hlt
    have h0 : num / 128 = 0 := by simp at hnum; omega
    have hb : (UInt8.ofNat (num % 128)).toNat = num % 128 := toNat_ofNat_lt _ (by omega)
    simp only [writeLoop, and_7F, shr_7, h0, ne_eq, not_true_eq_false, if_false,
      List.singleton_append, List.length_singleton]
    rw [VarInt.readLoop_cons_last v vi n _ s hn (by rw [hb]; omega), hb]
    have hnum2 : num % 128 = num := by omega
    have hm : (num % 128 % 128 * 2 ^ (7 * n)) % 2 ^ 32 = num * 2 ^ (7 * n) := by
      rw [Nat.mod_mod, hnum2]; exact Nat.mod_eq_of_lt (by omega)
    rw [hm, lor_shift vi num (7 * n) hvi]
  | succ fuel ih =>
    intro num vi n hnum hvi hn hlt
    by_cases h0 : num / 128 = 0
    · have hb : (UInt8.ofNat (num % 128)).toNat = num % 128 := toNat_ofNat_lt _ (by omega)
      simp only [writeLoop, and_7F, shr_7, h0, ne_eq, not_true_eq_false, if_false,
        List.singleton_append, List.length_singleton]
      rw [VarInt.readLoop_cons_last v vi n _ s hn (by rw [hb]; omega), hb]
      have hnum2 : num % 128 = num := by omega
      have hm : (num % 128 % 128 * 2 ^ (7 * n)) % 2 ^ 32 = num * 2 ^ (7 * n) := by
        rw [Nat.mod_mod, hnum2]; exact Nat.mod_eq_of_lt (by omega)
      rw [hm, lor_shift vi num (7 * n) hvi]
    · have hor : num % 128 ||| 0x80 = num % 128 + 128 := or_80 _ (Nat.mod_lt _ (by norm_num))
      have hb : (UInt8.ofNat (num % 128 + 128)).toNat = num % 128 + 128 :=
        toNat_ofNat_lt _ (by omega)
      have hP : 0 < 2 ^ (7 * n) := Nat.pow_pos (by norm_num)
      have hsplit := group_split num (2 ^ (7 * n))
      have hpow : 2 ^ (7 * (n + 1)) = 128 * 2 ^ (7 * n) := by
        rw [Nat.mul_add, Nat.pow_add]; norm_num; ring
      have hg : num % 128 * 2 ^ (7 * n) < 2 ^ 32 := by
        have : num % 128 * 2 ^ (7 * n) ≤ num * 2 ^ (7 * n) :=
          Nat.mul_le_mul_right _ (Nat.mod_le _ _)
        omega
      have hn1 : n + 1 ≤ 5 := by
        have h128 : 128 ≤ num := by omega
        have : 128 * 2 ^ (7 * n) ≤ num * 2 ^ (7 * n) := Nat.mul_le_mul_right _ h128
        have hlt2 : 2 ^ (7 * (n + 1)) < 2 ^ 32 := by rw [hpow]; omega
        have := (Nat.pow_lt_pow_iff_right (a := 2) (by norm_num)).mp hlt2
        omega
      have hnum1 : num / 128 < 128 ^ (fuel + 1) := by
        rw [Nat.pow_succ] at hnum
        exact Nat.div_lt_of_lt_mul (by rw [Nat.mul_comm]; exact hnum)
      have hvi1 : vi + num % 128 * 2 ^ (7 * n) < 2 ^ (7 * (n + 1)) := by
        rw [hpow]
        have : num % 128 < 128 := Nat.mod_lt _ (by norm_num)
        nlinarith
      rw [writeLoop]
      simp only [and_7F, shr_7, h0, ne_eq, not_false_eq_true, if_true, hor, List.cons_append,
        List.length_cons]
      rw [VarInt.readLoop_cons_more v vi n _ _ hn (by rw [hb]; omega), hb]
      have hm : ((num % 128 + 128) % 128 * 2 ^ (7 * n)) % 2 ^ 32 = num % 128 * 2 ^ (7 * n) := by
        have : (num % 128 + 128) % 128 = num % 128 := by omega
        rw [this]; exact Nat.mod_eq_of_lt hg
      rw [hm, lor_shift vi _ (7 * n) hvi]
      rw [ih (num / 128) _ (n + 1) hnum1 hvi1 hn1 (by rw [hpow]; omega)]
      have e1 : vi + num % 128 * 2 ^ (7 * n) + num / 128 * 2 ^ (7 * (n + 1))
          = vi + num * 2 ^ (7 * n) := by rw [hpow]; omega
      have e2 : n + 1 + (writeLoop (fuel + 1) (num / 128)).length
          = n + ((writeLoop (fuel + 1) (num / 128)).length + 1) := by omega
      rw [e1, e2]

/-! ## VarLong: decoding what was encoded -/

theorem VarLong.loop_cons_more (v : Int) (vi n : Nat) (b : UInt8) (r : Reader)
    (hn : n ≤ 9) (hb : 128 ≤ b.toNat) :
    VarLong.readLoop v vi n (b :: r) =
      VarLong.readLoop v (vi ||| (b.toNat % 128 * 2 ^ (7 * n)) % 2 ^ 64) (n + 1) r := by
  have h80 : b.toNat &&& 0x80 ≠ 0 := (and_80_lt b.toNat b.toNat_lt).mpr hb
  have hn2 : ¬ n ≥ MaxVarLongLen := by simp only [MaxVarLongLen]; omega
  rw [VarLong.readLoop]
  simp only [hn2, if_false, h80, ne_eq, not_false_eq_true, if_true, and_7F, Nat.shiftLeft_eq]

theorem VarLong.loop_cons_last (v : Int) (vi n : Nat) (b : UInt8) (r : Reader)
    (hn : n ≤ 9) (hb : b.toNat < 128) :
    VarLong.readLoop v vi n (b :: r) =
      ⟨int64 ((vi ||| (b.toNat % 128 * 2 ^ (7 * n)) % 2 ^ 64 : Nat) : Int), ((n + 1 : Nat) : Int),
        none, r⟩ := by
  have h80 : ¬ (b.toNat &&& 0x80 ≠ 0) := by
    rw [and_80_lt b.toNat b.toNat_lt]; omega
  have hn2 : ¬ n ≥ MaxVarLongLen := by simp only [MaxVarLongLen]; omega
  rw [VarLong.readLoop]
  simp only [hn2, if_false, h80, and_7F, Nat.shiftLeft_eq]

theorem VarLong.loop_writeLoop (v : Int) (s : Reader) :
    ∀ (fuel num vi n : Nat), num < 128 ^ (fuel + 1) → vi < 2 ^ (7 * n) → n ≤ 9 →
      vi + num * 2 ^ (7 * n) < 2 ^ 64 →
      VarLong.readLoop v vi n (writeLoop (fuel + 1) num ++ s) =
        ⟨int64 ((vi + num * 2 ^ (7 * n) : Nat) : Int),
          ((n + (writeLoop (fuel + 1) num).length : Nat) : Int), none, s⟩ := by
  intro fuel
  induction fuel with
  | zero =>
    intro num vi n hnum hvi hn hlt
    have h0 : num / 128 = 0 := by simp at hnum; omega
    have hb : (UInt8.ofNat (num % 128)).toNat = num % 128 := toNat_ofNat_lt _ (by omega)
    simp only [writeLoop, and_7F, shr_7, h0, ne_eq, not_true_eq_false, if_false,
      List.singleton_append, List.length_singleton]
    rw [VarLong.loop_cons_last v vi n _ s hn (by rw [hb]; omega), hb]
    have hnum2 : num % 128 = num := by omega
    have hm : (num % 128 % 128 * 2 ^ (7 * n)) % 2 ^ 64 = num * 2 ^ (7 * n) := by
      rw [Nat.mod_mod, hnum2]; exact Nat.mod_eq_of_lt (by omega)
    rw [hm, lor_shift vi num (7 * n) hvi]
  | succ fuel ih =>
    intro num vi n hnum hvi hn hlt
    by_cases h0 : num / 128 = 0
    · have hb : (UInt8.ofNat (num % 128)).toNat = num % 128 := toNat_ofNat_lt _ (by omega)
      simp only [writeLoop, and_7F, shr_7, h0, ne_eq, not_true_eq_false, if_false,
        List.singleton_append, List.length_singleton]
      rw [VarLong.loop_cons_last v vi n _ s hn (by rw [hb]; omega), hb]
      have hnum2 : num % 128 = num := by omega
      have hm : (num % 128 % 128 * 2 ^ (7 * n)) % 2 ^ 64 = num * 2 ^ (7 * n) := by
        rw [Nat.mod_mod, hnum2]; exact Nat.mod_eq_of_lt (by omega)
      rw [hm, lor_shift vi num (7 * n) hvi]
    · have hor : num % 128 ||| 0x80 = num % 128 + 128 := or_80 _ (Nat.mod_lt _ (by norm_num))
      have hb : (UInt8.ofNat (num % 128 + 128)).toNat = num % 128 + 128 :=
        toNat_ofNat_lt _ (by omega)
      have hP : 0 < 2 ^ (7 * n) := Nat.pow_pos (by norm_num)
      have hsplit := group_split num (2 ^ (7 * n))
      have hpow : 2 ^ (7 * (n + 1)) = 128 * 2 ^ (7 * n) := by
        rw [Nat.mul_add, Nat.pow_add]; norm_num; ring
      have hg : num % 128 * 2 ^ (7 * n) < 2 ^ 64 := by
        have : num % 128 * 2 ^ (7 * n) ≤ num * 2 ^ (7 * n) :=
          Nat.mul_le_mul_right _ (Nat.mod_le _ _)
        omega
      have hn1 : n + 1 ≤ 9 := by
        have h128 : 128 ≤ num := by omega
        have : 128 * 2 ^ (7 * n) ≤ num * 2 ^ (7 * n) := Nat.mul_le_mul_right _ h128
        have hlt2 : 2 ^ (7 * (n + 1)) < 2 ^ 64 := by rw [hpow]; omega
        have := (Nat.pow_lt_pow_iff_right (a := 2) (by norm_num)).mp hlt2
        omega
      have hnum1 : num / 128 < 128 ^ (fuel + 1) := by
        rw [Nat.pow_succ] at hnum
        exact Nat.div_lt_of_lt_mul (by rw [Nat.mul_comm]; exact hnum)
      have hvi1 : vi + num % 128 * 2 ^ (7 * n) < 2 ^ (7 * (n + 1)) := by
        rw [hpow]
        have : num % 128 < 128 := Nat.mod_lt _ (by norm_num)
        nlinarith
      rw [writeLoop]
      simp only [and_7F, shr_7, h0, ne_eq, not_false_eq_true, if_true, hor, List.cons_append,
        List.length_cons]
      rw [VarLong.loop_cons_more v vi n _ _ hn (by rw [hb]; omega), hb]
      have hm : ((num % 128 + 128) % 128 * 2 ^ (7 * n)) % 2 ^ 64 = num % 128 * 2 ^ (7 * n) := by
        have : (num % 128 + 128) % 128 = num % 128 := by omega
        rw [this]; exact Nat.mod_eq_of_lt hg
      rw [hm, lor_shift vi _ (7 * n) hvi]
      rw [ih (num / 128) _ (n + 1) hnum1 hvi1 hn1 (by rw [hpow]; omega)]
      have e1 : vi + num % 128 * 2 ^ (7 * n) + num / 128 * 2 ^ (7 * (n + 1))
          = vi + num * 2 ^ (7 * n) := by rw [hpow]; omega
      have e2 : n + 1 + (writeLoop (fuel + 1) (num / 128)).length
          = n + ((writeLoop (fuel + 1) (num / 128)).length + 1) := by omega
      rw [e1, e2]

/-! ## Conversions between signed and unsigned words -/

theorem uint32_lt (v : Int) : uint32 v < 2 ^ 32 := by
  unfold uint32; omega

theorem uint64_lt (v : Int) : uint64 v < 2 ^ 64 := by
  unfold uint64; omega

theorem int32_uint32 (v : Int) (h1 : -2 ^ 31 ≤ v) (h2 : v < 2 ^ 31) :
    int32 ((uint32 v : Nat) : Int) = v := by
  unfold int32 uint32; omega

theorem int64_uint64 (v : Int) (h1 : -2 ^ 63 ≤ v) (h2 : v < 2 ^ 63) :
    int64 ((uint64 v : Nat) : Int) = v := by
  unfold int64 uint64; omega

theorem VarInt.ReadFrom_writeLoop (old v : Int) (h1 : -2 ^ 31 ≤ v) (h2 : v < 2 ^ 31)
    (s : Reader) :
    VarInt.ReadFrom old (writeLoop 32 (uint32 v) ++ s) =
      ⟨v, ((writeLoop 32 (uint32 v)).length : Int), none, s⟩ := by
  have hlt := uint32_lt v
  have h := VarInt.readLoop_writeLoop old s 31 (uint32 v) 0 0
    (by norm_num; omega) (by norm_num) (by norm_num) (by norm_num; omega)
  simp only [Nat.mul_zero, Nat.pow_zero, Nat.mul_one, Nat.zero_add] at h
  rw [VarInt.ReadFrom, h, int32_uint32 v h1 h2]

theorem VarLong.decode_writeLoop (old v : Int) (h1 : -2 ^ 63 ≤ v) (h2 : v < 2 ^ 63)
    (s : Reader) :
    VarLong.ReadFrom old (writeLoop 64 (uint64 v) ++ s) =
      ⟨v, ((writeLoop 64 (uint64 v)).length : Int), none, s⟩ := by
  have hlt := uint64_lt v
  have h := VarLong.loop_writeLoop old s 63 (uint64 v) 0 0
    (by norm_num; omega) (by norm_num) (by norm_num) (by norm_num; omega)
  simp only [Nat.mul_zero, Nat.pow_zero, Nat.mul_one, Nat.zero_add] at h
  rw [VarLong.ReadFrom, h, int64_uint64 v h1 h2]

/-- C1. VarInt round trip: for every 32-bit signed value `v`, whatever the
receiver held before and whatever bytes `s` follow, decoding the bytes written
by `VarInt.WriteTo v` followed by `s` returns no error, stores `v`, reports the
length of the encoding as the number of bytes read, and leaves `s` unread. -/
theorem VarInt_round_trip (v : Int) (hv : -2 ^ 31 ≤ v ∧ v < 2 ^ 31) (old : Int) (s : Reader) :
    VarInt.ReadFrom old ((VarInt.WriteTo v []).w ++ s) =
      ⟨v, (((VarInt.WriteTo v []).w.length : Nat) : Int), none, s⟩ := by
  simp only [VarInt.WriteTo, Write, List.nil_append]
  exact VarInt.ReadFrom_writeLoop old v hv.1 hv.2 s

/-- Witness of C1 at `v = -2^31` with one byte following the encoding. -/
theorem VarInt_round_trip_witness :
    (-2 ^ 31 ≤ (-2147483648 : Int) ∧ (-2147483648 : Int) < 2 ^ 31) ∧
    VarInt.ReadFrom 7 ((VarInt.WriteTo (-2147483648) []).w ++ [0x2A]) =
      ⟨-2147483648, (((VarInt.WriteTo (-2147483648) []).w.length : Nat) : Int), none, [0x2A]⟩ :=
  ⟨by norm_num, VarInt_round_trip (-2147483648) (by norm_num) 7 [0x2A]⟩

/-- C2. VarLong round trip: for every 64-bit signed value `v`, whatever the
receiver held before and whatever bytes `s` follow, decoding the bytes written
by `VarLong.WriteTo v` followed by `s` returns no error, stores `v`, reports
the length of the encoding as the number of bytes read, and leaves `s` unread. -/
theorem VarLong_round_trip (v : Int) (hv : -2 ^ 63 ≤ v ∧ v < 2 ^ 63) (old : Int) (s : Reader) :
    VarLong.ReadFrom old ((VarLong.WriteTo v []).w ++ s) =
      ⟨v, (((VarLong.WriteTo v []).w.length : Nat) : Int), none, s⟩ := by
  simp only [VarLong.WriteTo, Write, List.nil_append]
  exact VarLong.decode_writeLoop old v hv.1 hv.2 s

/-- Witness of C2 at `v = -2^63` with one byte following the encoding. -/
theorem VarLong_round_trip_witness :
    (-2 ^ 63 ≤ (-9223372036854775808 : Int) ∧ (-9223372036854775808 : Int) < 2 ^ 63) ∧
    VarLong.ReadFrom 7 ((VarLong.WriteTo (-9223372036854775808) []).w ++ [0x2A]) =
      ⟨-9223372036854775808,
        (((VarLong.WriteTo (-9223372036854775808) []).w.length : Nat) : Int), none, [0x2A]⟩ :=
  ⟨by norm_num, VarLong_round_trip (-9223372036854775808) (by norm_num) 7 [0x2A]⟩

/-- C3. Encoding length: the VarInt encoding of any value has between 1 and 5
bytes and the VarLong encoding between 1 and 10 bytes; a negative 32-bit value
takes exactly 5 bytes as a VarInt and a negative 64-bit value exactly 10 bytes
as a VarLong. -/
theorem VarInt_VarLong_length (v : Int) :
    (1 ≤ (VarInt.WriteTo v []).w.length ∧ (VarInt.WriteTo v []).w.length ≤ 5) ∧
    (1 ≤ (VarLong.WriteTo v []).w.length ∧ (VarLong.WriteTo v []).w.length ≤ 10) ∧
    (-2 ^ 31 ≤ v → v < 0 → (VarInt.WriteTo v []).w.length = 5) ∧
    (-2 ^ 63 ≤ v → v < 0 → (VarLong.WriteTo v []).w.length = 10) := by
  have h32 := uint32_lt v
  have h64 := uint64_lt v
  have a1 := writeLoop_length_pos 31 (uint32 v)
  have a2 := writeLoop_length_le 32 5 (uint32 v) (by norm_num; omega) (by norm_num) (by norm_num)
  have b1 := writeLoop_length_pos 63 (uint64 v)
  have b2 := writeLoop_length_le 64 10 (uint64 v) (by norm_num; omega) (by norm_num) (by norm_num)
  simp only [VarInt.WriteTo, VarLong.WriteTo, Write, List.nil_append]
  refine ⟨⟨a1, a2⟩, ⟨b1, b2⟩, ?_, ?_⟩
  · intro h1 h2
    have hge : 128 ^ 4 ≤ uint32 v := by unfold uint32; norm_num; omega
    have := writeLoop_length_ge 32 4 (uint32 v) hge (by norm_num)
    omega
  · intro h1 h2
    have hge : 128 ^ 9 ≤ uint64 v := by unfold uint64; norm_num; omega
    have := writeLoop_length_ge 64 9 (uint64 v) hge (by norm_num)
    omega

/-- Witness of C3 at `v = -1`. -/
theorem VarInt_VarLong_length_witness :
    (-2 ^ 31 ≤ (-1 : Int) ∧ (-1 : Int) < 0 ∧ -2 ^ 63 ≤ (-1 : Int)) ∧
    (VarInt.WriteTo (-1) []).w.length = 5 ∧ (VarLong.WriteTo (-1) []).w.length = 10 :=
  ⟨by norm_num,
    (VarInt_VarLong_length (-1)).2.2.1 (by norm_num) (by norm_num),
    (VarInt_VarLong_length (-1)).2.2.2 (by norm_num) (by norm_num)⟩

/-! ## VarInt and VarLong: how far a decode reads -/

theorem VarLong.readLoop_cons (v : Int) (V n : Nat) (sec : UInt8) (r : Reader)
    (h : ¬ n ≥ MaxVarLongLen) :
    VarLong.readLoop v V n (sec :: r) =
      if sec.toNat &&& 0x80 ≠ 0 then
        VarLong.readLoop v (V ||| ((sec.toNat &&& 0x7F) <<< (7 * n)) % 2 ^ 64) (n + 1) r
      else ⟨int64 ((V ||| ((sec.toNat &&& 0x7F) <<< (7 * n)) % 2 ^ 64 : Nat) : Int),
        ((n + 1 : Nat) : Int), none, r⟩ := by
  rw [VarLong.readLoop]
  simp only [h, if_false]

theorem VarLong.readLoop_taken (v : Int) :
    ∀ (r : Reader) (V n : Nat), n ≤ 10 →
      ∃ taken : List UInt8, r = taken ++ (VarLong.readLoop v V n r).rest ∧
        (VarLong.readLoop v V n r).n = ((n + taken.length : Nat) : Int) ∧
        n + taken.length ≤ 10 := by
  intro r
  induction r with
  | nil =>
    intro V n hn
    refine ⟨[], ?_, ?_, by simpa using hn⟩
    · simp only [VarLong.readLoop]; split <;> rfl
    · simp only [VarLong.readLoop]; split <;> simp
  | cons sec r ih =>
    intro V n hn
    by_cases h10 : n ≥ MaxVarLongLen
    · refine ⟨[], ?_, ?_, by simpa using hn⟩
      · simp only [VarLong.readLoop, h10, if_true, List.nil_append]
      · simp only [VarLong.readLoop, h10, if_true, List.length_nil, Nat.add_zero]
    · have hn1 : n + 1 ≤ 10 := by simp only [MaxVarLongLen] at h10; omega
      rw [VarLong.readLoop_cons v V n sec r h10]
      by_cases hc : sec.toNat &&& 0x80 ≠ 0
      · obtain ⟨taken, e1, e2, e3⟩ :=
          ih (V ||| ((sec.toNat &&& 0x7F) <<< (7 * n)) % 2 ^ 64) (n + 1) hn1
        rw [if_pos hc]
        refine ⟨sec :: taken, ?_, ?_, ?_⟩
        · rw [List.cons_append]; exact congrArg _ e1
        · rw [e2, List.length_cons]; congr 1; omega
        · simp only [List.length_cons]; omega
      · rw [if_neg hc]
        refine ⟨[sec], ?_, ?_, ?_⟩
        · simp only [List.singleton_append]
        · simp only [List.length_singleton]
        · simp only [List.length_singleton]; omega

theorem VarLong.readLoop_all_continue (v : Int) (suf : Reader) :
    ∀ (pre : List UInt8) (V n : Nat), n + pre.length = 10 →
      (∀ b ∈ pre, b.toNat &&& 0x80 ≠ 0) →
      VarLong.readLoop v V n (pre ++ suf) = ⟨v, 10, some Error.VarLongTooBig, suf⟩ := by
  intro pre
  induction pre with
  | nil =>
    intro V n hn _
    have h10 : n = 10 := by simpa using hn
    subst h10
    cases suf <;> simp [VarLong.readLoop, MaxVarLongLen]
  | cons sec pre ih =>
    intro V n hn hall
    have h10 : ¬ n ≥ MaxVarLongLen := by
      simp only [MaxVarLongLen, List.length_cons] at hn ⊢; omega
    have hc : sec.toNat &&& 0x80 ≠ 0 := hall sec (List.mem_cons_self _ _)
    rw [List.cons_append, VarLong.readLoop_cons v V n sec _ h10, if_pos hc]
    exact ih _ (n + 1) (by simp only [List.length_cons] at hn; omega)
      (fun b hb => hall b (List.mem_cons_of_mem _ hb))

/-- C4 (evaluation at the failing inputs). `VarInt.ReadFrom` accepts the
six-byte encoding `80 80 80 80 80 00`: it returns no error, the value 0 and
`n = 6`, having taken six bytes; and on seven bytes with the continuation bit
set it fails with the too-big error only after taking six bytes. -/
theorem VarInt_ReadFrom_takes_six_bytes :
    VarInt.ReadFrom 7 [0x80, 0x80, 0x80, 0x80, 0x80, 0x00, 0x2A] = ⟨0, 6, none, [0x2A]⟩ ∧
    VarInt.ReadFrom 7 [0xFF, 0xFF, 0xFF, 0xFF, 0xFF, 0xFF, 0xFF, 0x2A] =
      ⟨7, 6, some Error.VarIntTooBig, [0xFF, 0x2A]⟩ := by
  decide

/-- C5. VarLong decode never goes past 10 bytes: on every reader the bytes
taken from it number at most 10 and are the count `n` it returns (so a decode
that succeeds has consumed at most 10 bytes), and on a reader whose first 10
bytes all have the continuation bit set it fails with the too-big error, `n`
being 10, the receiver unchanged and everything after those 10 bytes unread. -/
theorem VarLong_decode_bound (v : Int) (r : Reader) :
    (∃ taken : List UInt8, r = taken ++ (VarLong.ReadFrom v r).rest ∧
      taken.length ≤ 10 ∧ (VarLong.ReadFrom v r).n = (taken.length : Int)) ∧
    (∀ pre suf : List UInt8, r = pre ++ suf → pre.length = 10 →
      (∀ b ∈ pre, b.toNat &&& 0x80 ≠ 0) →
      VarLong.ReadFrom v r = ⟨v, 10, some Error.VarLongTooBig, suf⟩) := by
  constructor
  · obtain ⟨taken, e1, e2, e3⟩ := VarLong.readLoop_taken v r 0 0 (by norm_num)
    refine ⟨taken, e1, by omega, ?_⟩
    rw [VarLong.ReadFrom, e2]; simp
  · intro pre suf hr hlen hall
    subst hr
    exact VarLong.readLoop_all_continue v suf pre 0 0 (by omega) hall

/-- Witness of C5: ten bytes `80` followed by `01 2A`. -/
theorem VarLong_decode_bound_witness :
    VarLong.ReadFrom 7 [0x80, 0x80, 0x80, 0x80, 0x80, 0x80, 0x80, 0x80, 0x80, 0x80, 0x01, 0x2A] =
      ⟨7, 10, some Error.VarLongTooBig, [0x01, 0x2A]⟩ :=
  (VarLong_decode_bound 7 _).2
    [0x80, 0x80, 0x80, 0x80, 0x80, 0x80, 0x80, 0x80, 0x80, 0x80] [0x01, 0x2A] rfl rfl (by decide)

/-! ## Long and Position -/

theorem lor_of_dvd (a b k : Nat) (ha : a < 2 ^ k) (hb : 2 ^ k ∣ b) : b ||| a = b + a := by
  obtain ⟨c, rfl⟩ := hb
  exact (Nat.mul_add_lt_is_or ha c).symm

theorem and64_3FFFFFF (a : Int) : and64 a 0x3FFFFFF = a % 2 ^ 26 := by
  have h : uint64 0x3FFFFFF = 2 ^ 26 - 1 := by decide
  unfold and64
  rw [h, Nat.and_pow_two_sub_one_eq_mod]
  unfold int64 uint64
  omega

theorem and64_FFF (a : Int) : and64 a 0xFFF = a % 2 ^ 12 := by
  have h : uint64 0xFFF = 2 ^ 12 - 1 := by decide
  unfold and64
  rw [h, Nat.and_pow_two_sub_one_eq_mod]
  unfold int64 uint64
  omega

theorem fillLoop_eight (pos : Nat) :
    Position.fillLoop 8 pos [] =
      [UInt8.ofNat (pos >>> 56), UInt8.ofNat (pos >>> 48), UInt8.ofNat (pos >>> 40),
        UInt8.ofNat (pos >>> 32), UInt8.ofNat (pos >>> 24), UInt8.ofNat (pos >>> 16),
        UInt8.ofNat (pos >>> 8), UInt8.ofNat pos] := by
  simp only [Position.fillLoop, ← Nat.shiftRight_add]

theorem ofNat_toNat_mod (n : Nat) : (UInt8.ofNat n).toNat = n % 256 := rfl

theorem lor_bytes (a0 a1 a2 a3 a4 a5 a6 a7 : Nat) (h0 : a0 < 256) (h1 : a1 < 256)
    (h2 : a2 < 256) (h3 : a3 < 256) (h4 : a4 < 256) (h5 : a5 < 256) (h6 : a6 < 256)
    (h7 : a7 < 256) :
    (a0 * 2 ^ 56 % 2 ^ 64 ||| a1 * 2 ^ 48 % 2 ^ 64 ||| a2 * 2 ^ 40 % 2 ^ 64 |||
      a3 * 2 ^ 32 % 2 ^ 64 ||| a4 * 2 ^ 24 % 2 ^ 64 ||| a5 * 2 ^ 16 % 2 ^ 64 |||
      a6 * 2 ^ 8 % 2 ^ 64 ||| a7) =
    a0 * 2 ^ 56 + a1 * 2 ^ 48 + a2 * 2 ^ 40 + a3 * 2 ^ 32 + a4 * 2 ^ 24 + a5 * 2 ^ 16 +
      a6 * 2 ^ 8 + a7 := by
  rw [Nat.mod_eq_of_lt (show a0 * 2 ^ 56 < 2 ^ 64 by omega),
    Nat.mod_eq_of_lt (show a1 * 2 ^ 48 < 2 ^ 64 by omega),
    Nat.mod_eq_of_lt (show a2 * 2 ^ 40 < 2 ^ 64 by omega),
    Nat.mod_eq_of_lt (show a3 * 2 ^ 32 < 2 ^ 64 by omega),
    Nat.mod_eq_of_lt (show a4 * 2 ^ 24 < 2 ^ 64 by omega),
    Nat.mod_eq_of_lt (show a5 * 2 ^ 16 < 2 ^ 64 by omega),
    Nat.mod_eq_of_lt (show a6 * 2 ^ 8 < 2 ^ 64 by omega)]
  rw [lor_of_dvd (a1 * 2 ^ 48) (a0 * 2 ^ 56) 56 (by omega) (by omega),
    lor_of_dvd (a2 * 2 ^ 40) _ 48 (by omega) (by omega),
    lor_of_dvd (a3 * 2 ^ 32) _ 40 (by omega) (by omega),
    lor_of_dvd (a4 * 2 ^ 24) _ 32 (by omega) (by omega),
    lor_of_dvd (a5 * 2 ^ 16) _ 24 (by omega) (by omega),
    lor_of_dvd (a6 * 2 ^ 8) _ 16 (by omega) (by omega),
    lor_of_dvd a7 _ 8 (by omega) (by omega)]

theorem Long.ReadFrom_bytes (old : Int) (pos : Nat) (hpos : pos < 2 ^ 64) (s : Reader) :
    Long.ReadFrom old
      ([UInt8.ofNat (pos >>> 56), UInt8.ofNat (pos >>> 48), UInt8.ofNat (pos >>> 40),
        UInt8.ofNat (pos >>> 32), UInt8.ofNat (pos >>> 24), UInt8.ofNat (pos >>> 16),
        UInt8.ofNat (pos >>> 8), UInt8.ofNat pos] ++ s) = ⟨int64 (pos : Int), 8, none, s⟩ := by
  have hle : (List.replicate 8 (0 : UInt8)).length ≤
      ([UInt8.ofNat (pos >>> 56), UInt8.ofNat (pos >>> 48), UInt8.ofNat (pos >>> 40),
        UInt8.ofNat (pos >>> 32), UInt8.ofNat (pos >>> 24), UInt8.ofNat (pos >>> 16),
        UInt8.ofNat (pos >>> 8), UInt8.ofNat pos] ++ s).length := by
    simp
  simp only [Long.ReadFrom, ReadFull, if_pos hle]
  simp only [List.length_replicate, List.cons_append, List.nil_append, List.take_succ_cons,
    List.take_zero, List.drop_succ_cons, List.drop_zero, List.getD_cons_zero,
    List.getD_cons_succ, ofNat_toNat_mod, Nat.shiftRight_eq_div_pow, Nat.shiftLeft_eq]
  rw [lor_bytes _ _ _ _ _ _ _ _ (Nat.mod_lt _ (by norm_num)) (Nat.mod_lt _ (by norm_num))
    (Nat.mod_lt _ (by norm_num)) (Nat.mod_lt _ (by norm_num)) (Nat.mod_lt _ (by norm_num))
    (Nat.mod_lt _ (by norm_num)) (Nat.mod_lt _ (by norm_num)) (Nat.mod_lt _ (by norm_num))]
  have e : pos / 2 ^ 56 % 256 * 2 ^ 56 + pos / 2 ^ 48 % 256 * 2 ^ 48 +
      pos / 2 ^ 40 % 256 * 2 ^ 40 + pos / 2 ^ 32 % 256 * 2 ^ 32 + pos / 2 ^ 24 % 256 * 2 ^ 24 +
      pos / 2 ^ 16 % 256 * 2 ^ 16 + pos / 2 ^ 8 % 256 * 2 ^ 8 + pos % 256 = pos := by
    omega
  rw [e]
  rfl

theorem Position.ReadFrom_word (old : Position) (pos : Nat) (hpos : pos < 2 ^ 64) (s : Reader) :
    Position.ReadFrom old (Position.fillLoop 8 pos [] ++ s) =
      ⟨⟨if (pos : Int) / 2 ^ 38 ≥ 2 ^ 25 then (pos : Int) / 2 ^ 38 - 2 ^ 26 else (pos : Int) / 2 ^ 38,
        if (pos : Int) % 2 ^ 12 ≥ 2 ^ 11 then (pos : Int) % 2 ^ 12 - 2 ^ 12 else (pos : Int) % 2 ^ 12,
        if (pos : Int) / 2 ^ 12 % 2 ^ 26 ≥ 2 ^ 25 then (pos : Int) / 2 ^ 12 % 2 ^ 26 - 2 ^ 26
          else (pos : Int) / 2 ^ 12 % 2 ^ 26⟩, 8, none, s⟩ := by
  rw [fillLoop_eight]
  simp only [Position.ReadFrom, Long.ReadFrom_bytes 0 pos hpos s, and64_FFF]
  have hx : (if sar64 (int64 (pos : Int)) 38 ≥ 2 ^ 25 then sar64 (int64 (pos : Int)) 38 - 2 ^ 26
      else sar64 (int64 (pos : Int)) 38) =
      (if (pos : Int) / 2 ^ 38 ≥ 2 ^ 25 then (pos : Int) / 2 ^ 38 - 2 ^ 26
        else (pos : Int) / 2 ^ 38) := by
    unfold sar64 int64
    split_ifs <;> omega
  have hy : (if int64 (pos : Int) % 2 ^ 12 ≥ 2 ^ 11 then int64 (pos : Int) % 2 ^ 12 - 2 ^ 12
      else int64 (pos : Int) % 2 ^ 12) =
      (if (pos : Int) % 2 ^ 12 ≥ 2 ^ 11 then (pos : Int) % 2 ^ 12 - 2 ^ 12
        else (pos : Int) % 2 ^ 12) := by
    unfold int64
    split_ifs <;> omega
  have hz : (if sar64 (shl64 (int64 (pos : Int)) 26) 38 ≥ 2 ^ 25 then
        sar64 (shl64 (int64 (pos : Int)) 26) 38 - 2 ^ 26
      else sar64 (shl64 (int64 (pos : Int)) 26) 38) =
      (if (pos : Int) / 2 ^ 12 % 2 ^ 26 ≥ 2 ^ 25 then (pos : Int) / 2 ^ 12 % 2 ^ 26 - 2 ^ 26
        else (pos : Int) / 2 ^ 12 % 2 ^ 26) := by
    unfold sar64 shl64 int64
    split_ifs <;> omega
  rw [hx, hy, hz]

theorem Position.WriteTo_word (p : Position) (w : Writer) :
    Position.WriteTo p w = Write w (Position.fillLoop 8
      ((p.X % 2 ^ 26).toNat * 2 ^ 38 + (p.Z % 2 ^ 26).toNat * 2 ^ 12 + (p.Y % 2 ^ 12).toNat) []) := by
  have hx : (uint64 (p.X % 2 ^ 26) <<< 38) % 2 ^ 64 = (p.X % 2 ^ 26).toNat * 2 ^ 38 := by
    rw [Nat.shiftLeft_eq]; unfold uint64; omega
  have hz : uint64 (shl64 (p.Z % 2 ^ 26) 12) = (p.Z % 2 ^ 26).toNat * 2 ^ 12 := by
    unfold uint64 shl64 int64; omega
  have hy : uint64 (p.Y % 2 ^ 12) = (p.Y % 2 ^ 12).toNat := by
    unfold uint64; omega
  simp only [Position.WriteTo, and64_3FFFFFF, and64_FFF, hx, hz, hy]
  have h1 : (p.X % 2 ^ 26).toNat * 2 ^ 38 ||| (p.Z % 2 ^ 26).toNat * 2 ^ 12 =
      (p.X % 2 ^ 26).toNat * 2 ^ 38 + (p.Z % 2 ^ 26).toNat * 2 ^ 12 :=
    lor_of_dvd _ _ 38 (by omega) (by omega)
  have h2 : (p.X % 2 ^ 26).toNat * 2 ^ 38 + (p.Z % 2 ^ 26).toNat * 2 ^ 12 |||
      (p.Y % 2 ^ 12).toNat =
      (p.X % 2 ^ 26).toNat * 2 ^ 38 + (p.Z % 2 ^ 26).toNat * 2 ^ 12 + (p.Y % 2 ^ 12).toNat :=
    lor_of_dvd _ _ 12 (by omega) (by omega)
  rw [h1, h2]

/-- C6. Position round trip: for every position with `X` and `Z` in
`[-2^25, 2^25 - 1]` and `Y` in `[-2^11, 2^11 - 1]`, `Position.WriteTo` writes 8
bytes, and `Position.ReadFrom` on these bytes (whatever follows them and
whatever the receiver held) returns no error, stores the same `X`, `Y`, `Z`,
reports 8 bytes read and leaves the following bytes unread. -/
theorem Position_round_trip (p : Position)
    (hx : -2 ^ 25 ≤ p.X ∧ p.X ≤ 2 ^ 25 - 1) (hz : -2 ^ 25 ≤ p.Z ∧ p.Z ≤ 2 ^ 25 - 1)
    (hy : -2 ^ 11 ≤ p.Y ∧ p.Y ≤ 2 ^ 11 - 1) (old : Position) (s : Reader) :
    (Position.WriteTo p []).w.length = 8 ∧
    Position.ReadFrom old ((Position.WriteTo p []).w ++ s) = ⟨p, 8, none, s⟩ := by
  rw [Position.WriteTo_word]
  simp only [Write, List.nil_append]
  constructor
  · rw [fillLoop_eight]; rfl
  · have hpos : (p.X % 2 ^ 26).toNat * 2 ^ 38 + (p.Z % 2 ^ 26).toNat * 2 ^ 12 +
        (p.Y % 2 ^ 12).toNat < 2 ^ 64 := by omega
    rw [Position.ReadFrom_word old _ hpos s]
    obtain ⟨X, Y, Z⟩ := p
    simp only at hx hy hz hpos ⊢
    have ex : (if (((X % 2 ^ 26).toNat * 2 ^ 38 + (Z % 2 ^ 26).toNat * 2 ^ 12 +
        (Y % 2 ^ 12).toNat : Nat) : Int) / 2 ^ 38 ≥ 2 ^ 25 then
          (((X % 2 ^ 26).toNat * 2 ^ 38 + (Z % 2 ^ 26).toNat * 2 ^ 12 +
            (Y % 2 ^ 12).toNat : Nat) : Int) / 2 ^ 38 - 2 ^ 26
        else (((X % 2 ^ 26).toNat * 2 ^ 38 + (Z % 2 ^ 26).toNat * 2 ^ 12 +
            (Y % 2 ^ 12).toNat : Nat) : Int) / 2 ^ 38) = X := by
      split_ifs <;> omega
    have ey : (if (((X % 2 ^ 26).toNat * 2 ^ 38 + (Z % 2 ^ 26).toNat * 2 ^ 12 +
        (Y % 2 ^ 12).toNat : Nat) : Int) % 2 ^ 12 ≥ 2 ^ 11 then
          (((X % 2 ^ 26).toNat * 2 ^ 38 + (Z % 2 ^ 26).toNat * 2 ^ 12 +
            (Y % 2 ^ 12).toNat : Nat) : Int) % 2 ^ 12 - 2 ^ 12
        else (((X % 2 ^ 26).toNat * 2 ^ 38 + (Z % 2 ^ 26).toNat * 2 ^ 12 +
            (Y % 2 ^ 12).toNat : Nat) : Int) % 2 ^ 12) = Y := by
      split_ifs <;> omega
    have ez : (if (((X % 2 ^ 26).toNat * 2 ^ 38 + (Z % 2 ^ 26).toNat * 2 ^ 12 +
        (Y % 2 ^ 12).toNat : Nat) : Int) / 2 ^ 12 % 2 ^ 26 ≥ 2 ^ 25 then
          (((X % 2 ^ 26).toNat * 2 ^ 38 + (Z % 2 ^ 26).toNat * 2 ^ 12 +
            (Y % 2 ^ 12).toNat : Nat) : Int) / 2 ^ 12 % 2 ^ 26 - 2 ^ 26
        else (((X % 2 ^ 26).toNat * 2 ^ 38 + (Z % 2 ^ 26).toNat * 2 ^ 12 +
            (Y % 2 ^ 12).toNat : Nat) : Int) / 2 ^ 12 % 2 ^ 26) = Z := by
      split_ifs <;> omega
    rw [ex, ey, ez]

/-- Witness of C6 at the sign-extension boundary `X = -2^25`, `Y = 2^11 - 1`,
`Z = 2^25 - 1`. -/
theorem Position_round_trip_witness :
    (Position.WriteTo ⟨-33554432, 2047, 33554431⟩ []).w.length = 8 ∧
    Position.ReadFrom ⟨0, 0, 0⟩ ((Position.WriteTo ⟨-33554432, 2047, 33554431⟩ []).w ++ [0x2A]) =
      ⟨⟨-33554432, 2047, 33554431⟩, 8, none, [0x2A]⟩ :=
  Position_round_trip ⟨-33554432, 2047, 33554431⟩ (by norm_num) (by norm_num) (by norm_num)
    ⟨0, 0, 0⟩ [0x2A]


/-! ## Framing -/

theorem uint32_int32 (x : Int) : uint32 (int32 x) = uint32 x := by
  unfold uint32 int32; omega

theorem int32_of_range (x : Int) (h1 : -2 ^ 31 ≤ x) (h2 : x < 2 ^ 31) : int32 x = x := by
  unfold int32; omega

theorem VarInt.ReadFrom_int32 (old x : Int) (s : Reader) :
    VarInt.ReadFrom old (writeLoop 32 (uint32 x) ++ s) =
      ⟨int32 x, ((writeLoop 32 (uint32 x)).length : Int), none, s⟩ := by
  have h := VarInt.ReadFrom_writeLoop old (int32 x) (by unfold int32; omega)
    (by unfold int32; omega) s
  rw [uint32_int32] at h
  exact h

theorem ReadFull_append (data rest buf : List UInt8) (h : buf.length = data.length) :
    ReadFull (data ++ rest) buf = ⟨data, (data.length : Int), none, rest⟩ := by
  have hle : buf.length ≤ (data ++ rest).length := by simp [h]
  unfold ReadFull
  rw [if_pos hle, h]
  simp

theorem RawPacket.setLen_of_nonneg (p : RawPacket) (d : Nat) :
    ∃ q : RawPacket, p.setLen (d : Int) = some q ∧ q.ID = p.ID ∧ q.Data.length = d := by
  unfold RawPacket.setLen
  split
  · exact ⟨_, rfl, rfl, by simp⟩
  · rename_i h
    rw [if_neg (by omega)]
    refine ⟨_, rfl, rfl, ?_⟩
    simp only [Int.toNat_ofNat, List.length_take, List.length_append]
    omega

theorem CopyN_append (data rest : List UInt8) (n : Int) (h : n = (data.length : Int)) :
    CopyN [] (data ++ rest) n = ⟨data, n, none, rest⟩ := by
  subst h
  unfold CopyN
  by_cases h0 : ((data.length : Nat) : Int) ≤ 0
  · have : data = [] := by
      have : data.length = 0 := by omega
      exact List.length_eq_zero.mp this
    subst this
    simp
  · rw [if_neg h0, if_pos (by simp)]
    simp

theorem int32_eq (x : Int) : int32 x = (x + 2 ^ 31) % 2 ^ 32 - 2 ^ 31 :=
  Eq.trans rfl rfl

theorem int32_int32 (x : Int) : int32 (int32 x) = int32 x := by
  unfold int32; omega

theorem RawPacket.unpackWithoutCompression_ok (q : RawPacket) (reader r1 r2 : Reader)
    (length n1 id n2 : Int) (data rest : List UInt8)
    (h1 : VarInt.ReadFrom 0 reader = ⟨length, n1, none, r1⟩)
    (h2 : VarInt.ReadFrom 0 r1 = ⟨id, n2, none, r2⟩)
    (h3 : length - n2 = ((data.length : Nat) : Int)) (h4 : r2 = data ++ rest) :
    ∃ q' : RawPacket,
      q.unpackWithoutCompression reader = some ⟨q', rest, none⟩ ∧
      q'.ID = int32 id ∧ q'.Data = data := by
  obtain ⟨q1, e1, e2, e3⟩ := RawPacket.setLen_of_nonneg { q with ID := int32 id } data.length
  refine ⟨{ q1 with Data := data }, ?_, e2, rfl⟩
  unfold RawPacket.unpackWithoutCompression
  rw [h1]
  simp only []
  rw [h2]
  simp only []
  rw [h3, e1]
  simp only []
  rw [h4, ReadFull_append data rest q1.Data e3]

theorem RawPacket.unpackWithoutCompression_frame (q : RawPacket) (id : Int)
    (data rest : List UInt8)
    (hfit : (writeLoop 32 (uint32 id)).length + data.length < 2 ^ 31) :
    ∃ q' : RawPacket,
      q.unpackWithoutCompression
        (writeLoop 32 (uint32 (int32 (((writeLoop 32 (uint32 id)).length : Int) + data.length))) ++
          (writeLoop 32 (uint32 id) ++ (data ++ rest))) = some ⟨q', rest, none⟩ ∧
      q'.ID = int32 id ∧ q'.Data = data := by
  have hL : int32 (int32 (((writeLoop 32 (uint32 id)).length : Int) + data.length)) -
      ((writeLoop 32 (uint32 id)).length : Int) = ((data.length : Nat) : Int) := by
    unfold int32; omega
  obtain ⟨q', e1, e2, e3⟩ := RawPacket.unpackWithoutCompression_ok q _ _ _ _ _ (int32 id) _
    data rest (VarInt.ReadFrom_int32 0 _ _) (VarInt.ReadFrom_int32 0 id _) hL rfl
  exact ⟨q', e1, by rw [e2, int32_int32], e3⟩

theorem RawPacket.packWithoutCompression_eq (p : RawPacket) (w : Writer) :
    p.packWithoutCompression w =
      (w ++ writeLoop 32 (uint32 (int32 (((writeLoop 32 (uint32 p.ID)).length : Int) +
          (p.Data.length : Int)))) ++ writeLoop 32 (uint32 p.ID) ++ p.Data, none) := by
  rfl

theorem RawPacket.packWithCompression_small (z : Zlib) (p : RawPacket) (w : Writer)
    (threshold : Int) (h : (p.Data.length : Int) < threshold) :
    p.packWithCompression z w threshold =
      (w ++ writeLoop 32 (uint32 (int32 (((writeLoop 32 (uint32 0) ++
          writeLoop 32 (uint32 p.ID) ++ p.Data).length : Nat) : Int))) ++
        (writeLoop 32 (uint32 0) ++ writeLoop 32 (uint32 p.ID) ++ p.Data), none) := by
  rw [RawPacket.packWithCompression, if_pos h]
  simp only [VarInt.WriteTo, Write]
  rw [List.nil_append]

theorem RawPacket.packWithCompression_large (z : Zlib) (p : RawPacket) (w : Writer)
    (threshold : Int) (h : ¬ (p.Data.length : Int) < threshold) :
    p.packWithCompression z w threshold =
      (w ++ writeLoop 32 (uint32 (int32 (((writeLoop 32 (uint32 (int32
            (((writeLoop 32 (uint32 p.ID)).length : Int) + (p.Data.length : Int))))).length : Int) +
            ((z.deflate (writeLoop 32 (uint32 p.ID) ++ p.Data)).length : Int)))) ++
        writeLoop 32 (uint32 (int32 (((writeLoop 32 (uint32 p.ID)).length : Int) +
          (p.Data.length : Int)))) ++
        z.deflate (writeLoop 32 (uint32 p.ID) ++ p.Data), none) := by
  rw [RawPacket.packWithCompression, if_neg h]
  simp only [VarInt.WriteTo, Write]
  rw [List.nil_append, List.nil_append, List.nil_append]

theorem ReadFull_exact (data buf : List UInt8) (h : buf.length = data.length) :
    ReadFull data buf = ⟨data, (data.length : Int), none, []⟩ := by
  have h2 := ReadFull_append data [] buf h
  rw [List.append_nil] at h2
  exact h2

theorem RawPacket.unpackWithCompression_plain (z : Zlib) (q : RawPacket)
    (reader r1 frame outer r2 r3 : Reader) (threshold length n1 nc n2 id n3 : Int)
    (data : List UInt8)
    (h1 : VarInt.ReadFrom 0 reader = ⟨length, n1, none, r1⟩)
    (h2 : CopyN [] r1 length = ⟨frame, nc, none, outer⟩)
    (h3 : VarInt.ReadFrom 0 frame = ⟨0, n2, none, r2⟩)
    (h4 : VarInt.ReadFrom 0 r2 = ⟨id, n3, none, r3⟩)
    (h5 : int32 (length - n2 - n3) = ((data.length : Nat) : Int)) (h6 : r3 = data) :
    ∃ q' : RawPacket,
      q.unpackWithCompression z reader threshold = some ⟨q', outer, none⟩ ∧
      q'.ID = int32 id ∧ q'.Data = data := by
  obtain ⟨q1, e1, e2, e3⟩ := RawPacket.setLen_of_nonneg q data.length
  refine ⟨{ q1 with ID := int32 id, Data := data }, ?_, rfl, rfl⟩
  unfold RawPacket.unpackWithCompression
  rw [h1]
  simp only []
  rw [h2]
  simp only []
  rw [h3]
  simp only [ne_eq, not_true_eq_false, if_false]
  rw [h4]
  simp only []
  rw [h5, e1]
  simp only []
  rw [h6, ReadFull_exact data q1.Data e3]

theorem VarInt.WriteTo_nil_w (v : Int) : (VarInt.WriteTo v []).w = writeLoop 32 (uint32 v) :=
  List.nil_append _

theorem RawPacket.Pack_of_neg (z : Zlib) (p : RawPacket) (writer : Writer) (threshold : Int)
    (ht : threshold < 0) :
    p.Pack z writer threshold =
      (writer ++ writeLoop 32 (uint32 (int32 (((writeLoop 32 (uint32 p.ID)).length : Int) +
          (p.Data.length : Int)))) ++ writeLoop 32 (uint32 p.ID) ++ p.Data, none) := by
  rw [RawPacket.Pack, if_neg (by omega), RawPacket.packWithoutCompression_eq]

/-- C10. Uncompressed wire format: for every RawPacket, every writer and every
`threshold < 0`, `Pack` returns no error and appends to the writer exactly the
VarInt of `len(VarInt(id)) + len(data)` (converted to `VarInt` as the code
does), then the VarInt of the id, then the data, and nothing else. -/
theorem Pack_uncompressed_format (z : Zlib) (p : RawPacket) (writer : Writer) (threshold : Int)
    (ht : threshold < 0) :
    p.Pack z writer threshold =
      (writer ++
        (VarInt.WriteTo (int32 (((VarInt.WriteTo p.ID []).w.length : Int) +
          (p.Data.length : Int))) []).w ++
        (VarInt.WriteTo p.ID []).w ++ p.Data, none) := by
  rw [VarInt.WriteTo_nil_w, VarInt.WriteTo_nil_w]
  exact RawPacket.Pack_of_neg z p writer threshold ht

/-- Witness of C10: id 5 with a three-byte payload, threshold -1. -/
theorem Pack_uncompressed_format_witness :
    ((-1 : Int) < 0) ∧
    RawPacket.Pack Zlib.stored ⟨5, [1, 2, 3], []⟩ [0x2A] (-1) =
      ([0x2A] ++
        (VarInt.WriteTo (int32 (((VarInt.WriteTo 5 []).w.length : Int) +
          (([1, 2, 3] : List UInt8).length : Int))) []).w ++
        (VarInt.WriteTo 5 []).w ++ [1, 2, 3], none) :=
  ⟨by decide, Pack_uncompressed_format Zlib.stored ⟨5, [1, 2, 3], []⟩ [0x2A] (-1) (by decide)⟩

/-- C7. Uncompressed framing round trip: for every RawPacket `p` whose id is a
32-bit value and whose id length plus data length fits a VarInt, every
`threshold < 0`, every packet `q` to unpack into and every stream content
`rest` following the frame, `Pack` returns no error, and `Unpack` on the
written bytes followed by `rest` returns no error, yields the id and the data
of `p`, and leaves exactly `rest` in the reader. -/
theorem Pack_Unpack_uncompressed (z : Zlib) (p q : RawPacket) (rest : Reader) (threshold : Int)
    (ht : threshold < 0) (hid : -2 ^ 31 ≤ p.ID ∧ p.ID < 2 ^ 31)
    (hfit : ((VarInt.WriteTo p.ID []).w.length : Int) + (p.Data.length : Int) ≤ 2 ^ 31 - 1) :
    (p.Pack z [] threshold).2 = none ∧
    ∃ q' : RawPacket,
      q.Unpack z ((p.Pack z [] threshold).1 ++ rest) threshold = some ⟨q', rest, none⟩ ∧
      q'.ID = p.ID ∧ q'.Data = p.Data := by
  rw [VarInt.WriteTo_nil_w] at hfit
  have hp := RawPacket.Pack_of_neg z p [] threshold ht
  have h1 : (p.Pack z [] threshold).1 ++ rest =
      writeLoop 32 (uint32 (int32 (((writeLoop 32 (uint32 p.ID)).length : Int) +
          (p.Data.length : Int)))) ++ (writeLoop 32 (uint32 p.ID) ++ (p.Data ++ rest)) := by
    rw [hp, List.nil_append, List.append_assoc, List.append_assoc]
  have h2 : (p.Pack z [] threshold).2 = none := by rw [hp]
  obtain ⟨q', e1, e2, e3⟩ := RawPacket.unpackWithoutCompression_frame q p.ID p.Data rest
    (by omega)
  refine ⟨h2, q', ?_, ?_, e3⟩
  · rw [h1, RawPacket.Unpack, if_neg (by omega)]
    exact e1
  · rw [e2, int32_of_range p.ID hid.1 hid.2]

/-- Witness of C7: id -1 (a five-byte VarInt) with a three-byte payload. -/
theorem Pack_Unpack_uncompressed_witness :
    (RawPacket.Pack Zlib.stored ⟨-1, [1, 2, 3], []⟩ [] (-1)).2 = none ∧
    ∃ q' : RawPacket,
      RawPacket.Unpack Zlib.stored ⟨9, [7, 7], [7]⟩
        ((RawPacket.Pack Zlib.stored ⟨-1, [1, 2, 3], []⟩ [] (-1)).1 ++ [0x2A]) (-1) =
          some ⟨q', [0x2A], none⟩ ∧
      q'.ID = -1 ∧ q'.Data = [1, 2, 3] :=
  Pack_Unpack_uncompressed Zlib.stored ⟨-1, [1, 2, 3], []⟩ ⟨9, [7, 7], [7]⟩ [0x2A] (-1)
    (by decide) (by decide) (by decide)

theorem writeLoop32_zero : writeLoop 32 (uint32 0) = [0] := by decide

theorem int32_zero : int32 0 = 0 := by decide

theorem RawPacket.Pack_small (z : Zlib) (p : RawPacket) (writer : Writer) (threshold : Int)
    (ht : 0 ≤ threshold) (h : (p.Data.length : Int) < threshold) :
    p.Pack z writer threshold =
      (writer ++ writeLoop 32 (uint32 (int32 (((writeLoop 32 (uint32 0) ++
          writeLoop 32 (uint32 p.ID) ++ p.Data).length : Nat) : Int))) ++
        (writeLoop 32 (uint32 0) ++ writeLoop 32 (uint32 p.ID) ++ p.Data), none) := by
  rw [RawPacket.Pack, if_pos (by omega), RawPacket.packWithCompression_small z p writer threshold h]

theorem RawPacket.Pack_large (z : Zlib) (p : RawPacket) (writer : Writer) (threshold : Int)
    (ht : 0 ≤ threshold) (h : ¬ (p.Data.length : Int) < threshold) :
    p.Pack z writer threshold =
      (writer ++ writeLoop 32 (uint32 (int32 (((writeLoop 32 (uint32 (int32
            (((writeLoop 32 (uint32 p.ID)).length : Int) + (p.Data.length : Int))))).length : Int) +
            ((z.deflate (writeLoop 32 (uint32 p.ID) ++ p.Data)).length : Int)))) ++
        writeLoop 32 (uint32 (int32 (((writeLoop 32 (uint32 p.ID)).length : Int) +
          (p.Data.length : Int)))) ++
        z.deflate (writeLoop 32 (uint32 p.ID) ++ p.Data), none) := by
  rw [RawPacket.Pack, if_pos (by omega), RawPacket.packWithCompression_large z p writer threshold h]

/-- C8, as amended. Compression-mode round trip below the threshold: for every
`threshold ≥ 0` and every RawPacket `p` whose id is a 32-bit value, with
`len(data) < threshold` and `1 + len(VarInt(id)) + len(data)` fitting a VarInt,
`Pack` returns no error, and `Unpack` with the same threshold on the written
bytes followed by `rest` returns no error, yields the id and the data of `p`,
and leaves exactly `rest` in the reader. -/
theorem Pack_Unpack_below_threshold (z : Zlib) (p q : RawPacket) (rest : Reader)
    (threshold : Int) (ht : 0 ≤ threshold) (hlen : (p.Data.length : Int) < threshold)
    (hid : -2 ^ 31 ≤ p.ID ∧ p.ID < 2 ^ 31)
    (hfit : 1 + ((VarInt.WriteTo p.ID []).w.length : Int) + (p.Data.length : Int) ≤ 2 ^ 31 - 1) :
    (p.Pack z [] threshold).2 = none ∧
    ∃ q' : RawPacket,
      q.Unpack z ((p.Pack z [] threshold).1 ++ rest) threshold = some ⟨q', rest, none⟩ ∧
      q'.ID = p.ID ∧ q'.Data = p.Data := by
  rw [VarInt.WriteTo_nil_w] at hfit
  have hp := RawPacket.Pack_small z p [] threshold ht hlen
  have hflen : (writeLoop 32 (uint32 0) ++ writeLoop 32 (uint32 p.ID) ++ p.Data).length =
      1 + (writeLoop 32 (uint32 p.ID)).length + p.Data.length := by
    rw [writeLoop32_zero, List.length_append, List.length_append]; rfl
  have h1 : (p.Pack z [] threshold).1 ++ rest =
      writeLoop 32 (uint32 (int32 (((writeLoop 32 (uint32 0) ++
          writeLoop 32 (uint32 p.ID) ++ p.Data).length : Nat) : Int))) ++
        ((writeLoop 32 (uint32 0) ++ writeLoop 32 (uint32 p.ID) ++ p.Data) ++ rest) := by
    rw [hp, List.nil_append, List.append_assoc]
  have h2 : (p.Pack z [] threshold).2 = none := by rw [hp]
  have hlen32 : int32 (int32 (((writeLoop 32 (uint32 0) ++
      writeLoop 32 (uint32 p.ID) ++ p.Data).length : Nat) : Int)) =
      (((writeLoop 32 (uint32 0) ++ writeLoop 32 (uint32 p.ID) ++ p.Data).length : Nat) : Int) := by
    rw [int32_int32, int32_of_range _ (by rw [hflen]; omega) (by rw [hflen]; omega)]
  have hread := VarInt.ReadFrom_int32 0 (int32 (((writeLoop 32 (uint32 0) ++
      writeLoop 32 (uint32 p.ID) ++ p.Data).length : Nat) : Int))
      ((writeLoop 32 (uint32 0) ++ writeLoop 32 (uint32 p.ID) ++ p.Data) ++ rest)
  rw [hlen32] at hread
  have h3 := VarInt.ReadFrom_int32 0 0 (writeLoop 32 (uint32 p.ID) ++ p.Data)
  rw [int32_zero, ← List.append_assoc] at h3
  have h5 : int32 ((((writeLoop 32 (uint32 0) ++ writeLoop 32 (uint32 p.ID) ++
      p.Data).length : Nat) : Int) - ((writeLoop 32 (uint32 0)).length : Int) -
      ((writeLoop 32 (uint32 p.ID)).length : Int)) = ((p.Data.length : Nat) : Int) := by
    rw [hflen, writeLoop32_zero, int32_eq, List.length_singleton]
    omega
  obtain ⟨q', e1, e2, e3⟩ := RawPacket.unpackWithCompression_plain z q _ _ _ rest _ _ threshold
    _ _ _ _ (int32 p.ID) _ p.Data hread (CopyN_append _ rest _ rfl) h3
    (VarInt.ReadFrom_int32 0 p.ID p.Data) h5 rfl
  refine ⟨h2, q', ?_, ?_, e3⟩
  · rw [h1, RawPacket.Unpack, if_pos (by omega)]
    exact e1
  · rw [e2, int32_int32, int32_of_range p.ID hid.1 hid.2]

/-- Witness of C8 as amended: threshold 256 and an empty payload. -/
theorem Pack_Unpack_below_threshold_witness :
    (RawPacket.Pack Zlib.stored ⟨5, [], []⟩ [] 256).2 = none ∧
    ∃ q' : RawPacket,
      RawPacket.Unpack Zlib.stored ⟨9, [7, 7], [7]⟩
        ((RawPacket.Pack Zlib.stored ⟨5, [], []⟩ [] 256).1 ++ [0x2A]) 256 =
          some ⟨q', [0x2A], none⟩ ∧
      q'.ID = 5 ∧ q'.Data = [] :=
  Pack_Unpack_below_threshold Zlib.stored ⟨5, [], []⟩ ⟨9, [7, 7], [7]⟩ [0x2A] 256
    (by decide) (by decide) (by decide) (by decide)

theorem RawPacket.unpackWithCompression_nonpositive (z : Zlib) (q : RawPacket)
    (reader r1 : Reader) (threshold length n1 : Int)
    (h1 : VarInt.ReadFrom 0 reader = ⟨length, n1, none, r1⟩) (hneg : length ≤ 0) :
    q.unpackWithCompression z reader threshold = some ⟨q, r1, some Error.EOF⟩ := by
  have h2 : CopyN [] r1 length = ⟨[], 0, none, r1⟩ := by
    unfold CopyN; rw [if_pos hneg]
  have h3 : VarInt.ReadFrom 0 [] = ⟨0, 0, some Error.EOF, []⟩ := by decide
  unfold RawPacket.unpackWithCompression
  rw [h1]
  simp only []
  rw [h2]
  simp only []
  rw [h3]

theorem RawPacket.Unpack_wrapped_length (q : RawPacket) (data : List UInt8)
    (hd : data.length = 2147483646) :
    RawPacket.Unpack Zlib.stored q
      ((RawPacket.mk 0 data []).Pack Zlib.stored [] 2147483648).1 2147483648 =
      some ⟨q, 0 :: 0 :: data, some Error.EOF⟩ := by
  have hp := RawPacket.Pack_small Zlib.stored ⟨0, data, []⟩ [] 2147483648 (by decide)
    (by simp only []; omega)
  have hflen : (writeLoop 32 (uint32 0) ++ writeLoop 32 (uint32 0) ++ data).length =
      2147483648 := by
    rw [writeLoop32_zero, List.length_append, hd]; rfl
  rw [hp]
  simp only []
  rw [hflen, List.nil_append, RawPacket.Unpack, if_pos (by decide)]
  have hread := VarInt.ReadFrom_int32 0 (int32 ((2147483648 : Nat) : Int))
    (writeLoop 32 (uint32 0) ++ writeLoop 32 (uint32 0) ++ data)
  rw [RawPacket.unpackWithCompression_nonpositive Zlib.stored q _ _ 2147483648 _ _ hread
    (by decide), writeLoop32_zero]
  rfl

theorem hugePayload_length : hugePayload.length = 2147483646 :=
  List.length_replicate _ _

/-- C8 (counterexample to the claim as stated). With threshold `2^31` and a
payload of `2^31 - 2` zero bytes (shorter than the threshold) under id 0, the
inner blob has `2^31` bytes, the packet length that `Pack` writes wraps to
`-2^31`, and `Unpack` with the same threshold on the written bytes fails with
`io.EOF` instead of returning the packet. -/
theorem Pack_Unpack_below_threshold_counterexample :
    ((hugePayload.length : Int) < 2147483648) ∧
    RawPacket.Unpack Zlib.stored ⟨0, [], []⟩
      ((RawPacket.mk 0 hugePayload []).Pack Zlib.stored [] 2147483648).1 2147483648 =
      some ⟨⟨0, [], []⟩, 0 :: 0 :: hugePayload, some Error.EOF⟩ :=
  ⟨by rw [hugePayload_length]; decide,
    RawPacket.Unpack_wrapped_length ⟨0, [], []⟩ hugePayload hugePayload_length⟩

theorem int32_small (x : Int) (h0 : 0 ≤ x) (h : x ≤ 2 ^ 31 - 1) : int32 x = x := by
  rw [int32_eq]; omega

theorem int32_payload_length (a d : Nat) (h : (a : Int) + (d : Int) ≤ 2097152) :
    int32 ((a : Int) + (d : Int) - int32 (a : Int)) = ((d : Nat) : Int) := by
  rw [int32_eq, int32_eq]; omega

theorem blob_length (e0 e1 d : List UInt8) (h : e0.length = 1) :
    (((e0 ++ e1 ++ d).length : Nat) : Int) = 1 + (e1.length : Int) + (d.length : Int) := by
  rw [List.length_append, List.length_append, h]
  push_cast
  ring

theorem append_four (w x e0 e1 d : List UInt8) :
    w ++ x ++ (e0 ++ e1 ++ d) = w ++ x ++ e0 ++ e1 ++ d := by
  simp only [List.append_assoc]

/-- C11. Compression-mode wire format: for every `threshold ≥ 0`, every
RawPacket and every writer, `Pack` returns no error; when
`len(data) < threshold` it appends the VarInt of `1 + len(VarInt(id)) + len(data)`,
then `VarInt(0)`, `VarInt(id)` and the data; otherwise it appends the VarInt of
`len(VarInt(L)) + len(c)`, then `VarInt(L)` and `c`, where
`L = len(VarInt(id)) + len(data)` and `c = deflate(VarInt(id) ++ data)`. Every
`VarInt(n)` of a length `n` is the code's conversion of the `int` to `VarInt`
followed by its encoding. -/
theorem Pack_compressed_format (z : Zlib) (p : RawPacket) (writer : Writer) (threshold : Int)
    (ht : 0 ≤ threshold) :
    ((p.Data.length : Int) < threshold →
      p.Pack z writer threshold =
        (writer ++
          (VarInt.WriteTo (int32 (1 + ((VarInt.WriteTo p.ID []).w.length : Int) +
            (p.Data.length : Int))) []).w ++
          (VarInt.WriteTo 0 []).w ++ (VarInt.WriteTo p.ID []).w ++ p.Data, none)) ∧
    (¬ (p.Data.length : Int) < threshold →
      p.Pack z writer threshold =
        (writer ++
          (VarInt.WriteTo (int32 (((VarInt.WriteTo (int32 (((VarInt.WriteTo p.ID []).w.length : Int) +
              (p.Data.length : Int))) []).w.length : Int) +
            ((z.deflate ((VarInt.WriteTo p.ID []).w ++ p.Data)).length : Int))) []).w ++
          (VarInt.WriteTo (int32 (((VarInt.WriteTo p.ID []).w.length : Int) +
            (p.Data.length : Int))) []).w ++
          z.deflate ((VarInt.WriteTo p.ID []).w ++ p.Data), none)) := by
  constructor
  · intro h
    have hp := RawPacket.Pack_small z p writer threshold ht h
    rw [blob_length _ _ _ (congrArg List.length writeLoop32_zero), append_four] at hp
    rw [VarInt.WriteTo_nil_w, VarInt.WriteTo_nil_w, VarInt.WriteTo_nil_w]
    exact hp
  · intro h
    have hp := RawPacket.Pack_large z p writer threshold ht h
    rw [VarInt.WriteTo_nil_w, VarInt.WriteTo_nil_w]
    exact hp

/-- Witness of C11: threshold 3 with a two-byte payload (below the threshold)
and a three-byte payload (at the threshold), under the storing codec. -/
theorem Pack_compressed_format_witness :
    RawPacket.Pack Zlib.stored ⟨5, [1, 2], []⟩ [0x2A] 3 =
        ([0x2A] ++
          (VarInt.WriteTo (int32 (1 + ((VarInt.WriteTo 5 []).w.length : Int) +
            (([1, 2] : List UInt8).length : Int))) []).w ++
          (VarInt.WriteTo 0 []).w ++ (VarInt.WriteTo 5 []).w ++ [1, 2], none) ∧
    RawPacket.Pack Zlib.stored ⟨5, [1, 2, 3], []⟩ [0x2A] 3 =
        ([0x2A] ++
          (VarInt.WriteTo (int32 (((VarInt.WriteTo (int32 (((VarInt.WriteTo 5 []).w.length : Int) +
              (([1, 2, 3] : List UInt8).length : Int))) []).w.length : Int) +
            ((Zlib.stored.deflate ((VarInt.WriteTo 5 []).w ++ [1, 2, 3])).length : Int))) []).w ++
          (VarInt.WriteTo (int32 (((VarInt.WriteTo 5 []).w.length : Int) +
            (([1, 2, 3] : List UInt8).length : Int))) []).w ++
          Zlib.stored.deflate ((VarInt.WriteTo 5 []).w ++ [1, 2, 3]), none) :=
  ⟨(Pack_compressed_format Zlib.stored ⟨5, [1, 2], []⟩ [0x2A] 3 (by decide)).1 (by decide),
    (Pack_compressed_format Zlib.stored ⟨5, [1, 2, 3], []⟩ [0x2A] 3 (by decide)).2 (by decide)⟩

/-! ## Framing: the checks on `dataLength` -/

theorem RawPacket.unpackWithCompression_rejected (z : Zlib) (q : RawPacket)
    (reader r1 frame outer r2 : Reader) (threshold length n1 nc d n2 : Int)
    (h1 : VarInt.ReadFrom 0 reader = ⟨length, n1, none, r1⟩)
    (h2 : CopyN [] r1 length = ⟨frame, nc, none, outer⟩)
    (h3 : VarInt.ReadFrom 0 frame = ⟨d, n2, none, r2⟩)
    (hd0 : d ≠ 0) (hbad : d < threshold ∨ d > maxDataLength) :
    q.unpackWithCompression z reader threshold =
      some ⟨q, outer, some (if d < threshold then Error.belowThreshold d threshold
        else Error.aboveMaximum d maxDataLength)⟩ := by
  unfold RawPacket.unpackWithCompression
  rw [h1]
  simp only []
  rw [h2]
  simp only []
  rw [h3]
  simp only [ne_eq, hd0, not_false_eq_true, if_true]
  by_cases hlt : d < threshold
  · rw [if_pos hlt, if_pos hlt]
  · have hgt : d > maxDataLength := hbad.resolve_left hlt
    rw [if_neg hlt, if_pos hgt, if_neg hlt]

theorem VarInt.ReadFrom_length (old : Int) (frame s : List UInt8)
    (hfit : ((frame.length : Nat) : Int) ≤ 2 ^ 31 - 1) :
    VarInt.ReadFrom old ((VarInt.WriteTo ((frame.length : Nat) : Int) []).w ++ s) =
      ⟨((frame.length : Nat) : Int),
        (((VarInt.WriteTo ((frame.length : Nat) : Int) []).w.length : Nat) : Int), none, s⟩ := by
  have h := VarInt.ReadFrom_int32 old ((frame.length : Nat) : Int) s
  rw [int32_small _ (Int.ofNat_nonneg _) hfit] at h
  rw [VarInt.WriteTo_nil_w]
  exact h

theorem VarInt.ReadFrom_value (old d : Int) (s : List UInt8)
    (hd : -2 ^ 31 ≤ d ∧ d < 2 ^ 31) :
    VarInt.ReadFrom old ((VarInt.WriteTo d []).w ++ s) =
      ⟨d, (((VarInt.WriteTo d []).w.length : Nat) : Int), none, s⟩ := by
  rw [VarInt.WriteTo_nil_w]
  exact VarInt.ReadFrom_writeLoop old d hd.1 hd.2 s

/-- C12. Framing-invariant rejection: for every `threshold ≥ 0` and every stream
made of the VarInt of a frame length, the frame and any following bytes, where
the frame starts with the VarInt of a non-zero `d` with `d < threshold` or
`d > 2097152`, `Unpack` returns the framing error (below the threshold, else
above the maximum), whatever the codec, leaves the RawPacket as it was, and
leaves the bytes after the frame in the reader. -/
theorem Unpack_rejects_dataLength (z : Zlib) (q : RawPacket) (d : Int)
    (body rest : List UInt8) (threshold : Int) (ht : 0 ≤ threshold)
    (hd : -2 ^ 31 ≤ d ∧ d < 2 ^ 31)
    (hfit : ((((VarInt.WriteTo d []).w ++ body).length : Nat) : Int) ≤ 2 ^ 31 - 1)
    (hd0 : d ≠ 0) (hbad : d < threshold ∨ d > 2097152) :
    q.Unpack z
      ((VarInt.WriteTo ((((VarInt.WriteTo d []).w ++ body).length : Nat) : Int) []).w ++
        (((VarInt.WriteTo d []).w ++ body) ++ rest)) threshold =
      some ⟨q, rest, some (if d < threshold then Error.belowThreshold d threshold
        else Error.aboveMaximum d 2097152)⟩ := by
  rw [RawPacket.Unpack, if_pos ht]
  exact RawPacket.unpackWithCompression_rejected z q _ _ _ rest _ threshold _ _ _ d _
    (VarInt.ReadFrom_length 0 _ _ hfit) (CopyN_append _ rest _ rfl)
    (VarInt.ReadFrom_value 0 d body hd) hd0 hbad

/-- Witness of C12: threshold 256, a frame that declares `dataLength = 1`. -/
theorem Unpack_rejects_dataLength_witness :
    RawPacket.Unpack Zlib.stored ⟨9, [7, 7], [7]⟩
      ((VarInt.WriteTo ((((VarInt.WriteTo 1 []).w ++ [0x78, 0x9C]).length : Nat) : Int) []).w ++
        (((VarInt.WriteTo 1 []).w ++ [0x78, 0x9C]) ++ [0x2A])) 256 =
      some ⟨⟨9, [7, 7], [7]⟩, [0x2A], some (if (1 : Int) < 256 then Error.belowThreshold 1 256
        else Error.aboveMaximum 1 2097152)⟩ :=
  Unpack_rejects_dataLength Zlib.stored ⟨9, [7, 7], [7]⟩ 1 [0x78, 0x9C] [0x2A] 256
    (by decide) (by decide) (by decide) (by decide) (by decide)

theorem VarInt.loop32_cons (v : Int) (vi n : Nat) (sec : UInt8) (r : Reader)
    (h : ¬ n > MaxVarIntLen) :
    VarInt.readLoop v vi n (sec :: r) =
      if sec.toNat &&& 0x80 ≠ 0 then
        VarInt.readLoop v (vi ||| ((sec.toNat &&& 0x7F) <<< (7 * n)) % 2 ^ 32) (n + 1) r
      else ⟨int32 ((vi ||| ((sec.toNat &&& 0x7F) <<< (7 * n)) % 2 ^ 32 : Nat) : Int),
        ((n + 1 : Nat) : Int), none, r⟩ := by
  rw [VarInt.readLoop]
  simp only [h, if_false]

theorem VarInt.loop32_taken (v : Int) :
    ∀ (r : Reader) (vi n : Nat), n ≤ 6 →
      ∃ taken : List UInt8, r = taken ++ (VarInt.readLoop v vi n r).rest ∧
        (VarInt.readLoop v vi n r).n = ((n + taken.length : Nat) : Int) ∧
        n + taken.length ≤ 6 := by
  intro r
  induction r with
  | nil =>
    intro vi n hn
    refine ⟨[], ?_, ?_, by simpa using hn⟩
    · simp only [VarInt.readLoop]; split <;> rfl
    · simp only [VarInt.readLoop]; split <;> simp
  | cons sec r ih =>
    intro vi n hn
    by_cases h5 : n > MaxVarIntLen
    · refine ⟨[], ?_, ?_, by simpa using hn⟩
      · simp only [VarInt.readLoop, h5, if_true, List.nil_append]
      · simp only [VarInt.readLoop, h5, if_true, List.length_nil, Nat.add_zero]
    · have hn1 : n + 1 ≤ 6 := by simp only [MaxVarIntLen] at h5; omega
      rw [VarInt.loop32_cons v vi n sec r h5]
      by_cases hc : sec.toNat &&& 0x80 ≠ 0
      · obtain ⟨taken, e1, e2, e3⟩ :=
          ih (vi ||| ((sec.toNat &&& 0x7F) <<< (7 * n)) % 2 ^ 32) (n + 1) hn1
        rw [if_pos hc]
        refine ⟨sec :: taken, ?_, ?_, ?_⟩
        · rw [List.cons_append]; exact congrArg _ e1
        · rw [e2, List.length_cons]; congr 1; omega
        · simp only [List.length_cons]; omega
      · rw [if_neg hc]
        refine ⟨[sec], ?_, ?_, ?_⟩
        · simp only [List.singleton_append]
        · simp only [List.length_singleton]
        · simp only [List.length_singleton]; omega

theorem VarInt.ReadFrom_taken (v : Int) (r : Reader) :
    ∃ taken : List UInt8, r = taken ++ (VarInt.ReadFrom v r).rest ∧
      (VarInt.ReadFrom v r).n = ((taken.length : Nat) : Int) ∧ taken.length ≤ 6 := by
  obtain ⟨taken, e1, e2, e3⟩ := VarInt.loop32_taken v r 0 0 (by norm_num)
  refine ⟨taken, e1, ?_, by omega⟩
  rw [VarInt.ReadFrom, e2]; simp

theorem int32_sub_small (d n : Int) (h0 : 0 ≤ n) (h1 : n ≤ 6) (h2 : n ≤ d) (h3 : d ≤ 2097152) :
    int32 (d - int32 n) = d - n := by
  rw [int32_eq, int32_eq]; omega

theorem ReadFull_short (r buf : List UInt8) (h : r.length < buf.length) :
    (ReadFull r buf).err ≠ none := by
  unfold ReadFull
  rw [if_neg (by omega)]
  simp

theorem RawPacket.unpackWithCompression_short (z : Zlib) (q : RawPacket)
    (reader r1 frame outer r2 out : Reader) (threshold length n1 nc d n2 : Int)
    (endErr : Error)
    (h1 : VarInt.ReadFrom 0 reader = ⟨length, n1, none, r1⟩)
    (h2 : CopyN [] r1 length = ⟨frame, nc, none, outer⟩)
    (h3 : VarInt.ReadFrom 0 frame = ⟨d, n2, none, r2⟩)
    (hd0 : d ≠ 0) (hLt : ¬ d < threshold) (hLm : ¬ d > maxDataLength)
    (hz : z.inflate r2 = Except.ok (out, endErr))
    (hshort : ((out.length : Nat) : Int) < d) :
    ∃ r : UnpackResult, q.unpackWithCompression z reader threshold = some r ∧ r.err ≠ none := by
  obtain ⟨taken, e1, e2, e3⟩ := VarInt.ReadFrom_taken 0 out
  unfold RawPacket.unpackWithCompression
  rw [h1]
  simp only []
  rw [h2]
  simp only []
  rw [h3]
  simp only [ne_eq, hd0, not_false_eq_true, if_true, hLt, hLm, if_false]
  rw [hz]
  simp only []
  generalize VarInt.ReadFrom 0 out = ri at e1 e2
  obtain ⟨val, n, err, rst⟩ := ri
  simp only [] at e1 e2
  cases err with
  | some e => exact ⟨_, rfl, by simp⟩
  | none =>
    simp only []
    have hlen : out.length = taken.length + rst.length := by
      rw [e1, List.length_append]
    have hmax : d ≤ 2097152 := by unfold maxDataLength at hLm; omega
    have hdl : int32 (d - int32 n) = (((d - n).toNat : Nat) : Int) := by
      rw [int32_sub_small d n (by omega) (by omega) (by omega) hmax]
      omega
    rw [hdl]
    obtain ⟨q1, a1, a2, a3⟩ := RawPacket.setLen_of_nonneg q (d - n).toNat
    rw [a1]
    simp only []
    refine ⟨_, rfl, ?_⟩
    have hsh := ReadFull_short rst q1.Data (by rw [a3]; omega)
    simp only []
    cases hf : (ReadFull rst q1.Data).err with
    | none => exact absurd hf hsh
    | some e => simp

theorem RawPacket.unpackWithCompression_truncates (z : Zlib) (q : RawPacket)
    (reader r1 frame outer r2 out r3 : Reader) (threshold length n1 nc L n2 id n3 : Int)
    (endErr : Error) (data extra : List UInt8)
    (h1 : VarInt.ReadFrom 0 reader = ⟨length, n1, none, r1⟩)
    (h2 : CopyN [] r1 length = ⟨frame, nc, none, outer⟩)
    (h3 : VarInt.ReadFrom 0 frame = ⟨L, n2, none, r2⟩)
    (hL0 : L ≠ 0) (hLt : ¬ L < threshold) (hLm : ¬ L > maxDataLength)
    (hz : z.inflate r2 = Except.ok (out, endErr))
    (h4 : VarInt.ReadFrom 0 out = ⟨id, n3, none, r3⟩)
    (h5 : int32 (L - int32 n3) = ((data.length : Nat) : Int)) (h6 : r3 = data ++ extra) :
    ∃ q' : RawPacket,
      q.unpackWithCompression z reader threshold = some ⟨q', outer, none⟩ ∧
      q'.ID = int32 id ∧ q'.Data = data := by
  obtain ⟨q1, e1, e2, e3⟩ := RawPacket.setLen_of_nonneg q data.length
  refine ⟨{ q1 with ID := int32 id, Data := data }, ?_, rfl, rfl⟩
  unfold RawPacket.unpackWithCompression
  rw [h1]
  simp only []
  rw [h2]
  simp only []
  rw [h3]
  simp only [ne_eq, hL0, not_false_eq_true, if_true, hLt, hLm, if_false]
  rw [hz]
  simp only []
  rw [h4]
  simp only []
  rw [h5, e1]
  simp only []
  rw [h6, ReadFull_append data extra q1.Data e3]
  rfl

/-- C13 (counterexample to the claim as stated). Under the storing codec and
threshold 0, the frame `02 05 01 02 03` declares `dataLength = 2` while its
content has 4 bytes; `Unpack` returns no error, with id 5 and the one-byte
payload `01`, and drops `02 03`. -/
theorem Unpack_dataLength_mismatch_counterexample :
    RawPacket.Unpack Zlib.stored ⟨0, [], []⟩ [0x05, 0x02, 0x05, 0x01, 0x02, 0x03] 0 =
      some ⟨⟨5, [0x01], []⟩, [], none⟩ := by
  decide

/-- C13, as amended. For every `threshold ≥ 0` and every compressed frame
`VarInt(d) ++ c` whose declared `d` is non-zero and passes the threshold and
maximum checks, with `out` the inflated content of `c`: when `out` is shorter
than `d`, `Unpack` returns an error; when `out` is `VarInt(id) ++ data ++ extra`
with `d = len(VarInt(id)) + len(data)`, `Unpack` returns no error and yields
`id` and `data`, whatever bytes `extra` follow them in the inflated content. -/
theorem Unpack_dataLength_mismatch (z : Zlib) (q : RawPacket) (d : Int)
    (c rest out : List UInt8) (endErr : Error) (threshold : Int) (ht : 0 ≤ threshold)
    (hd0 : d ≠ 0) (hge : threshold ≤ d) (hmax : d ≤ 2097152)
    (hfit : ((((VarInt.WriteTo d []).w ++ c).length : Nat) : Int) ≤ 2 ^ 31 - 1)
    (hz : z.inflate c = Except.ok (out, endErr)) :
    (((out.length : Nat) : Int) < d →
      ∃ r : UnpackResult,
        q.Unpack z
          ((VarInt.WriteTo ((((VarInt.WriteTo d []).w ++ c).length : Nat) : Int) []).w ++
            (((VarInt.WriteTo d []).w ++ c) ++ rest)) threshold = some r ∧ r.err ≠ none) ∧
    (∀ (id : Int) (data extra : List UInt8), -2 ^ 31 ≤ id ∧ id < 2 ^ 31 →
      out = (VarInt.WriteTo id []).w ++ data ++ extra →
      d = ((VarInt.WriteTo id []).w.length : Int) + (data.length : Int) →
      ∃ q' : RawPacket,
        q.Unpack z
          ((VarInt.WriteTo ((((VarInt.WriteTo d []).w ++ c).length : Nat) : Int) []).w ++
            (((VarInt.WriteTo d []).w ++ c) ++ rest)) threshold = some ⟨q', rest, none⟩ ∧
        q'.ID = id ∧ q'.Data = data) := by
  have hd : -2 ^ 31 ≤ d ∧ d < 2 ^ 31 := by omega
  have hLt : ¬ d < threshold := not_lt.mpr hge
  have hLm : ¬ d > maxDataLength := by unfold maxDataLength; omega
  constructor
  · intro hshort
    rw [RawPacket.Unpack, if_pos ht]
    exact RawPacket.unpackWithCompression_short z q _ _ _ rest _ out threshold _ _ _ d _ endErr
      (VarInt.ReadFrom_length 0 _ _ hfit) (CopyN_append _ rest _ rfl)
      (VarInt.ReadFrom_value 0 d c hd) hd0 hLt hLm hz hshort
  · intro id data extra hid hout hdl
    have hsum : ((VarInt.WriteTo id []).w.length : Int) + (data.length : Int) ≤ 2097152 := by
      rw [← hdl]; exact hmax
    have h4 := VarInt.ReadFrom_value 0 id (data ++ extra) hid
    rw [← List.append_assoc, ← hout] at h4
    have h5 : int32 (d - int32 ((VarInt.WriteTo id []).w.length : Int)) =
        ((data.length : Nat) : Int) := by
      rw [hdl]; exact int32_payload_length _ _ hsum
    obtain ⟨q', e1, e2, e3⟩ := RawPacket.unpackWithCompression_truncates z q _ _ _ rest _ out _
      threshold _ _ _ d _ id _ endErr data extra
      (VarInt.ReadFrom_length 0 _ _ hfit) (CopyN_append _ rest _ rfl)
      (VarInt.ReadFrom_value 0 d c hd) hd0 hLt hLm hz h4 h5 rfl
    refine ⟨q', ?_, ?_, e3⟩
    · rw [RawPacket.Unpack, if_pos ht]
      exact e1
    · rw [e2, int32_of_range id hid.1 hid.2]

/-- Witness of C13 as amended, under the storing codec and threshold 0: a frame
that declares 5 bytes over the content `05 01`, and a frame that declares 2
bytes over the content `05 01 02 03`. -/
theorem Unpack_dataLength_mismatch_witness :
    (∃ r : UnpackResult,
      RawPacket.Unpack Zlib.stored ⟨9, [7, 7], [7]⟩
        ((VarInt.WriteTo ((((VarInt.WriteTo 5 []).w ++ [0x05, 0x01]).length : Nat) : Int) []).w ++
          (((VarInt.WriteTo 5 []).w ++ [0x05, 0x01]) ++ [0x2A])) 0 = some r ∧ r.err ≠ none) ∧
    (∃ q' : RawPacket,
      RawPacket.Unpack Zlib.stored ⟨9, [7, 7], [7]⟩
        ((VarInt.WriteTo ((((VarInt.WriteTo 2 []).w ++
            [0x05, 0x01, 0x02, 0x03]).length : Nat) : Int) []).w ++
          (((VarInt.WriteTo 2 []).w ++ [0x05, 0x01, 0x02, 0x03]) ++ [0x2A])) 0 =
            some ⟨q', [0x2A], none⟩ ∧
      q'.ID = 5 ∧ q'.Data = [0x01]) :=
  ⟨(Unpack_dataLength_mismatch Zlib.stored ⟨9, [7, 7], [7]⟩ 5 [0x05, 0x01] [0x2A]
      [0x05, 0x01] Error.EOF 0 (by decide) (by decide) (by decide) (by decide) (by decide)
      rfl).1 (by decide),
    (Unpack_dataLength_mismatch Zlib.stored ⟨9, [7, 7], [7]⟩ 2 [0x05, 0x01, 0x02, 0x03] [0x2A]
      [0x05, 0x01, 0x02, 0x03] Error.EOF 0 (by decide) (by decide) (by decide) (by decide)
      (by decide) rfl).2 5 [0x01] [0x02, 0x03] (by decide) (by decide) (by decide)⟩

theorem String_WriteTo_eq (s : List UInt8) (w : Writer) :
    String.WriteTo s w =
      ⟨w ++ (writeLoop 32 (uint32 (s.length : Int)) ++ s),
        ((writeLoop 32 (uint32 (s.length : Int))).length : Int) + (s.length : Int), none⟩ := by
  unfold String.WriteTo VarInt.WriteTo Write
  simp only [uint32_int32, List.append_assoc]

theorem String_ReadFrom_of_prefix (old s suffix : List UInt8) (reader : Reader) (k : Int)
    (h1 : VarInt.ReadFrom 0 reader = ⟨(s.length : Int), k, none, s ++ suffix⟩) :
    String.ReadFrom old reader = some ⟨s, k + (s.length : Int), none, suffix⟩ := by
  unfold String.ReadFrom
  rw [h1]
  simp only []
  rw [if_neg (not_lt.mpr (Int.ofNat_nonneg _)), Int.toNat_ofNat,
    ReadFull_append s suffix _ (List.length_replicate _ _)]

theorem String_ReadFrom_WriteTo (old s suffix : List UInt8)
    (hn : (s.length : Int) ≤ 2 ^ 31 - 1) :
    String.ReadFrom old ((String.WriteTo s []).w ++ suffix) =
      some ⟨s, (String.WriteTo s []).n, none, suffix⟩ := by
  rw [String_WriteTo_eq]
  simp only []
  rw [List.nil_append, List.append_assoc]
  have h := VarInt.ReadFrom_int32 0 (s.length : Int) (s ++ suffix)
  rw [int32_small _ (Int.ofNat_nonneg _) hn] at h
  exact String_ReadFrom_of_prefix old s suffix _ _ h

/-- C15. String format and round trip: for every string `s` whose byte length
`n` fits a non-negative VarInt, `String.WriteTo` appends exactly the VarInt of
`n` followed by the bytes of `s` and returns the length of that VarInt plus
`n`; `String.ReadFrom` on those bytes followed by any suffix returns `s` and
the same byte count, and leaves the suffix in the reader. -/
theorem String_round_trip (s old suffix : List UInt8) (w : Writer)
    (hn : (s.length : Int) ≤ 2 ^ 31 - 1) :
    String.WriteTo s w =
        ⟨w ++ ((VarInt.WriteTo (s.length : Int) []).w ++ s),
          ((VarInt.WriteTo (s.length : Int) []).w.length : Int) + (s.length : Int), none⟩ ∧
      String.ReadFrom old ((VarInt.WriteTo (s.length : Int) []).w ++ s ++ suffix) =
        some ⟨s, ((VarInt.WriteTo (s.length : Int) []).w.length : Int) + (s.length : Int), none,
          suffix⟩ := by
  rw [VarInt.WriteTo_nil_w]
  refine ⟨String_WriteTo_eq s w, ?_⟩
  have h := String_ReadFrom_WriteTo old s suffix hn
  rw [String_WriteTo_eq] at h
  simp only [] at h
  rw [List.nil_append] at h
  exact h

theorem String_round_trip_witness :
    String.WriteTo [0x68, 0x69] [0x07] = ⟨[0x07, 0x02, 0x68, 0x69], 3, none⟩ ∧
      String.ReadFrom [0x01] [0x02, 0x68, 0x69, 0x09] = some ⟨[0x68, 0x69], 3, none, [0x09]⟩ :=
  String_round_trip [0x68, 0x69] [0x01] [0x09] [0x07] (by decide)

/-- C16. `String.ReadFrom` on the bytes `FF FF FF FF 0F`, whose VarInt length
prefix decodes to `-1`, returns neither a value nor an error: the allocation
`make([]byte, l)` with the negative length stops the program. -/
theorem String_ReadFrom_negative_length (old : List UInt8) :
    (VarInt.ReadFrom 0 [0xFF, 0xFF, 0xFF, 0xFF, 0x0F]).val = -1 ∧
      String.ReadFrom old [0xFF, 0xFF, 0xFF, 0xFF, 0x0F] = none := by
  refine ⟨by decide, ?_⟩
  have h1 : VarInt.ReadFrom 0 [0xFF, 0xFF, 0xFF, 0xFF, 0x0F] = ⟨-1, 5, none, []⟩ := by decide
  unfold String.ReadFrom
  rw [h1]
  rfl

theorem ByteArray_WriteTo_eq (b : List UInt8) (w : Writer) :
    ByteArray.WriteTo b w =
      ⟨w ++ (writeLoop 32 (uint32 (b.length : Int)) ++ b),
        ((writeLoop 32 (uint32 (b.length : Int))).length : Int) + (b.length : Int), none⟩ := by
  unfold ByteArray.WriteTo VarInt.WriteTo Write
  simp only [uint32_int32, List.append_assoc]

theorem ByteArray_ReadFrom_of_prefix (old b suffix : List UInt8) (reader : Reader) (k : Int)
    (h1 : VarInt.ReadFrom 0 reader = ⟨(b.length : Int), k, none, b ++ suffix⟩) :
    ByteArray.ReadFrom old reader = ⟨b, k + (b.length : Int), none, suffix⟩ := by
  unfold ByteArray.ReadFrom
  rw [h1]
  simp only []
  rw [CopyN_append b suffix _ rfl]

theorem ByteArray_ReadFrom_WriteTo (old b suffix : List UInt8)
    (hn : (b.length : Int) ≤ 2 ^ 31 - 1) :
    ByteArray.ReadFrom old ((ByteArray.WriteTo b []).w ++ suffix) =
      ⟨b, (ByteArray.WriteTo b []).n, none, suffix⟩ := by
  rw [ByteArray_WriteTo_eq]
  simp only []
  rw [List.nil_append, List.append_assoc]
  have h := VarInt.ReadFrom_int32 0 (b.length : Int) (b ++ suffix)
  rw [int32_small _ (Int.ofNat_nonneg _) hn] at h
  exact ByteArray_ReadFrom_of_prefix old b suffix _ _ h

/-- C17. ByteArray format and round trip: for every byte sequence `b` whose
length `n` fits a non-negative VarInt, `n = 0` included, `ByteArray.WriteTo`
appends exactly the VarInt of `n` followed by `b`; `ByteArray.ReadFrom` on
those bytes followed by any suffix returns `b`, reports the length of that
VarInt plus `n` bytes read and leaves the suffix in the reader, whatever the
slot held before. -/
theorem ByteArray_round_trip (b old suffix : List UInt8) (w : Writer)
    (hn : (b.length : Int) ≤ 2 ^ 31 - 1) :
    ByteArray.WriteTo b w =
        ⟨w ++ ((VarInt.WriteTo (b.length : Int) []).w ++ b),
          ((VarInt.WriteTo (b.length : Int) []).w.length : Int) + (b.length : Int), none⟩ ∧
      ByteArray.ReadFrom old ((VarInt.WriteTo (b.length : Int) []).w ++ b ++ suffix) =
        ⟨b, ((VarInt.WriteTo (b.length : Int) []).w.length : Int) + (b.length : Int), none,
          suffix⟩ := by
  rw [VarInt.WriteTo_nil_w]
  refine ⟨ByteArray_WriteTo_eq b w, ?_⟩
  have h := ByteArray_ReadFrom_WriteTo old b suffix hn
  rw [ByteArray_WriteTo_eq] at h
  simp only [] at h
  rw [List.nil_append] at h
  exact h

theorem ByteArray_round_trip_witness :
    ByteArray.WriteTo [] [0x07] = ⟨[0x07, 0x00], 1, none⟩ ∧
      ByteArray.ReadFrom [0x01, 0x02] [0x00, 0x09] = ⟨[], 1, none, [0x09]⟩ :=
  ByteArray_round_trip [] [0x01, 0x02] [0x09] [0x07] (by decide)

/-! ## Fixed-width integers -/

theorem UInt8_toNat_lt (b : UInt8) : b.toNat < 256 := b.val.isLt

theorem lor_bytes2 (a0 a1 : Nat) (h0 : a0 < 256) (h1 : a1 < 256) :
    (a0 * 2 ^ 8 % 2 ^ 16 ||| a1) = 256 * a0 + a1 := by
  rw [Nat.mod_eq_of_lt (show a0 * 2 ^ 8 < 2 ^ 16 by omega),
    lor_of_dvd a1 (a0 * 2 ^ 8) 8 (by omega) (by omega)]
  omega

theorem lor_bytes4 (a0 a1 a2 a3 : Nat) (h0 : a0 < 256) (h1 : a1 < 256) (h2 : a2 < 256)
    (h3 : a3 < 256) :
    (a0 * 2 ^ 24 % 2 ^ 32 ||| a1 * 2 ^ 16 % 2 ^ 32 ||| a2 * 2 ^ 8 % 2 ^ 32 ||| a3) =
      a0 * 2 ^ 24 + a1 * 2 ^ 16 + a2 * 2 ^ 8 + a3 := by
  rw [Nat.mod_eq_of_lt (show a0 * 2 ^ 24 < 2 ^ 32 by omega),
    Nat.mod_eq_of_lt (show a1 * 2 ^ 16 < 2 ^ 32 by omega),
    Nat.mod_eq_of_lt (show a2 * 2 ^ 8 < 2 ^ 32 by omega)]
  rw [lor_of_dvd (a1 * 2 ^ 16) (a0 * 2 ^ 24) 24 (by omega) (by omega),
    lor_of_dvd (a2 * 2 ^ 8) _ 16 (by omega) (by omega),
    lor_of_dvd a3 _ 8 (by omega) (by omega)]

theorem Short_ReadFrom_bytes (old : Int) (b0 b1 : UInt8) (s : Reader) :
    Short.ReadFrom old (b0 :: b1 :: s) =
      ⟨int16 ((256 * b0.toNat + b1.toNat : Nat) : Int), 2, none, s⟩ := by
  have hle : (List.replicate 2 (0 : UInt8)).length ≤ (b0 :: b1 :: s).length := by simp
  simp only [Short.ReadFrom, ReadFull, if_pos hle]
  simp only [List.length_replicate, List.take_succ_cons, List.take_zero, List.drop_succ_cons,
    List.drop_zero, List.getD_cons_zero, List.getD_cons_succ, Nat.shiftLeft_eq]
  rw [lor_bytes2 _ _ (UInt8_toNat_lt b0) (UInt8_toNat_lt b1)]
  rfl

theorem UnsignedShort_ReadFrom_bytes (old : Int) (b0 b1 : UInt8) (s : Reader) :
    UnsignedShort.ReadFrom old (b0 :: b1 :: s) =
      ⟨((256 * b0.toNat + b1.toNat : Nat) : Int), 2, none, s⟩ := by
  have hle : (List.replicate 2 (0 : UInt8)).length ≤ (b0 :: b1 :: s).length := by simp
  simp only [UnsignedShort.ReadFrom, ReadFull, if_pos hle]
  simp only [List.length_replicate, List.take_succ_cons, List.take_zero, List.drop_succ_cons,
    List.drop_zero, List.getD_cons_zero, List.getD_cons_succ, Nat.shiftLeft_eq]
  rw [lor_bytes2 _ _ (UInt8_toNat_lt b0) (UInt8_toNat_lt b1)]
  have h0 := UInt8_toNat_lt b0
  have h1 := UInt8_toNat_lt b1
  have e : uint16 (int16 ((256 * b0.toNat + b1.toNat : Nat) : Int)) =
      256 * b0.toNat + b1.toNat := by
    unfold uint16 int16; omega
  rw [e]
  rfl

theorem Int_ReadFrom_bytes (old : Int) (b0 b1 b2 b3 : UInt8) (s : Reader) :
    Int.ReadFrom old (b0 :: b1 :: b2 :: b3 :: s) =
      ⟨int32 ((b0.toNat * 2 ^ 24 + b1.toNat * 2 ^ 16 + b2.toNat * 2 ^ 8 + b3.toNat : Nat) : Int),
        4, none, s⟩ := by
  have hle : (List.replicate 4 (0 : UInt8)).length ≤ (b0 :: b1 :: b2 :: b3 :: s).length := by
    simp
  simp only [Int.ReadFrom, ReadFull, if_pos hle]
  simp only [List.length_replicate, List.take_succ_cons, List.take_zero, List.drop_succ_cons,
    List.drop_zero, List.getD_cons_zero, List.getD_cons_succ, Nat.shiftLeft_eq]
  rw [lor_bytes4 _ _ _ _ (UInt8_toNat_lt b0) (UInt8_toNat_lt b1) (UInt8_toNat_lt b2)
    (UInt8_toNat_lt b3)]
  rfl

theorem bigEndian_two (x : Nat) : bigEndian 2 x = [UInt8.ofNat (x >>> 8), UInt8.ofNat x] := by
  simp [bigEndian, Nat.shiftRight_eq_div_pow]

theorem bigEndian_four (x : Nat) :
    bigEndian 4 x =
      [UInt8.ofNat (x >>> 24), UInt8.ofNat (x >>> 16), UInt8.ofNat (x >>> 8), UInt8.ofNat x] := by
  simp [bigEndian, Nat.shiftRight_eq_div_pow]

theorem bigEndian_eight (x : Nat) :
    bigEndian 8 x =
      [UInt8.ofNat (x >>> 56), UInt8.ofNat (x >>> 48), UInt8.ofNat (x >>> 40),
        UInt8.ofNat (x >>> 32), UInt8.ofNat (x >>> 24), UInt8.ofNat (x >>> 16),
        UInt8.ofNat (x >>> 8), UInt8.ofNat x] := by
  simp [bigEndian, Nat.shiftRight_eq_div_pow]

theorem Short_WriteTo_eq (v : Int) (w : Writer) :
    Short.WriteTo v w = ⟨w ++ [UInt8.ofNat (uint16 v >>> 8), UInt8.ofNat (uint16 v)], 2, none⟩ :=
  rfl

theorem UnsignedShort_WriteTo_eq (v : Int) (w : Writer) :
    UnsignedShort.WriteTo v w =
      ⟨w ++ [UInt8.ofNat (uint16 v >>> 8), UInt8.ofNat (uint16 v)], 2, none⟩ :=
  rfl

theorem Int_WriteTo_eq (v : Int) (w : Writer) :
    Int.WriteTo v w =
      ⟨w ++ [UInt8.ofNat (uint32 v >>> 24), UInt8.ofNat (uint32 v >>> 16),
        UInt8.ofNat (uint32 v >>> 8), UInt8.ofNat (uint32 v)], 4, none⟩ :=
  rfl

theorem Long_WriteTo_eq (v : Int) (w : Writer) :
    Long.WriteTo v w =
      ⟨w ++ [UInt8.ofNat (uint64 v >>> 56), UInt8.ofNat (uint64 v >>> 48),
        UInt8.ofNat (uint64 v >>> 40), UInt8.ofNat (uint64 v >>> 32),
        UInt8.ofNat (uint64 v >>> 24), UInt8.ofNat (uint64 v >>> 16),
        UInt8.ofNat (uint64 v >>> 8), UInt8.ofNat (uint64 v)], 8, none⟩ :=
  rfl

theorem uint16_lt (v : Int) : uint16 v < 2 ^ 16 := by
  unfold uint16; omega

theorem Short_ReadFrom_WriteTo (old v : Int) (h1 : -2 ^ 15 ≤ v) (h2 : v < 2 ^ 15)
    (s : Reader) :
    Short.ReadFrom old ((Short.WriteTo v []).w ++ s) = ⟨v, 2, none, s⟩ := by
  rw [Short_WriteTo_eq]
  simp only [List.nil_append, List.cons_append]
  rw [Short_ReadFrom_bytes]
  have hn := uint16_lt v
  have e : int16 ((256 * (UInt8.ofNat (uint16 v >>> 8)).toNat +
      (UInt8.ofNat (uint16 v)).toNat : Nat) : Int) = v := by
    rw [ofNat_toNat_mod, ofNat_toNat_mod, Nat.shiftRight_eq_div_pow]
    have e1 : 256 * (uint16 v / 2 ^ 8 % 256) + uint16 v % 256 = uint16 v := by omega
    rw [e1]
    unfold uint16 int16; omega
  rw [e]

theorem UnsignedShort_ReadFrom_WriteTo (old v : Int) (h1 : 0 ≤ v) (h2 : v < 2 ^ 16)
    (s : Reader) :
    UnsignedShort.ReadFrom old ((UnsignedShort.WriteTo v []).w ++ s) = ⟨v, 2, none, s⟩ := by
  rw [UnsignedShort_WriteTo_eq]
  simp only [List.nil_append, List.cons_append]
  rw [UnsignedShort_ReadFrom_bytes]
  have hn := uint16_lt v
  have e : ((256 * (UInt8.ofNat (uint16 v >>> 8)).toNat +
      (UInt8.ofNat (uint16 v)).toNat : Nat) : Int) = v := by
    rw [ofNat_toNat_mod, ofNat_toNat_mod, Nat.shiftRight_eq_div_pow]
    have e1 : 256 * (uint16 v / 2 ^ 8 % 256) + uint16 v % 256 = uint16 v := by omega
    rw [e1]
    unfold uint16; omega
  rw [e]

theorem Int_ReadFrom_WriteTo (old v : Int) (h1 : -2 ^ 31 ≤ v) (h2 : v < 2 ^ 31) (s : Reader) :
    Int.ReadFrom old ((Int.WriteTo v []).w ++ s) = ⟨v, 4, none, s⟩ := by
  rw [Int_WriteTo_eq]
  simp only [List.nil_append, List.cons_append]
  rw [Int_ReadFrom_bytes]
  have hn := uint32_lt v
  have e : int32 (((UInt8.ofNat (uint32 v >>> 24)).toNat * 2 ^ 24 +
      (UInt8.ofNat (uint32 v >>> 16)).toNat * 2 ^ 16 +
      (UInt8.ofNat (uint32 v >>> 8)).toNat * 2 ^ 8 + (UInt8.ofNat (uint32 v)).toNat : Nat) : Int)
      = v := by
    rw [ofNat_toNat_mod, ofNat_toNat_mod, ofNat_toNat_mod, ofNat_toNat_mod,
      Nat.shiftRight_eq_div_pow, Nat.shiftRight_eq_div_pow, Nat.shiftRight_eq_div_pow]
    have e1 : uint32 v / 2 ^ 24 % 256 * 2 ^ 24 + uint32 v / 2 ^ 16 % 256 * 2 ^ 16 +
        uint32 v / 2 ^ 8 % 256 * 2 ^ 8 + uint32 v % 256 = uint32 v := by omega
    rw [e1]
    exact int32_uint32 v h1 h2
  rw [e]

theorem Long_ReadFrom_WriteTo (old v : Int) (h1 : -2 ^ 63 ≤ v) (h2 : v < 2 ^ 63) (s : Reader) :
    Long.ReadFrom old ((Long.WriteTo v []).w ++ s) = ⟨v, 8, none, s⟩ := by
  rw [Long_WriteTo_eq]
  simp only [List.nil_append]
  rw [Long.ReadFrom_bytes old (uint64 v) (uint64_lt v) s, int64_uint64 v h1 h2]

theorem twosComplement_16 (v : Int) : twosComplement 16 v = uint16 v := rfl

theorem twosComplement_32 (v : Int) : twosComplement 32 v = uint32 v := rfl

theorem twosComplement_64 (v : Int) : twosComplement 64 v = uint64 v := rfl

theorem uint16_toNat (v : Int) (h1 : 0 ≤ v) (h2 : v < 2 ^ 16) : uint16 v = v.toNat := by
  unfold uint16; omega

/-- C18. Fixed-width big-endian round trip: for a Short `vs`, an UnsignedShort
`vu`, an Int `vi` and a Long `vl` of the range of their type, `WriteTo` appends
exactly 2, 2, 4 and 8 bytes, the two's-complement (for UnsignedShort the
unsigned) bit pattern of the value with the most significant byte first, and
`ReadFrom` on those bytes followed by any suffix returns the value, the width
as byte count and the suffix; and `UnsignedShort.ReadFrom` on two bytes
`b0, b1` returns `256 * b0 + b1` for every pair of bytes. -/
theorem fixed_width_round_trip (vs vu vi vl old : Int) (b0 b1 : UInt8) (w : Writer) (s : Reader)
    (hs : -2 ^ 15 ≤ vs ∧ vs < 2 ^ 15) (hu : 0 ≤ vu ∧ vu < 2 ^ 16)
    (hi : -2 ^ 31 ≤ vi ∧ vi < 2 ^ 31) (hl : -2 ^ 63 ≤ vl ∧ vl < 2 ^ 63) :
    (Short.WriteTo vs w = ⟨w ++ bigEndian 2 (twosComplement 16 vs), 2, none⟩ ∧
        Short.ReadFrom old (bigEndian 2 (twosComplement 16 vs) ++ s) = ⟨vs, 2, none, s⟩) ∧
      (UnsignedShort.WriteTo vu w = ⟨w ++ bigEndian 2 vu.toNat, 2, none⟩ ∧
        UnsignedShort.ReadFrom old (bigEndian 2 vu.toNat ++ s) = ⟨vu, 2, none, s⟩) ∧
      (Int.WriteTo vi w = ⟨w ++ bigEndian 4 (twosComplement 32 vi), 4, none⟩ ∧
        Int.ReadFrom old (bigEndian 4 (twosComplement 32 vi) ++ s) = ⟨vi, 4, none, s⟩) ∧
      (Long.WriteTo vl w = ⟨w ++ bigEndian 8 (twosComplement 64 vl), 8, none⟩ ∧
        Long.ReadFrom old (bigEndian 8 (twosComplement 64 vl) ++ s) = ⟨vl, 8, none, s⟩) ∧
      UnsignedShort.ReadFrom old (b0 :: b1 :: s) =
        ⟨((256 * b0.toNat + b1.toNat : Nat) : Int), 2, none, s⟩ := by
  rw [twosComplement_16, twosComplement_32, twosComplement_64, ← uint16_toNat vu hu.1 hu.2,
    bigEndian_two, bigEndian_two, bigEndian_four, bigEndian_eight]
  refine ⟨⟨Short_WriteTo_eq vs w, ?_⟩, ⟨UnsignedShort_WriteTo_eq vu w, ?_⟩,
    ⟨Int_WriteTo_eq vi w, ?_⟩, ⟨Long_WriteTo_eq vl w, ?_⟩,
    UnsignedShort_ReadFrom_bytes old b0 b1 s⟩
  · have h := Short_ReadFrom_WriteTo old vs hs.1 hs.2 s
    rw [Short_WriteTo_eq] at h
    exact h
  · have h := UnsignedShort_ReadFrom_WriteTo old vu hu.1 hu.2 s
    rw [UnsignedShort_WriteTo_eq] at h
    exact h
  · have h := Int_ReadFrom_WriteTo old vi hi.1 hi.2 s
    rw [Int_WriteTo_eq] at h
    exact h
  · have h := Long_ReadFrom_WriteTo old vl hl.1 hl.2 s
    rw [Long_WriteTo_eq] at h
    exact h

theorem fixed_width_round_trip_witness :
    (Short.WriteTo (-2) [0x07] = ⟨[0x07, 0xFF, 0xFE], 2, none⟩ ∧
        Short.ReadFrom 5 [0xFF, 0xFE, 0x09] = ⟨-2, 2, none, [0x09]⟩) ∧
      (UnsignedShort.WriteTo 32769 [0x07] = ⟨[0x07, 0x80, 0x01], 2, none⟩ ∧
        UnsignedShort.ReadFrom 5 [0x80, 0x01, 0x09] = ⟨32769, 2, none, [0x09]⟩) ∧
      (Int.WriteTo (-2) [0x07] = ⟨[0x07, 0xFF, 0xFF, 0xFF, 0xFE], 4, none⟩ ∧
        Int.ReadFrom 5 [0xFF, 0xFF, 0xFF, 0xFE, 0x09] = ⟨-2, 4, none, [0x09]⟩) ∧
      (Long.WriteTo 258 [0x07] = ⟨[0x07, 0, 0, 0, 0, 0, 0, 0x01, 0x02], 8, none⟩ ∧
        Long.ReadFrom 5 [0, 0, 0, 0, 0, 0, 0x01, 0x02, 0x09] = ⟨258, 8, none, [0x09]⟩) ∧
      UnsignedShort.ReadFrom 5 [0x80, 0x01, 0x09] = ⟨32769, 2, none, [0x09]⟩ :=
  fixed_width_round_trip (-2) 32769 (-2) 258 5 0x80 0x01 [0x07] [0x09] (by decide) (by decide)
    (by decide) (by decide)

/-! ## Marshal -/

theorem WriteTo_append (t : Value) (w : Writer) :
    t.WriteTo w = ⟨w ++ (t.WriteTo []).w, (t.WriteTo []).n, (t.WriteTo []).err⟩ := by
  cases t with
  | String s =>
    show String.WriteTo s w = ⟨w ++ (String.WriteTo s []).w, (String.WriteTo s []).n,
      (String.WriteTo s []).err⟩
    rw [String_WriteTo_eq, String_WriteTo_eq]
    simp only []
    rw [List.nil_append]
  | ByteArray b =>
    show ByteArray.WriteTo b w = ⟨w ++ (ByteArray.WriteTo b []).w, (ByteArray.WriteTo b []).n,
      (ByteArray.WriteTo b []).err⟩
    rw [ByteArray_WriteTo_eq, ByteArray_WriteTo_eq]
    simp only []
    rw [List.nil_append]
  | EntityMetadata => simp [Value.WriteTo, notImplemented.WriteTo]
  | Slot => simp [Value.WriteTo, notImplemented.WriteTo]
  | NBTTag => simp [Value.WriteTo, notImplemented.WriteTo]
  | _ => rfl

theorem marshalLoop_ok : ∀ (types : List Value) (buffer : Writer),
    (∀ t ∈ types, (t.WriteTo []).err = none) →
    marshalLoop buffer types =
      (buffer ++ (types.map (fun t => (t.WriteTo []).w)).flatten, none) := by
  intro types
  induction types with
  | nil => intro buffer _; simp [marshalLoop]
  | cons t types ih =>
    intro buffer h
    have ht : (t.WriteTo []).err = none := h t (List.mem_cons_self _ _)
    have hb : (t.WriteTo buffer).err = none := by rw [WriteTo_append]; exact ht
    have hw : (t.WriteTo buffer).w = buffer ++ (t.WriteTo []).w := by rw [WriteTo_append]
    unfold marshalLoop
    simp only [hb]
    rw [ih _ (fun u hu => h u (List.mem_cons_of_mem _ hu)), hw]
    simp

theorem marshalLoop_fail : ∀ (pre : List Value) (buffer : Writer) (t : Value)
    (post : List Value) (e : Error),
    (∀ u ∈ pre, (u.WriteTo []).err = none) → (t.WriteTo []).err = some e →
    (marshalLoop buffer (pre ++ t :: post)).2 = some e := by
  intro pre
  induction pre with
  | nil =>
    intro buffer t post e _ ht
    have hb : (t.WriteTo buffer).err = some e := by rw [WriteTo_append]; exact ht
    simp only [List.nil_append]
    unfold marshalLoop
    simp only [hb]
  | cons u pre ih =>
    intro buffer t post e h ht
    have hu : (u.WriteTo []).err = none := h u (List.mem_cons_self _ _)
    have hb : (u.WriteTo buffer).err = none := by rw [WriteTo_append]; exact hu
    simp only [List.cons_append]
    unfold marshalLoop
    simp only [hb]
    exact ih _ t post e (fun x hx => h x (List.mem_cons_of_mem _ hx)) ht

theorem RawPacket.Marshal_ok (p : RawPacket) (types : List Value) (slack : List UInt8)
    (h : ∀ t ∈ types, (t.WriteTo []).err = none) :
    p.Marshal types slack =
      (⟨p.ID, (types.map (fun t => (t.WriteTo []).w)).flatten, slack⟩, none) := by
  unfold RawPacket.Marshal
  rw [marshalLoop_ok types [] h]
  simp

theorem RawPacket.Marshal_fail (p : RawPacket) (pre post : List Value) (t : Value) (e : Error)
    (slack : List UInt8) (h : ∀ u ∈ pre, (u.WriteTo []).err = none)
    (ht : (t.WriteTo []).err = some e) :
    p.Marshal (pre ++ t :: post) slack = (p, some e) := by
  have h2 := marshalLoop_fail pre [] t post e h ht
  unfold RawPacket.Marshal
  generalize marshalLoop [] (pre ++ t :: post) = res at h2
  obtain ⟨b, err⟩ := res
  simp only at h2
  subst h2
  rfl

/-- C19. Marshal postcondition: the outcome of `WriteTo` does not depend on the
writer it appends to; for every list `pre` of values whose `WriteTo` all
succeed, `Marshal` of `pre` returns no error, sets `p.Data` to the
concatenation of the encodings in list order and keeps `p.ID`; when `pre` is
followed by a value `t` whose `WriteTo` fails with `e` (and by any further
values), `Marshal` returns `e` and leaves the RawPacket as it was; a `Slot` is
such a value: its `WriteTo` writes nothing and fails. -/
theorem Marshal_postcondition (p : RawPacket) (pre post : List Value) (t : Value)
    (slack : List UInt8) (hpre : ∀ u ∈ pre, (u.WriteTo []).err = none) :
    (∀ (u : Value) (w : Writer),
        u.WriteTo w = ⟨w ++ (u.WriteTo []).w, (u.WriteTo []).n, (u.WriteTo []).err⟩) ∧
      p.Marshal pre slack =
        (⟨p.ID, (pre.map (fun u => (u.WriteTo []).w)).flatten, slack⟩, none) ∧
      (∀ e : Error, (t.WriteTo []).err = some e →
        p.Marshal (pre ++ t :: post) slack = (p, some e)) ∧
      (∀ w : Writer, Value.Slot.WriteTo w = ⟨w, 0, some (Error.notImplemented "proto.Slot")⟩) :=
  ⟨WriteTo_append, RawPacket.Marshal_ok p pre slack hpre,
    fun e ht => RawPacket.Marshal_fail p pre post t e slack hpre ht, fun _ => rfl⟩

theorem Marshal_postcondition_witness :
    RawPacket.Marshal ⟨7, [0x01], []⟩ [Value.Short 3, Value.String [0x41]] [] =
        (⟨7, [0x00, 0x03, 0x01, 0x41], []⟩, none) ∧
      RawPacket.Marshal ⟨7, [0x01], []⟩
          [Value.Short 3, Value.String [0x41], Value.Slot, Value.Boolean true] [] =
        (⟨7, [0x01], []⟩, some (Error.notImplemented "proto.Slot")) :=
  ⟨(Marshal_postcondition ⟨7, [0x01], []⟩ [Value.Short 3, Value.String [0x41]]
      [Value.Boolean true] Value.Slot [] (by decide)).2.1,
    (Marshal_postcondition ⟨7, [0x01], []⟩ [Value.Short 3, Value.String [0x41]]
      [Value.Boolean true] Value.Slot [] (by decide)).2.2.1 _ rfl⟩

/-! ## Unmarshal after Marshal -/

theorem Boolean_ReadFrom_WriteTo (old b : Bool) (s : Reader) :
    Boolean.ReadFrom old ((Boolean.WriteTo b []).w ++ s) = ⟨b, 1, none, s⟩ := by
  cases b <;> rfl

theorem int8_byte (v : Int) (h1 : -2 ^ 7 ≤ v) (h2 : v < 2 ^ 7) :
    int8 (((byte v).toNat : Nat) : Int) = v := by
  unfold byte
  rw [ofNat_toNat_mod]
  unfold int8
  omega

theorem toNat_byte (v : Int) (h1 : 0 ≤ v) (h2 : v < 2 ^ 8) :
    (((byte v).toNat : Nat) : Int) = v := by
  unfold byte
  rw [ofNat_toNat_mod]
  omega

theorem Byte_ReadFrom_WriteTo (old v : Int) (h1 : -2 ^ 7 ≤ v) (h2 : v < 2 ^ 7) (s : Reader) :
    Byte.ReadFrom old ((Byte.WriteTo v []).w ++ s) = ⟨v, 1, none, s⟩ := by
  show (⟨int8 (((byte v).toNat : Nat) : Int), 1, none, s⟩ : ReadResult Int) = ⟨v, 1, none, s⟩
  rw [int8_byte v h1 h2]

theorem UnsignedByte_ReadFrom_WriteTo (old v : Int) (h1 : 0 ≤ v) (h2 : v < 2 ^ 8)
    (s : Reader) :
    UnsignedByte.ReadFrom old ((UnsignedByte.WriteTo v []).w ++ s) = ⟨v, 1, none, s⟩ := by
  show (⟨(((byte v).toNat : Nat) : Int), 1, none, s⟩ : ReadResult Int) = ⟨v, 1, none, s⟩
  rw [toNat_byte v h1 h2]

theorem UUID_ReadFrom_WriteTo (old u : List UInt8) (ho : old.length = 16) (hu : u.length = 16)
    (s : Reader) :
    UUID.ReadFrom old ((UUID.WriteTo u []).w ++ s) = ⟨u, 16, none, s⟩ := by
  show UUID.ReadFrom old (([] ++ u) ++ s) = ⟨u, 16, none, s⟩
  rw [List.nil_append]
  unfold UUID.ReadFrom
  rw [ReadFull_append u s old (ho.trans hu.symm), hu]
  rfl

theorem Position_ReadFrom_WriteTo (p : Position)
    (hx : -2 ^ 25 ≤ p.X ∧ p.X ≤ 2 ^ 25 - 1) (hz : -2 ^ 25 ≤ p.Z ∧ p.Z ≤ 2 ^ 25 - 1)
    (hy : -2 ^ 11 ≤ p.Y ∧ p.Y ≤ 2 ^ 11 - 1) (old : Position) (s : Reader) :
    Position.ReadFrom old ((Position.WriteTo p []).w ++ s) = ⟨p, 8, none, s⟩ := by
  rw [Position.WriteTo_word]
  simp only [Write, List.nil_append]
  have hpos : (p.X % 2 ^ 26).toNat * 2 ^ 38 + (p.Z % 2 ^ 26).toNat * 2 ^ 12 +
      (p.Y % 2 ^ 12).toNat < 2 ^ 64 := by omega
  rw [Position.ReadFrom_word old _ hpos s]
  obtain ⟨X, Y, Z⟩ := p
  simp only at hx hy hz hpos ⊢
  have ex : (if (((X % 2 ^ 26).toNat * 2 ^ 38 + (Z % 2 ^ 26).toNat * 2 ^ 12 +
      (Y % 2 ^ 12).toNat : Nat) : Int) / 2 ^ 38 ≥ 2 ^ 25 then
        (((X % 2 ^ 26).toNat * 2 ^ 38 + (Z % 2 ^ 26).toNat * 2 ^ 12 +
          (Y % 2 ^ 12).toNat : Nat) : Int) / 2 ^ 38 - 2 ^ 26
      else (((X % 2 ^ 26).toNat * 2 ^ 38 + (Z % 2 ^ 26).toNat * 2 ^ 12 +
          (Y % 2 ^ 12).toNat : Nat) : Int) / 2 ^ 38) = X := by
    split_ifs <;> omega
  have ey : (if (((X % 2 ^ 26).toNat * 2 ^ 38 + (Z % 2 ^ 26).toNat * 2 ^ 12 +
      (Y % 2 ^ 12).toNat : Nat) : Int) % 2 ^ 12 ≥ 2 ^ 11 then
        (((X % 2 ^ 26).toNat * 2 ^ 38 + (Z % 2 ^ 26).toNat * 2 ^ 12 +
          (Y % 2 ^ 12).toNat : Nat) : Int) % 2 ^ 12 - 2 ^ 12
      else (((X % 2 ^ 26).toNat * 2 ^ 38 + (Z % 2 ^ 26).toNat * 2 ^ 12 +
          (Y % 2 ^ 12).toNat : Nat) : Int) % 2 ^ 12) = Y := by
    split_ifs <;> omega
  have ez : (if (((X % 2 ^ 26).toNat * 2 ^ 38 + (Z % 2 ^ 26).toNat * 2 ^ 12 +
      (Y % 2 ^ 12).toNat : Nat) : Int) / 2 ^ 12 % 2 ^ 26 ≥ 2 ^ 25 then
        (((X % 2 ^ 26).toNat * 2 ^ 38 + (Z % 2 ^ 26).toNat * 2 ^ 12 +
          (Y % 2 ^ 12).toNat : Nat) : Int) / 2 ^ 12 % 2 ^ 26 - 2 ^ 26
      else (((X % 2 ^ 26).toNat * 2 ^ 38 + (Z % 2 ^ 26).toNat * 2 ^ 12 +
          (Y % 2 ^ 12).toNat : Nat) : Int) / 2 ^ 12 % 2 ^ 26) = Z := by
    split_ifs <;> omega
  rw [ex, ey, ez]

theorem Position_WriteTo_n (p : Position) : (Position.WriteTo p []).n = 8 := by
  rw [Position.WriteTo_word]
  simp only [Write]
  rw [fillLoop_eight]
  rfl

theorem VarLong.WriteTo_nil_eq (v : Int) : (VarLong.WriteTo v []).w = writeLoop 64 (uint64 v) :=
  List.nil_append _

/-- Reading a slot of the kind of `v` from the encoding of `v`. -/
theorem slot_ReadFrom_WriteTo (v slot : Value) (s : Reader) (hv : v.supported)
    (hk : slot.kind = v.kind) (hs : slot.wf) :
    slot.ReadFrom ((v.WriteTo []).w ++ s) = some ⟨v, (v.WriteTo []).n, none, s⟩ := by
  cases v <;> cases slot <;> try (simp [Value.kind] at hk; done)
  all_goals try (exact False.elim hv)
  case Boolean.Boolean b old =>
    show some ((Boolean.ReadFrom old ((Boolean.WriteTo b []).w ++ s)).wrap Value.Boolean) = _
    rw [Boolean_ReadFrom_WriteTo]
    rfl
  case Byte.Byte v old =>
    have h : -2 ^ 7 ≤ v ∧ v < 2 ^ 7 := hv
    show some ((Byte.ReadFrom old ((Byte.WriteTo v []).w ++ s)).wrap Value.Byte) = _
    rw [Byte_ReadFrom_WriteTo old v h.1 h.2]
    rfl
  case UnsignedByte.UnsignedByte v old =>
    have h : 0 ≤ v ∧ v < 2 ^ 8 := hv
    show some ((UnsignedByte.ReadFrom old ((UnsignedByte.WriteTo v []).w ++ s)).wrap
      Value.UnsignedByte) = _
    rw [UnsignedByte_ReadFrom_WriteTo old v h.1 h.2]
    rfl
  case Short.Short v old =>
    have h : -2 ^ 15 ≤ v ∧ v < 2 ^ 15 := hv
    show some ((Short.ReadFrom old ((Short.WriteTo v []).w ++ s)).wrap Value.Short) = _
    rw [Short_ReadFrom_WriteTo old v h.1 h.2]
    rfl
  case UnsignedShort.UnsignedShort v old =>
    have h : 0 ≤ v ∧ v < 2 ^ 16 := hv
    show some ((UnsignedShort.ReadFrom old ((UnsignedShort.WriteTo v []).w ++ s)).wrap
      Value.UnsignedShort) = _
    rw [UnsignedShort_ReadFrom_WriteTo old v h.1 h.2]
    rfl
  case Int.Int v old =>
    have h : -2 ^ 31 ≤ v ∧ v < 2 ^ 31 := hv
    show some ((Int.ReadFrom old ((Int.WriteTo v []).w ++ s)).wrap Value.Int) = _
    rw [Int_ReadFrom_WriteTo old v h.1 h.2]
    rfl
  case Long.Long v old =>
    have h : -2 ^ 63 ≤ v ∧ v < 2 ^ 63 := hv
    show some ((Long.ReadFrom old ((Long.WriteTo v []).w ++ s)).wrap Value.Long) = _
    rw [Long_ReadFrom_WriteTo old v h.1 h.2]
    rfl
  case String.String v old =>
    have h : ((v.length : Nat) : ℤ) ≤ 2 ^ 31 - 1 := hv
    show (String.ReadFrom old ((String.WriteTo v []).w ++ s)).map (ReadResult.wrap Value.String)
      = some ⟨Value.String v, (String.WriteTo v []).n, none, s⟩
    rw [String_ReadFrom_WriteTo old v s h]
    rfl
  case VarInt.VarInt v old =>
    have h : -2 ^ 31 ≤ v ∧ v < 2 ^ 31 := hv
    show some ((VarInt.ReadFrom old ((VarInt.WriteTo v []).w ++ s)).wrap Value.VarInt) = _
    rw [VarInt.ReadFrom_value old v s h]
    rfl
  case VarLong.VarLong v old =>
    have h : -2 ^ 63 ≤ v ∧ v < 2 ^ 63 := hv
    show some ((VarLong.ReadFrom old ((VarLong.WriteTo v []).w ++ s)).wrap Value.VarLong) = _
    rw [VarLong.WriteTo_nil_eq, VarLong.decode_writeLoop old v h.1 h.2 s]
    rfl
  case Position.Position v old =>
    have h : (-2 ^ 25 ≤ v.X ∧ v.X ≤ 2 ^ 25 - 1) ∧ (-2 ^ 25 ≤ v.Z ∧ v.Z ≤ 2 ^ 25 - 1) ∧
      (-2 ^ 11 ≤ v.Y ∧ v.Y ≤ 2 ^ 11 - 1) := hv
    show some ((Position.ReadFrom old ((Position.WriteTo v []).w ++ s)).wrap Value.Position) =
      some ⟨Value.Position v, (Position.WriteTo v []).n, none, s⟩
    rw [Position_ReadFrom_WriteTo v h.1 h.2.1 h.2.2 old s, Position_WriteTo_n]
    rfl
  case Angle.Angle v old =>
    have h : -2 ^ 7 ≤ v ∧ v < 2 ^ 7 := hv
    show some ((Byte.ReadFrom old ((Byte.WriteTo v []).w ++ s)).wrap Value.Angle) = _
    rw [Byte_ReadFrom_WriteTo old v h.1 h.2]
    rfl
  case UUID.UUID v old =>
    have h : v.length = 16 := hv
    have ho : old.length = 16 := hs
    show some ((UUID.ReadFrom old ((UUID.WriteTo v []).w ++ s)).wrap Value.UUID) =
      some ⟨Value.UUID v, (UUID.WriteTo v []).n, none, s⟩
    rw [UUID_ReadFrom_WriteTo old v ho h s]
    show some (⟨Value.UUID v, 16, none, s⟩ : ReadResult Value) =
      some ⟨Value.UUID v, ((v.length : Nat) : ℤ), none, s⟩
    rw [h]
    rfl
  case ByteArray.ByteArray v old =>
    have h : ((v.length : Nat) : ℤ) ≤ 2 ^ 31 - 1 := hv
    show some ((ByteArray.ReadFrom old ((ByteArray.WriteTo v []).w ++ s)).wrap Value.ByteArray)
      = some ⟨Value.ByteArray v, (ByteArray.WriteTo v []).n, none, s⟩
    rw [ByteArray_ReadFrom_WriteTo old v s h]
    rfl

theorem supported_WriteTo_err (v : Value) (hv : v.supported) : (v.WriteTo []).err = none := by
  cases v
  all_goals try (exact False.elim hv)
  all_goals rfl

theorem unmarshalLoop_marshalled : ∀ (vals slots : List Value) (s : Reader),
    (∀ v ∈ vals, v.supported) → slots.map Value.kind = vals.map Value.kind →
    (∀ t ∈ slots, t.wf) →
    unmarshalLoop ((vals.map (fun t => (t.WriteTo []).w)).flatten ++ s) slots =
      some ⟨vals, none⟩ := by
  intro vals
  induction vals with
  | nil =>
    intro slots s _ hk _
    cases slots with
    | nil => rfl
    | cons t ts => simp at hk
  | cons v vals ih =>
    intro slots s hv hk hs
    cases slots with
    | nil => simp at hk
    | cons t ts =>
      simp only [List.map_cons, List.cons.injEq] at hk
      rw [List.map_cons, List.flatten_cons, List.append_assoc]
      unfold unmarshalLoop
      rw [slot_ReadFrom_WriteTo v t _ (hv v (List.mem_cons_self _ _)) hk.1
        (hs t (List.mem_cons_self _ _))]
      simp only []
      rw [ih ts s (fun x hx => hv x (List.mem_cons_of_mem _ hx)) hk.2
        (fun x hx => hs x (List.mem_cons_of_mem _ hx))]

theorem String_ReadFrom_negative (old : List UInt8) (reader rest : Reader) (l k : Int)
    (h1 : VarInt.ReadFrom 0 reader = ⟨l, k, none, rest⟩) (hl : l < 0) :
    String.ReadFrom old reader = none := by
  unfold String.ReadFrom
  rw [h1]
  simp only []
  rw [if_pos hl]

theorem RawPacket.Unmarshal_wrapped_String (p : RawPacket) (s old slack : List UInt8)
    (hl : int32 (s.length : Int) < 0) :
    (p.Marshal [Value.String s] slack).2 = none ∧
      (p.Marshal [Value.String s] slack).1.Unmarshal [Value.String old] = none := by
  have hok : ∀ t ∈ [Value.String s], (t.WriteTo []).err = none := by
    intro t ht
    rw [List.mem_singleton] at ht
    subst ht
    show (String.WriteTo s []).err = none
    rw [String_WriteTo_eq]
  rw [RawPacket.Marshal_ok p _ slack hok]
  refine ⟨rfl, ?_⟩
  have hd : ([Value.String s].map (fun t => (t.WriteTo []).w)).flatten =
      writeLoop 32 (uint32 (s.length : Int)) ++ s := by
    show ([(String.WriteTo s []).w]).flatten = _
    rw [String_WriteTo_eq]
    simp only [List.flatten_cons, List.flatten_nil, List.append_nil]
    rw [List.nil_append]
  rw [hd]
  have h1 := VarInt.ReadFrom_int32 0 (s.length : Int) s
  have h2 := String_ReadFrom_negative old _ _ _ _ h1 hl
  unfold RawPacket.Unmarshal unmarshalLoop
  show (match (String.ReadFrom old (writeLoop 32 (uint32 (s.length : Int)) ++ s)).map
      (ReadResult.wrap Value.String) with
    | none => none
    | some res => _) = none
  rw [h2]
  rfl

theorem hugeString_length : hugeString.length = 2147483648 :=
  List.length_replicate _ _

/-- C20, as first stated, fails without a bound on the size: a String of `2^31`
bytes is marshalled without error, with the length prefix wrapped to `-2^31`,
and `Unmarshal` of that RawPacket into a String slot does not return. -/
theorem Unmarshal_Marshal_counterexample :
    (Value.String hugeString).kind = Kind.String ∧
      (RawPacket.Marshal ⟨0, [], []⟩ [Value.String hugeString] []).2 = none ∧
      RawPacket.Unmarshal (RawPacket.Marshal ⟨0, [], []⟩ [Value.String hugeString] []).1
        [Value.String []] = none :=
  ⟨rfl, RawPacket.Unmarshal_wrapped_String ⟨0, [], []⟩ hugeString [] []
    (by rw [hugeString_length]; decide)⟩

/-- C20. Unmarshal undoes Marshal: for every list of values of the supported
kinds (Boolean, Byte, UnsignedByte, Short, UnsignedShort, Int, Long, VarInt,
VarLong, UUID and Angle values of their Go type, Position within its bit
widths, and String and ByteArray values whose byte length fits a non-negative
VarInt), `Marshal` of the list succeeds and keeps the id, and `Unmarshal` of
that RawPacket into slots of the same kinds in the same order returns no error
and leaves in every slot the corresponding original value, whatever the slots
held before. -/
theorem Unmarshal_Marshal (p : RawPacket) (vals slots : List Value) (slack : List UInt8)
    (hv : ∀ v ∈ vals, v.supported) (hk : slots.map Value.kind = vals.map Value.kind)
    (hs : ∀ t ∈ slots, t.wf) :
    (p.Marshal vals slack).2 = none ∧ (p.Marshal vals slack).1.ID = p.ID ∧
      (p.Marshal vals slack).1.Unmarshal slots = some ⟨vals, none⟩ := by
  rw [RawPacket.Marshal_ok p vals slack (fun v h => supported_WriteTo_err v (hv v h))]
  refine ⟨rfl, rfl, ?_⟩
  have h := unmarshalLoop_marshalled vals slots [] hv hk hs
  rw [List.append_nil] at h
  exact h

theorem Unmarshal_Marshal_witness :
    RawPacket.Unmarshal
        (RawPacket.Marshal ⟨7, [0x01], []⟩
          [Value.Boolean true, Value.Short (-2), Value.UnsignedShort 32769, Value.VarInt (-1),
            Value.String [0x68, 0x69], Value.ByteArray [], Value.Position ⟨-33554432, 2047, 5⟩,
            Value.Angle (-128), Value.Long 258] []).1
        [Value.Boolean false, Value.Short 0, Value.UnsignedShort 0, Value.VarInt 0,
          Value.String [0x41], Value.ByteArray [0x01], Value.Position ⟨0, 0, 0⟩, Value.Angle 0,
          Value.Long 0] =
      some ⟨[Value.Boolean true, Value.Short (-2), Value.UnsignedShort 32769, Value.VarInt (-1),
        Value.String [0x68, 0x69], Value.ByteArray [], Value.Position ⟨-33554432, 2047, 5⟩,
        Value.Angle (-128), Value.Long 258], none⟩ :=
  (Unmarshal_Marshal ⟨7, [0x01], []⟩
    [Value.Boolean true, Value.Short (-2), Value.UnsignedShort 32769, Value.VarInt (-1),
      Value.String [0x68, 0x69], Value.ByteArray [], Value.Position ⟨-33554432, 2047, 5⟩,
      Value.Angle (-128), Value.Long 258]
    [Value.Boolean false, Value.Short 0, Value.UnsignedShort 0, Value.VarInt 0,
      Value.String [0x41], Value.ByteArray [0x01], Value.Position ⟨0, 0, 0⟩, Value.Angle 0,
      Value.Long 0] [] (by decide) (by decide) (by decide)).2.2

/-! ## Unmarshal: the bytes that a read takes -/

theorem prefix_append_cases (a b : List UInt8) :
    ∀ t : List UInt8, t <+: a ++ b → t ≠ a ++ b →
      (t <+: a ∧ t ≠ a) ∨ ∃ t2, t = a ++ t2 ∧ t2 <+: b ∧ t2 ≠ b := by
  induction a with
  | nil =>
    intro t h1 h2
    exact Or.inr ⟨t, rfl, h1, h2⟩
  | cons x a ih =>
    intro t h1 h2
    cases t with
    | nil => exact Or.inl ⟨List.nil_prefix, by simp⟩
    | cons y t =>
      rw [List.cons_append, List.cons_prefix_cons] at h1
      obtain ⟨hxy, h1⟩ := h1
      subst hxy
      have h3 : t ≠ a ++ b := fun h => h2 (by rw [h]; rfl)
      rcases ih t h1 h3 with ⟨h4, h5⟩ | ⟨t2, h4, h5, h6⟩
      · refine Or.inl ⟨?_, fun h => h5 (List.cons.inj h).2⟩
        rw [List.cons_prefix_cons]
        exact ⟨rfl, h4⟩
      · exact Or.inr ⟨t2, by rw [h4]; rfl, h5, h6⟩

theorem prefix_length_lt (t a : List UInt8) (h1 : t <+: a) (h2 : t ≠ a) : t.length < a.length := by
  rcases Nat.lt_or_ge t.length a.length with h | h
  · exact h
  · exact absurd (List.IsPrefix.eq_of_length_le h1 h) h2

theorem VarInt_readLoop_split (v : Int) :
    ∀ (r : Reader) (vi n : Nat), (VarInt.readLoop v vi n r).err = none →
      ∃ taken : List UInt8, r = taken ++ (VarInt.readLoop v vi n r).rest ∧
        (∀ s, VarInt.readLoop v vi n (taken ++ s) =
          ⟨(VarInt.readLoop v vi n r).val, (VarInt.readLoop v vi n r).n, none, s⟩) ∧
        (∀ t, t <+: taken → t ≠ taken → (VarInt.readLoop v vi n t).err = some Error.EOF) := by
  intro r
  induction r with
  | nil =>
    intro vi n h
    exfalso
    simp only [VarInt.readLoop] at h
    split at h <;> simp at h
  | cons sec r ih =>
    intro vi n h
    by_cases h5 : n > MaxVarIntLen
    · exfalso
      simp only [VarInt.readLoop, h5, if_true] at h
      simp at h
    · have hnil : (VarInt.readLoop v vi n []).err = some Error.EOF := by
        simp only [VarInt.readLoop, h5, if_false]
      rw [VarInt.loop32_cons v vi n sec r h5] at h ⊢
      by_cases hc : sec.toNat &&& 0x80 ≠ 0
      · rw [if_pos hc] at h ⊢
        obtain ⟨taken, e1, e2, e3⟩ := ih _ _ h
        refine ⟨sec :: taken, ?_, ?_, ?_⟩
        · rw [List.cons_append]; exact congrArg _ e1
        · intro s
          rw [List.cons_append, VarInt.loop32_cons v vi n sec _ h5, if_pos hc]
          exact e2 s
        · intro t ht hne
          cases t with
          | nil => exact hnil
          | cons y t =>
            rw [List.cons_prefix_cons] at ht
            obtain ⟨hy, ht⟩ := ht
            subst hy
            rw [VarInt.loop32_cons v vi n y _ h5, if_pos hc]
            exact e3 t ht (fun hh => hne (by rw [hh]))
      · rw [if_neg hc]
        refine ⟨[sec], rfl, ?_, ?_⟩
        · intro s
          rw [List.singleton_append, VarInt.loop32_cons v vi n sec _ h5, if_neg hc]
        · intro t ht hne
          cases t with
          | nil => exact hnil
          | cons y t =>
            exfalso
            rw [List.cons_prefix_cons] at ht
            obtain ⟨hy, ht⟩ := ht
            subst hy
            exact hne (by rw [List.prefix_nil.mp ht])

theorem VarLong_readLoop_split (v : Int) :
    ∀ (r : Reader) (V n : Nat), (VarLong.readLoop v V n r).err = none →
      ∃ taken : List UInt8, r = taken ++ (VarLong.readLoop v V n r).rest ∧
        (∀ s, VarLong.readLoop v V n (taken ++ s) =
          ⟨(VarLong.readLoop v V n r).val, (VarLong.readLoop v V n r).n, none, s⟩) ∧
        (∀ t, t <+: taken → t ≠ taken → (VarLong.readLoop v V n t).err = some Error.EOF) := by
  intro r
  induction r with
  | nil =>
    intro V n h
    exfalso
    simp only [VarLong.readLoop] at h
    split at h <;> simp at h
  | cons sec r ih =>
    intro V n h
    by_cases h5 : n ≥ MaxVarLongLen
    · exfalso
      simp only [VarLong.readLoop, h5, if_true] at h
      simp at h
    · have hnil : (VarLong.readLoop v V n []).err = some Error.EOF := by
        simp only [VarLong.readLoop, h5, if_false]
      rw [VarLong.readLoop_cons v V n sec r h5] at h ⊢
      by_cases hc : sec.toNat &&& 0x80 ≠ 0
      · rw [if_pos hc] at h ⊢
        obtain ⟨taken, e1, e2, e3⟩ := ih _ _ h
        refine ⟨sec :: taken, ?_, ?_, ?_⟩
        · rw [List.cons_append]; exact congrArg _ e1
        · intro s
          rw [List.cons_append, VarLong.readLoop_cons v V n sec _ h5, if_pos hc]
          exact e2 s
        · intro t ht hne
          cases t with
          | nil => exact hnil
          | cons y t =>
            rw [List.cons_prefix_cons] at ht
            obtain ⟨hy, ht⟩ := ht
            subst hy
            rw [VarLong.readLoop_cons v V n y _ h5, if_pos hc]
            exact e3 t ht (fun hh => hne (by rw [hh]))
      · rw [if_neg hc]
        refine ⟨[sec], rfl, ?_, ?_⟩
        · intro s
          rw [List.singleton_append, VarLong.readLoop_cons v V n sec _ h5, if_neg hc]
        · intro t ht hne
          cases t with
          | nil => exact hnil
          | cons y t =>
            exfalso
            rw [List.cons_prefix_cons] at ht
            obtain ⟨hy, ht⟩ := ht
            subst hy
            exact hne (by rw [List.prefix_nil.mp ht])

theorem ReadFull_short_err (r buf : List UInt8) (h : r.length < buf.length) :
    (ReadFull r buf).err = some Error.EOF ∨ (ReadFull r buf).err = some Error.ErrUnexpectedEOF := by
  unfold ReadFull
  rw [if_neg (by omega)]
  simp only []
  split
  · exact Or.inl rfl
  · exact Or.inr rfl

theorem ReadFull_ok_length (r buf : List UInt8) (h : (ReadFull r buf).err = none) :
    buf.length ≤ r.length := by
  rcases Nat.lt_or_ge r.length buf.length with hlt | hge
  · rcases ReadFull_short_err r buf hlt with e | e <;> rw [e] at h <;> simp at h
  · exact hge

/-- A read that takes a fixed number `k` of bytes: it fails with a read error
on a shorter reader, and on a longer one its outcome is the one on the first
`k` bytes. -/
theorem fixed_width_split {α : Type} (f : Reader → ReadResult α) (k : Nat)
    (hshort : ∀ r, r.length < k →
      (f r).err = some Error.EOF ∨ (f r).err = some Error.ErrUnexpectedEOF)
    (hok : ∀ r s, r.length = k → f (r ++ s) = ⟨(f r).val, (f r).n, none, s⟩)
    (r : Reader) (h : (f r).err = none) :
    ∃ taken : List UInt8, r = taken ++ (f r).rest ∧
      (∀ s, f (taken ++ s) = ⟨(f r).val, (f r).n, none, s⟩) ∧
      (∀ t, t <+: taken → t ≠ taken →
        (f t).err = some Error.EOF ∨ (f t).err = some Error.ErrUnexpectedEOF) := by
  have hk : k ≤ r.length := by
    rcases Nat.lt_or_ge r.length k with hlt | hge
    · rcases hshort r hlt with e | e <;> rw [e] at h <;> simp at h
    · exact hge
  have hlen : (r.take k).length = k := by rw [List.length_take]; omega
  have hr : f r = ⟨(f (r.take k)).val, (f (r.take k)).n, none, r.drop k⟩ := by
    have := hok (r.take k) (r.drop k) hlen
    rw [List.take_append_drop] at this
    exact this
  refine ⟨r.take k, ?_, ?_, ?_⟩
  · rw [hr, List.take_append_drop]
  · intro s
    rw [hok (r.take k) s hlen, hr]
  · intro t ht hne
    exact hshort t (by have := prefix_length_lt t _ ht hne; omega)

theorem wrap_split {α : Type} (f : Reader → ReadResult α) (c : α → Value) (r : Reader)
    (res : ReadResult Value) (h : some ((f r).wrap c) = some res) (hok : res.err = none)
    (hf : (f r).err = none →
      ∃ taken : List UInt8, r = taken ++ (f r).rest ∧
        (∀ s, f (taken ++ s) = ⟨(f r).val, (f r).n, none, s⟩) ∧
        (∀ t, t <+: taken → t ≠ taken →
          (f t).err = some Error.EOF ∨ (f t).err = some Error.ErrUnexpectedEOF)) :
    ∃ taken : List UInt8, r = taken ++ res.rest ∧
      (∀ s, some ((f (taken ++ s)).wrap c) = some ⟨res.val, res.n, none, s⟩) ∧
      (∀ t, t <+: taken → t ≠ taken →
        ∃ res', some ((f t).wrap c) = some res' ∧
          (res'.err = some Error.EOF ∨ res'.err = some Error.ErrUnexpectedEOF)) := by
  have hres : res = (f r).wrap c := (Option.some.inj h).symm
  subst hres
  obtain ⟨taken, e1, e2, e3⟩ := hf hok
  refine ⟨taken, e1, ?_, ?_⟩
  · intro s
    rw [e2 s]
    rfl
  · intro t ht hne
    exact ⟨_, rfl, e3 t ht hne⟩

theorem Boolean_short (b : Bool) (r : Reader) (h : r.length < 1) :
    (Boolean.ReadFrom b r).err = some Error.EOF ∨
      (Boolean.ReadFrom b r).err = some Error.ErrUnexpectedEOF := by
  cases r with
  | nil => exact Or.inl rfl
  | cons x r => simp at h

theorem Boolean_exact (b : Bool) (r s : Reader) (h : r.length = 1) :
    Boolean.ReadFrom b (r ++ s) =
      ⟨(Boolean.ReadFrom b r).val, (Boolean.ReadFrom b r).n, none, s⟩ := by
  cases r with
  | nil => simp at h
  | cons x r =>
    cases r with
    | nil => rfl
    | cons y r => simp at h

theorem Byte_short (b : Int) (r : Reader) (h : r.length < 1) :
    (Byte.ReadFrom b r).err = some Error.EOF ∨
      (Byte.ReadFrom b r).err = some Error.ErrUnexpectedEOF := by
  cases r with
  | nil => exact Or.inl rfl
  | cons x r => simp at h

theorem Byte_exact (b : Int) (r s : Reader) (h : r.length = 1) :
    Byte.ReadFrom b (r ++ s) = ⟨(Byte.ReadFrom b r).val, (Byte.ReadFrom b r).n, none, s⟩ := by
  cases r with
  | nil => simp at h
  | cons x r =>
    cases r with
    | nil => rfl
    | cons y r => simp at h

theorem UnsignedByte_short (b : Int) (r : Reader) (h : r.length < 1) :
    (UnsignedByte.ReadFrom b r).err = some Error.EOF ∨
      (UnsignedByte.ReadFrom b r).err = some Error.ErrUnexpectedEOF := by
  cases r with
  | nil => exact Or.inl rfl
  | cons x r => simp at h

theorem UnsignedByte_exact (b : Int) (r s : Reader) (h : r.length = 1) :
    UnsignedByte.ReadFrom b (r ++ s) =
      ⟨(UnsignedByte.ReadFrom b r).val, (UnsignedByte.ReadFrom b r).n, none, s⟩ := by
  cases r with
  | nil => simp at h
  | cons x r =>
    cases r with
    | nil => rfl
    | cons y r => simp at h

theorem Short_short (v : Int) (r : Reader) (h : r.length < 2) :
    (Short.ReadFrom v r).err = some Error.EOF ∨
      (Short.ReadFrom v r).err = some Error.ErrUnexpectedEOF := by
  unfold Short.ReadFrom
  rcases ReadFull_short_err r (List.replicate 2 0) (by simpa using h) with e | e <;>
    simp only [e] <;> simp

theorem Short_exact (v : Int) (r s : Reader) (h : r.length = 2) :
    Short.ReadFrom v (r ++ s) = ⟨(Short.ReadFrom v r).val, (Short.ReadFrom v r).n, none, s⟩ := by
  unfold Short.ReadFrom
  rw [ReadFull_append r s _ (by simp [h]), ReadFull_exact r _ (by simp [h])]

theorem UnsignedShort_short (v : Int) (r : Reader) (h : r.length < 2) :
    (UnsignedShort.ReadFrom v r).err = some Error.EOF ∨
      (UnsignedShort.ReadFrom v r).err = some Error.ErrUnexpectedEOF := by
  unfold UnsignedShort.ReadFrom
  rcases ReadFull_short_err r (List.replicate 2 0) (by simpa using h) with e | e <;>
    simp only [e] <;> simp

theorem UnsignedShort_exact (v : Int) (r s : Reader) (h : r.length = 2) :
    UnsignedShort.ReadFrom v (r ++ s) =
      ⟨(UnsignedShort.ReadFrom v r).val, (UnsignedShort.ReadFrom v r).n, none, s⟩ := by
  unfold UnsignedShort.ReadFrom
  rw [ReadFull_append r s _ (by simp [h]), ReadFull_exact r _ (by simp [h])]

theorem Int_short (v : Int) (r : Reader) (h : r.length < 4) :
    (Int.ReadFrom v r).err = some Error.EOF ∨
      (Int.ReadFrom v r).err = some Error.ErrUnexpectedEOF := by
  unfold Int.ReadFrom
  rcases ReadFull_short_err r (List.replicate 4 0) (by simpa using h) with e | e <;>
    simp only [e] <;> simp

theorem Int_exact (v : Int) (r s : Reader) (h : r.length = 4) :
    Int.ReadFrom v (r ++ s) = ⟨(Int.ReadFrom v r).val, (Int.ReadFrom v r).n, none, s⟩ := by
  unfold Int.ReadFrom
  rw [ReadFull_append r s _ (by simp [h]), ReadFull_exact r _ (by simp [h])]

theorem Long_short (v : Int) (r : Reader) (h : r.length < 8) :
    (Long.ReadFrom v r).err = some Error.EOF ∨
      (Long.ReadFrom v r).err = some Error.ErrUnexpectedEOF := by
  unfold Long.ReadFrom
  rcases ReadFull_short_err r (List.replicate 8 0) (by simpa using h) with e | e <;>
    simp only [e] <;> simp

theorem Long_exact (v : Int) (r s : Reader) (h : r.length = 8) :
    Long.ReadFrom v (r ++ s) = ⟨(Long.ReadFrom v r).val, (Long.ReadFrom v r).n, none, s⟩ := by
  unfold Long.ReadFrom
  rw [ReadFull_append r s _ (by simp [h]), ReadFull_exact r _ (by simp [h])]

theorem UUID_short (u : List UInt8) (r : Reader) (h : r.length < u.length) :
    (UUID.ReadFrom u r).err = some Error.EOF ∨
      (UUID.ReadFrom u r).err = some Error.ErrUnexpectedEOF :=
  ReadFull_short_err r u h

theorem UUID_exact (u : List UInt8) (r s : Reader) (h : r.length = u.length) :
    UUID.ReadFrom u (r ++ s) = ⟨(UUID.ReadFrom u r).val, (UUID.ReadFrom u r).n, none, s⟩ := by
  unfold UUID.ReadFrom
  rw [ReadFull_append r s _ h.symm, ReadFull_exact r _ h.symm]

theorem Float_short (v : Nat) (r : Reader) (h : r.length < 4) :
    (Float.ReadFrom v r).err = some Error.EOF ∨
      (Float.ReadFrom v r).err = some Error.ErrUnexpectedEOF := by
  unfold Float.ReadFrom
  rcases Int_short 0 r h with e | e <;> simp only [e] <;> simp

theorem Float_exact (v : Nat) (r s : Reader) (h : r.length = 4) :
    Float.ReadFrom v (r ++ s) = ⟨(Float.ReadFrom v r).val, (Float.ReadFrom v r).n, none, s⟩ := by
  have h1 := Int_exact 0 r s h
  have h2 := Int_exact 0 r [] h
  rw [List.append_nil] at h2
  unfold Float.ReadFrom
  rw [h1]
  simp only []
  rw [h2]

theorem Double_short (v : Nat) (r : Reader) (h : r.length < 8) :
    (Double.ReadFrom v r).err = some Error.EOF ∨
      (Double.ReadFrom v r).err = some Error.ErrUnexpectedEOF := by
  unfold Double.ReadFrom
  rcases Long_short 0 r h with e | e <;> simp only [e] <;> simp

theorem Double_exact (v : Nat) (r s : Reader) (h : r.length = 8) :
    Double.ReadFrom v (r ++ s) =
      ⟨(Double.ReadFrom v r).val, (Double.ReadFrom v r).n, none, s⟩ := by
  have h1 := Long_exact 0 r s h
  have h2 := Long_exact 0 r [] h
  rw [List.append_nil] at h2
  unfold Double.ReadFrom
  rw [h1]
  simp only []
  rw [h2]

theorem Position_short (p : Position) (r : Reader) (h : r.length < 8) :
    (Position.ReadFrom p r).err = some Error.EOF ∨
      (Position.ReadFrom p r).err = some Error.ErrUnexpectedEOF := by
  unfold Position.ReadFrom
  rcases Long_short 0 r h with e | e <;> simp only [e] <;> simp

theorem Position_exact (p : Position) (r s : Reader) (h : r.length = 8) :
    Position.ReadFrom p (r ++ s) =
      ⟨(Position.ReadFrom p r).val, (Position.ReadFrom p r).n, none, s⟩ := by
  have h1 := Long_exact 0 r s h
  have h2 := Long_exact 0 r [] h
  rw [List.append_nil] at h2
  unfold Position.ReadFrom
  rw [h1]
  simp only []
  rw [h2]

theorem VarInt_ReadFrom_split (v : Int) (r : Reader) (h : (VarInt.ReadFrom v r).err = none) :
    ∃ taken : List UInt8, r = taken ++ (VarInt.ReadFrom v r).rest ∧
      (∀ s, VarInt.ReadFrom v (taken ++ s) =
        ⟨(VarInt.ReadFrom v r).val, (VarInt.ReadFrom v r).n, none, s⟩) ∧
      (∀ t, t <+: taken → t ≠ taken →
        (VarInt.ReadFrom v t).err = some Error.EOF ∨
          (VarInt.ReadFrom v t).err = some Error.ErrUnexpectedEOF) := by
  obtain ⟨taken, e1, e2, e3⟩ := VarInt_readLoop_split v r 0 0 h
  exact ⟨taken, e1, e2, fun t ht hne => Or.inl (e3 t ht hne)⟩

theorem VarLong_ReadFrom_split (v : Int) (r : Reader) (h : (VarLong.ReadFrom v r).err = none) :
    ∃ taken : List UInt8, r = taken ++ (VarLong.ReadFrom v r).rest ∧
      (∀ s, VarLong.ReadFrom v (taken ++ s) =
        ⟨(VarLong.ReadFrom v r).val, (VarLong.ReadFrom v r).n, none, s⟩) ∧
      (∀ t, t <+: taken → t ≠ taken →
        (VarLong.ReadFrom v t).err = some Error.EOF ∨
          (VarLong.ReadFrom v t).err = some Error.ErrUnexpectedEOF) := by
  obtain ⟨taken, e1, e2, e3⟩ := VarLong_readLoop_split v r 0 0 h
  exact ⟨taken, e1, e2, fun t ht hne => Or.inl (e3 t ht hne)⟩

theorem ReadFull_split (src buf : List UInt8) (h : (ReadFull src buf).err = none) :
    ∃ body : List UInt8, src = body ++ (ReadFull src buf).rest ∧
      (∀ s, ReadFull (body ++ s) buf =
        ⟨(ReadFull src buf).buf, (ReadFull src buf).n, none, s⟩) ∧
      (∀ t, t <+: body → t ≠ body →
        (ReadFull t buf).err = some Error.EOF ∨
          (ReadFull t buf).err = some Error.ErrUnexpectedEOF) := by
  have hk := ReadFull_ok_length src buf h
  have hlen : (src.take buf.length).length = buf.length := by rw [List.length_take]; omega
  have hr : ReadFull src buf = ⟨src.take buf.length, buf.length, none, src.drop buf.length⟩ := by
    unfold ReadFull
    rw [if_pos hk]
  refine ⟨src.take buf.length, ?_, ?_, ?_⟩
  · rw [hr, List.take_append_drop]
  · intro s
    rw [ReadFull_append _ s buf hlen.symm, hr, hlen]
  · intro t ht hne
    exact ReadFull_short_err t buf (by have := prefix_length_lt t _ ht hne; omega)

theorem CopyN_split (src : List UInt8) (n : Int) (h : (CopyN [] src n).err = none) :
    ∃ body : List UInt8, src = body ++ (CopyN [] src n).rest ∧
      (∀ s, CopyN [] (body ++ s) n =
        ⟨(CopyN [] src n).dst, (CopyN [] src n).written, none, s⟩) ∧
      (∀ t, t <+: body → t ≠ body → (CopyN [] t n).err = some Error.EOF) := by
  by_cases h0 : n ≤ 0
  · have hr : ∀ x, CopyN [] x n = ⟨[], 0, none, x⟩ := by
      intro x
      unfold CopyN
      rw [if_pos h0]
    refine ⟨[], ?_, ?_, ?_⟩
    · rw [hr]; rfl
    · intro s
      rw [hr, hr]; rfl
    · intro t ht hne
      exact absurd (List.prefix_nil.mp ht) hne
  · by_cases h1 : n.toNat ≤ src.length
    · have hlen : (src.take n.toNat).length = n.toNat := by rw [List.length_take]; omega
      have hr : CopyN [] src n = ⟨src.take n.toNat, n, none, src.drop n.toNat⟩ := by
        unfold CopyN
        rw [if_neg h0, if_pos h1, List.nil_append]
      refine ⟨src.take n.toNat, ?_, ?_, ?_⟩
      · rw [hr, List.take_append_drop]
      · intro s
        rw [CopyN_append _ s n (by rw [hlen]; omega), hr]
      · intro t ht hne
        have hlt := prefix_length_lt t _ ht hne
        unfold CopyN
        rw [if_neg h0, if_neg (by omega)]
    · exfalso
      unfold CopyN at h
      rw [if_neg h0, if_neg h1] at h
      simp at h

theorem String_ReadFrom_head_err (old : List UInt8) (r : Reader) (e : Error)
    (h : (VarInt.ReadFrom 0 r).err = some e) :
    String.ReadFrom old r =
      some ⟨old, (VarInt.ReadFrom 0 r).n, some e, (VarInt.ReadFrom 0 r).rest⟩ := by
  unfold String.ReadFrom
  simp only [h]

theorem String_ReadFrom_body_err (old : List UInt8) (r : Reader) (e : Error)
    (h : (VarInt.ReadFrom 0 r).err = none) (hl : ¬ (VarInt.ReadFrom 0 r).val < 0)
    (hf : (ReadFull (VarInt.ReadFrom 0 r).rest
      (List.replicate (VarInt.ReadFrom 0 r).val.toNat 0)).err = some e) :
    String.ReadFrom old r =
      some ⟨old, (VarInt.ReadFrom 0 r).n, some e,
        (ReadFull (VarInt.ReadFrom 0 r).rest
          (List.replicate (VarInt.ReadFrom 0 r).val.toNat 0)).rest⟩ := by
  unfold String.ReadFrom
  simp only [h]
  rw [if_neg hl]
  simp only [hf]

theorem String_ReadFrom_body_ok (old : List UInt8) (r : Reader)
    (h : (VarInt.ReadFrom 0 r).err = none) (hl : ¬ (VarInt.ReadFrom 0 r).val < 0)
    (hf : (ReadFull (VarInt.ReadFrom 0 r).rest
      (List.replicate (VarInt.ReadFrom 0 r).val.toNat 0)).err = none) :
    String.ReadFrom old r =
      some ⟨(ReadFull (VarInt.ReadFrom 0 r).rest
          (List.replicate (VarInt.ReadFrom 0 r).val.toNat 0)).buf,
        (VarInt.ReadFrom 0 r).n + (VarInt.ReadFrom 0 r).val, none,
        (ReadFull (VarInt.ReadFrom 0 r).rest
          (List.replicate (VarInt.ReadFrom 0 r).val.toNat 0)).rest⟩ := by
  unfold String.ReadFrom
  simp only [h]
  rw [if_neg hl]
  simp only [hf]

theorem String_split (old : List UInt8) (r : Reader) (res : ReadResult (List UInt8))
    (h : String.ReadFrom old r = some res) (hok : res.err = none) :
    ∃ taken : List UInt8, r = taken ++ res.rest ∧
      (∀ s, String.ReadFrom old (taken ++ s) = some ⟨res.val, res.n, none, s⟩) ∧
      (∀ t, t <+: taken → t ≠ taken →
        ∃ res', String.ReadFrom old t = some res' ∧
          (res'.err = some Error.EOF ∨ res'.err = some Error.ErrUnexpectedEOF)) := by
  cases h1 : (VarInt.ReadFrom 0 r).err with
  | some e =>
    rw [String_ReadFrom_head_err old r e h1] at h
    have := (Option.some.inj h)
    subst this
    simp at hok
  | none =>
    by_cases hl : (VarInt.ReadFrom 0 r).val < 0
    · rw [String_ReadFrom_negative old r _ _ _ (by rw [← h1]) hl] at h
      simp at h
    · cases h2 : (ReadFull (VarInt.ReadFrom 0 r).rest
          (List.replicate (VarInt.ReadFrom 0 r).val.toNat 0)).err with
      | some e =>
        rw [String_ReadFrom_body_err old r e h1 hl h2] at h
        have := (Option.some.inj h)
        subst this
        simp at hok
      | none =>
        rw [String_ReadFrom_body_ok old r h1 hl h2] at h
        have := (Option.some.inj h)
        subst this
        obtain ⟨tk, a1, a2, a3⟩ := VarInt_ReadFrom_split 0 r h1
        obtain ⟨body, b1, b2, b3⟩ := ReadFull_split _ _ h2
        have hhead : ∀ s, (VarInt.ReadFrom 0 (tk ++ s)).err = none ∧
            (VarInt.ReadFrom 0 (tk ++ s)).val = (VarInt.ReadFrom 0 r).val ∧
            (VarInt.ReadFrom 0 (tk ++ s)).n = (VarInt.ReadFrom 0 r).n ∧
            (VarInt.ReadFrom 0 (tk ++ s)).rest = s := by
          intro s
          rw [a2 s]
          exact ⟨rfl, rfl, rfl, rfl⟩
        refine ⟨tk ++ body, ?_, ?_, ?_⟩
        · rw [List.append_assoc, ← b1]
          exact a1
        · intro s
          obtain ⟨c1, c2, c3, c4⟩ := hhead (body ++ s)
          have hf : (ReadFull (VarInt.ReadFrom 0 (tk ++ (body ++ s))).rest
              (List.replicate (VarInt.ReadFrom 0 (tk ++ (body ++ s))).val.toNat 0)) =
              ⟨(ReadFull (VarInt.ReadFrom 0 r).rest
                (List.replicate (VarInt.ReadFrom 0 r).val.toNat 0)).buf,
               (ReadFull (VarInt.ReadFrom 0 r).rest
                (List.replicate (VarInt.ReadFrom 0 r).val.toNat 0)).n, none, s⟩ := by
            rw [c2, c4]
            exact b2 s
          rw [List.append_assoc,
            String_ReadFrom_body_ok old _ c1 (by rw [c2]; exact hl) (by rw [hf]), hf, c2, c3]
        · intro t ht hne
          rcases prefix_append_cases tk body t ht hne with ⟨p1, p2⟩ | ⟨t2, p1, p2, p3⟩
          · rcases a3 t p1 p2 with e | e
            · exact ⟨_, String_ReadFrom_head_err old t _ e, Or.inl rfl⟩
            · exact ⟨_, String_ReadFrom_head_err old t _ e, Or.inr rfl⟩
          · subst p1
            obtain ⟨c1, c2, c3, c4⟩ := hhead t2
            rcases b3 t2 p2 p3 with e | e
            · exact ⟨_, String_ReadFrom_body_err old _ _ c1 (by rw [c2]; exact hl)
                (by rw [c2, c4]; exact e), Or.inl rfl⟩
            · exact ⟨_, String_ReadFrom_body_err old _ _ c1 (by rw [c2]; exact hl)
                (by rw [c2, c4]; exact e), Or.inr rfl⟩

theorem ByteArray_ReadFrom_head_err (old : List UInt8) (r : Reader) (e : Error)
    (h : (VarInt.ReadFrom 0 r).err = some e) :
    ByteArray.ReadFrom old r =
      ⟨old, (VarInt.ReadFrom 0 r).n, some e, (VarInt.ReadFrom 0 r).rest⟩ := by
  unfold ByteArray.ReadFrom
  simp only [h]

theorem ByteArray_ReadFrom_body (old : List UInt8) (r : Reader)
    (h : (VarInt.ReadFrom 0 r).err = none) :
    ByteArray.ReadFrom old r =
      ⟨(CopyN [] (VarInt.ReadFrom 0 r).rest (VarInt.ReadFrom 0 r).val).dst,
        (VarInt.ReadFrom 0 r).n +
          (CopyN [] (VarInt.ReadFrom 0 r).rest (VarInt.ReadFrom 0 r).val).written,
        (CopyN [] (VarInt.ReadFrom 0 r).rest (VarInt.ReadFrom 0 r).val).err,
        (CopyN [] (VarInt.ReadFrom 0 r).rest (VarInt.ReadFrom 0 r).val).rest⟩ := by
  unfold ByteArray.ReadFrom
  simp only [h]

theorem ByteArray_split (old : List UInt8) (r : Reader)
    (h : (ByteArray.ReadFrom old r).err = none) :
    ∃ taken : List UInt8, r = taken ++ (ByteArray.ReadFrom old r).rest ∧
      (∀ s, ByteArray.ReadFrom old (taken ++ s) =
        ⟨(ByteArray.ReadFrom old r).val, (ByteArray.ReadFrom old r).n, none, s⟩) ∧
      (∀ t, t <+: taken → t ≠ taken →
        (ByteArray.ReadFrom old t).err = some Error.EOF ∨
          (ByteArray.ReadFrom old t).err = some Error.ErrUnexpectedEOF) := by
  cases h1 : (VarInt.ReadFrom 0 r).err with
  | some e =>
    rw [ByteArray_ReadFrom_head_err old r e h1] at h
    simp at h
  | none =>
    rw [ByteArray_ReadFrom_body old r h1] at h ⊢
    simp only [] at h ⊢
    obtain ⟨tk, a1, a2, a3⟩ := VarInt_ReadFrom_split 0 r h1
    obtain ⟨body, b1, b2, b3⟩ := CopyN_split _ _ h
    have hhead : ∀ s, (VarInt.ReadFrom 0 (tk ++ s)).err = none ∧
        (VarInt.ReadFrom 0 (tk ++ s)).val = (VarInt.ReadFrom 0 r).val ∧
        (VarInt.ReadFrom 0 (tk ++ s)).n = (VarInt.ReadFrom 0 r).n ∧
        (VarInt.ReadFrom 0 (tk ++ s)).rest = s := by
      intro s
      rw [a2 s]
      exact ⟨rfl, rfl, rfl, rfl⟩
    refine ⟨tk ++ body, ?_, ?_, ?_⟩
    · rw [List.append_assoc, ← b1]
      exact a1
    · intro s
      obtain ⟨c1, c2, c3, c4⟩ := hhead (body ++ s)
      rw [List.append_assoc, ByteArray_ReadFrom_body old _ c1, c2, c3, c4, b2 s]
    · intro t ht hne
      rcases prefix_append_cases tk body t ht hne with ⟨p1, p2⟩ | ⟨t2, p1, p2, p3⟩
      · rcases a3 t p1 p2 with e | e
        · rw [ByteArray_ReadFrom_head_err old t _ e]; exact Or.inl rfl
        · rw [ByteArray_ReadFrom_head_err old t _ e]; exact Or.inr rfl
      · subst p1
        obtain ⟨c1, c2, c3, c4⟩ := hhead t2
        rw [ByteArray_ReadFrom_body old _ c1, c2, c4]
        exact Or.inl (b3 t2 p2 p3)

/-- A successful read of a slot takes a prefix `taken` of the reader: the read
gives the same outcome whatever follows `taken`, and fails with a read error on
a reader that ends inside `taken`. -/
theorem slot_split (slot : Value) (r : Reader) (res : ReadResult Value)
    (h : slot.ReadFrom r = some res) (hok : res.err = none) :
    ∃ taken : List UInt8, r = taken ++ res.rest ∧
      (∀ s, slot.ReadFrom (taken ++ s) = some ⟨res.val, res.n, none, s⟩) ∧
      (∀ t, t <+: taken → t ≠ taken →
        ∃ res', slot.ReadFrom t = some res' ∧
          (res'.err = some Error.EOF ∨ res'.err = some Error.ErrUnexpectedEOF)) := by
  cases slot with
  | Boolean b =>
    exact wrap_split (Boolean.ReadFrom b) Value.Boolean r res h hok
      (fixed_width_split _ 1 (Boolean_short b) (Boolean_exact b) r)
  | Byte v =>
    exact wrap_split (Byte.ReadFrom v) Value.Byte r res h hok
      (fixed_width_split _ 1 (Byte_short v) (Byte_exact v) r)
  | UnsignedByte v =>
    exact wrap_split (UnsignedByte.ReadFrom v) Value.UnsignedByte r res h hok
      (fixed_width_split _ 1 (UnsignedByte_short v) (UnsignedByte_exact v) r)
  | Short v =>
    exact wrap_split (Short.ReadFrom v) Value.Short r res h hok
      (fixed_width_split _ 2 (Short_short v) (Short_exact v) r)
  | UnsignedShort v =>
    exact wrap_split (UnsignedShort.ReadFrom v) Value.UnsignedShort r res h hok
      (fixed_width_split _ 2 (UnsignedShort_short v) (UnsignedShort_exact v) r)
  | Int v =>
    exact wrap_split (Int.ReadFrom v) Value.Int r res h hok
      (fixed_width_split _ 4 (Int_short v) (Int_exact v) r)
  | Long v =>
    exact wrap_split (Long.ReadFrom v) Value.Long r res h hok
      (fixed_width_split _ 8 (Long_short v) (Long_exact v) r)
  | Float v =>
    exact wrap_split (Float.ReadFrom v) Value.Float r res h hok
      (fixed_width_split _ 4 (Float_short v) (Float_exact v) r)
  | Double v =>
    exact wrap_split (Double.ReadFrom v) Value.Double r res h hok
      (fixed_width_split _ 8 (Double_short v) (Double_exact v) r)
  | String old =>
    have h' : (String.ReadFrom old r).map (ReadResult.wrap Value.String) = some res := h
    cases h0 : String.ReadFrom old r with
    | none => rw [h0] at h'; simp at h'
    | some res0 =>
      rw [h0] at h'
      have hres : res = res0.wrap Value.String := (Option.some.inj h').symm
      subst hres
      obtain ⟨taken, e1, e2, e3⟩ := String_split old r res0 h0 hok
      refine ⟨taken, e1, ?_, ?_⟩
      · intro s
        show (String.ReadFrom old (taken ++ s)).map (ReadResult.wrap Value.String) = _
        rw [e2 s]
        rfl
      · intro t ht hne
        obtain ⟨res', f1, f2⟩ := e3 t ht hne
        refine ⟨res'.wrap Value.String, ?_, f2⟩
        show (String.ReadFrom old t).map (ReadResult.wrap Value.String) = _
        rw [f1]
        rfl
  | VarInt v =>
    exact wrap_split (VarInt.ReadFrom v) Value.VarInt r res h hok (VarInt_ReadFrom_split v r)
  | VarLong v =>
    exact wrap_split (VarLong.ReadFrom v) Value.VarLong r res h hok (VarLong_ReadFrom_split v r)
  | EntityMetadata =>
    have hres := (Option.some.inj h).symm
    subst hres
    exact absurd hok (by simp [notImplemented.ReadFrom])
  | Slot =>
    have hres := (Option.some.inj h).symm
    subst hres
    exact absurd hok (by simp [notImplemented.ReadFrom])
  | NBTTag =>
    have hres := (Option.some.inj h).symm
    subst hres
    exact absurd hok (by simp [notImplemented.ReadFrom])
  | Position p =>
    exact wrap_split (Position.ReadFrom p) Value.Position r res h hok
      (fixed_width_split _ 8 (Position_short p) (Position_exact p) r)
  | Angle v =>
    exact wrap_split (Byte.ReadFrom v) Value.Angle r res h hok
      (fixed_width_split _ 1 (Byte_short v) (Byte_exact v) r)
  | UUID u =>
    exact wrap_split (UUID.ReadFrom u) Value.UUID r res h hok
      (fixed_width_split _ u.length (UUID_short u) (UUID_exact u) r)
  | ByteArray b =>
    exact wrap_split (ByteArray.ReadFrom b) Value.ByteArray r res h hok (ByteArray_split b r)

theorem unmarshalLoop_cons_err (t : Value) (ts : List Value) (r : Reader)
    (res : ReadResult Value) (e : Error) (h : t.ReadFrom r = some res)
    (he : res.err = some e) :
    unmarshalLoop r (t :: ts) = some ⟨res.val :: ts, some e⟩ := by
  unfold unmarshalLoop
  rw [h]
  simp only [he]

theorem unmarshalLoop_cons_ok (t : Value) (ts : List Value) (r : Reader)
    (res : ReadResult Value) (u : UnmarshalResult) (h : t.ReadFrom r = some res)
    (he : res.err = none) (hu : unmarshalLoop res.rest ts = some u) :
    unmarshalLoop r (t :: ts) = some ⟨res.val :: u.types, u.err⟩ := by
  rw [unmarshalLoop, h]
  simp only [he]
  rw [hu]

theorem unmarshalLoop_cons_inv (t : Value) (ts : List Value) (r : Reader) (vals : List Value)
    (h : unmarshalLoop r (t :: ts) = some ⟨vals, none⟩) :
    ∃ res u, t.ReadFrom r = some res ∧ res.err = none ∧
      unmarshalLoop res.rest ts = some ⟨u, none⟩ ∧ vals = res.val :: u := by
  cases h0 : t.ReadFrom r with
  | none =>
    rw [unmarshalLoop, h0] at h
    simp at h
  | some res =>
    cases h1 : res.err with
    | some e =>
      rw [unmarshalLoop_cons_err t ts r res e h0 h1] at h
      simp at h
    | none =>
      cases h2 : unmarshalLoop res.rest ts with
      | none =>
        rw [unmarshalLoop, h0] at h
        simp only [h1] at h
        rw [h2] at h
        simp at h
      | some u =>
        rw [unmarshalLoop_cons_ok t ts r res u h0 h1 h2] at h
        have hh := Option.some.inj h
        obtain ⟨ut, ue⟩ := u
        simp only [UnmarshalResult.mk.injEq] at hh
        obtain ⟨hh1, hh2⟩ := hh
        subst hh2
        exact ⟨res, ut, rfl, h1, h2, hh1.symm⟩

theorem unmarshalLoop_split : ∀ (slots : List Value) (r : Reader) (vals : List Value),
    unmarshalLoop r slots = some ⟨vals, none⟩ →
    ∃ taken rest : List UInt8, r = taken ++ rest ∧
      (∀ s, unmarshalLoop (taken ++ s) slots = some ⟨vals, none⟩) ∧
      (∀ t, t <+: taken → t ≠ taken →
        ∃ u e, unmarshalLoop t slots = some ⟨u, some e⟩ ∧
          (e = Error.EOF ∨ e = Error.ErrUnexpectedEOF)) := by
  intro slots
  induction slots with
  | nil =>
    intro r vals h
    refine ⟨[], r, rfl, ?_, ?_⟩
    · intro s
      rw [unmarshalLoop] at h ⊢
      exact h
    · intro t ht hne
      exact absurd (List.prefix_nil.mp ht) hne
  | cons x xs ih =>
    intro r vals h
    obtain ⟨res, u, h0, h1, h2, h3⟩ := unmarshalLoop_cons_inv x xs r vals h
    subst h3
    obtain ⟨tk, a1, a2, a3⟩ := slot_split x r res h0 h1
    obtain ⟨tk2, rest, b1, b2, b3⟩ := ih res.rest u h2
    refine ⟨tk ++ tk2, rest, ?_, ?_, ?_⟩
    · rw [List.append_assoc, ← b1]
      exact a1
    · intro s
      rw [List.append_assoc]
      exact unmarshalLoop_cons_ok x xs _ ⟨res.val, res.n, none, tk2 ++ s⟩ ⟨u, none⟩
        (a2 (tk2 ++ s)) rfl (b2 s)
    · intro t ht hne
      rcases prefix_append_cases tk tk2 t ht hne with ⟨p1, p2⟩ | ⟨t2, p1, p2, p3⟩
      · obtain ⟨res', f1, f2⟩ := a3 t p1 p2
        rcases f2 with e | e
        · exact ⟨_, _, unmarshalLoop_cons_err x xs t res' _ f1 e, Or.inl rfl⟩
        · exact ⟨_, _, unmarshalLoop_cons_err x xs t res' _ f1 e, Or.inr rfl⟩
      · subst p1
        obtain ⟨u', e', g1, g2⟩ := b3 t2 p2 p3
        exact ⟨_, _, unmarshalLoop_cons_ok x xs _ ⟨res.val, res.n, none, t2⟩ ⟨u', some e'⟩
          (a2 t2) rfl g1, g2⟩

/-- C21. Unmarshal reads only a prefix: when `Unmarshal` of the payload into the
slots succeeds, it succeeds with the same values on the payload followed by any
extra bytes; and there is a number `k` of bytes, at most the length of the
payload, that the slots require: on every prefix of the payload with at least
`k` bytes `Unmarshal` succeeds with the same values, and on every prefix with
fewer than `k` bytes it returns a read error (`io.EOF` or
`io.ErrUnexpectedEOF`). -/
theorem Unmarshal_prefix_closed (p : RawPacket) (types vals : List Value)
    (h : p.Unmarshal types = some ⟨vals, none⟩) :
    (∀ extra : List UInt8,
        RawPacket.Unmarshal { p with Data := p.Data ++ extra } types = some ⟨vals, none⟩) ∧
      ∃ k : Nat, k ≤ p.Data.length ∧ ∀ q : RawPacket, q.Data <+: p.Data →
        (k ≤ q.Data.length → q.Unmarshal types = some ⟨vals, none⟩) ∧
        (q.Data.length < k → ∃ u e, q.Unmarshal types = some ⟨u, some e⟩ ∧
          (e = Error.EOF ∨ e = Error.ErrUnexpectedEOF)) := by
  obtain ⟨taken, rest, e1, e2, e3⟩ := unmarshalLoop_split types p.Data vals h
  have htk : taken <+: p.Data := ⟨rest, e1.symm⟩
  constructor
  · intro extra
    show unmarshalLoop (p.Data ++ extra) types = some ⟨vals, none⟩
    rw [e1, List.append_assoc]
    exact e2 _
  · refine ⟨taken.length, by rw [e1, List.length_append]; omega, ?_⟩
    intro q hq
    constructor
    · intro hk
      obtain ⟨s, hs⟩ := List.prefix_of_prefix_length_le htk hq hk
      show unmarshalLoop q.Data types = some ⟨vals, none⟩
      rw [← hs]
      exact e2 s
    · intro hk
      have hpre : q.Data <+: taken := List.prefix_of_prefix_length_le hq htk (by omega)
      exact e3 q.Data hpre (fun hh => by rw [hh] at hk; omega)

theorem Unmarshal_prefix_closed_witness :
    RawPacket.Unmarshal ⟨0x07, [0x00, 0x03, 0x01, 0x41, 0x09, 0x09], []⟩
        [Value.Short 0, Value.String []] =
      some ⟨[Value.Short 3, Value.String [0x41]], none⟩ :=
  (Unmarshal_prefix_closed ⟨0x07, [0x00, 0x03, 0x01, 0x41], []⟩ [Value.Short 0, Value.String []]
    [Value.Short 3, Value.String [0x41]] (by decide)).1 [0x09, 0x09]

/-! ## The packet catalogue -/

/-- C22, as first stated, fails on the error value: `Handshake.FromRaw` on a
RawPacket with id 1 returns the formatted error `invalid packet ID for
Handshake: 1`, which is not the error `WrongPacketError(0, 1)` of `errors.go`. -/
theorem FromRaw_identity_check_counterexample :
    (⟨0x01, [], []⟩ : RawPacket).ID ≠ (Packet.Handshake 0 [] 0 0).ID ∧
      (Packet.Handshake 0 [] 0 0).FromRaw ⟨0x01, [], []⟩ =
        some (Packet.Handshake 0 [] 0 0, some (Error.invalidPacketID "Handshake" 0x01)) ∧
      (Packet.Handshake 0 [] 0 0).FromRaw ⟨0x01, [], []⟩ ≠
        some (Packet.Handshake 0 [] 0 0, some (WrongPacketError Handshake_ID 0x01)) := by
  decide

/-- C22. Packet identity check: for every record of the catalogue and every
RawPacket whose id differs from the declared id of the record, `FromRaw`
returns the formatted error `invalid packet ID for <record>: <id>` with the id
of the RawPacket (not the error of `WrongPacketError`), and leaves the record
as it was, whatever the payload holds. -/
theorem FromRaw_identity_check (r : Packet) (p : RawPacket) (h : p.ID ≠ r.ID) :
    r.FromRaw p = some (r, some (Error.invalidPacketID r.name p.ID)) ∧
      ∀ expect get : Int, r.FromRaw p ≠ some (r, some (WrongPacketError expect get)) := by
  have h1 : r.FromRaw p = some (r, some (Error.invalidPacketID r.name p.ID)) := by
    cases r <;> exact if_pos h
  refine ⟨h1, ?_⟩
  intro expect get h2
  rw [h1] at h2
  simp [WrongPacketError] at h2

theorem FromRaw_identity_check_witness :
    (Packet.EncryptionRequest [0x41] 1 [0x02] 1 [0x03]).FromRaw
        ⟨0x00, [0x01, 0x42, 0x01, 0x01, 0x05, 0x01, 0x01, 0x06], []⟩ =
      some (Packet.EncryptionRequest [0x41] 1 [0x02] 1 [0x03],
        some (Error.invalidPacketID "EncryptionRequest" 0x00)) :=
  (FromRaw_identity_check (Packet.EncryptionRequest [0x41] 1 [0x02] 1 [0x03])
    ⟨0x00, [0x01, 0x42, 0x01, 0x01, 0x05, 0x01, 0x01, 0x06], []⟩ (by decide)).1

/-- C23. Handshake scenario: `ToRaw` of the Handshake with protocol version
754, server address "localhost", server port 25565 and next state 2 gives id
`0x00` and the payload `F2 05 09 6C 6F 63 61 6C 68 6F 73 74 63 DD 02`, whatever
the RawPacket held; `Pack` with threshold `-1` writes `10 00` followed by that
payload; `Unpack` with threshold `-1` of these bytes and then
`Handshake.FromRaw` give the same four field values. -/
theorem Handshake_scenario :
    (Packet.Handshake 754 [0x6C, 0x6F, 0x63, 0x61, 0x6C, 0x68, 0x6F, 0x73, 0x74] 25565 2).ToRaw
        ⟨0x09, [0x01, 0x02], []⟩ [] =
      (⟨0x00, [0xF2, 0x05, 0x09, 0x6C, 0x6F, 0x63, 0x61, 0x6C, 0x68, 0x6F, 0x73, 0x74, 0x63, 0xDD,
        0x02], []⟩, none) ∧
    RawPacket.Pack Zlib.stored
        ⟨0x00, [0xF2, 0x05, 0x09, 0x6C, 0x6F, 0x63, 0x61, 0x6C, 0x68, 0x6F, 0x73, 0x74, 0x63, 0xDD,
          0x02], []⟩ [] (-1) =
      ([0x10, 0x00, 0xF2, 0x05, 0x09, 0x6C, 0x6F, 0x63, 0x61, 0x6C, 0x68, 0x6F, 0x73, 0x74, 0x63,
        0xDD, 0x02], none) ∧
    RawPacket.Unpack Zlib.stored ⟨0x07, [], []⟩
        [0x10, 0x00, 0xF2, 0x05, 0x09, 0x6C, 0x6F, 0x63, 0x61, 0x6C, 0x68, 0x6F, 0x73, 0x74, 0x63,
          0xDD, 0x02] (-1) =
      some ⟨⟨0x00, [0xF2, 0x05, 0x09, 0x6C, 0x6F, 0x63, 0x61, 0x6C, 0x68, 0x6F, 0x73, 0x74, 0x63,
        0xDD, 0x02], []⟩, [], none⟩ ∧
    (Packet.Handshake 0 [] 0 0).FromRaw
        ⟨0x00, [0xF2, 0x05, 0x09, 0x6C, 0x6F, 0x63, 0x61, 0x6C, 0x68, 0x6F, 0x73, 0x74, 0x63, 0xDD,
          0x02], []⟩ =
      some (Packet.Handshake 754 [0x6C, 0x6F, 0x63, 0x61, 0x6C, 0x68, 0x6F, 0x73, 0x74] 25565 2,
        none) := by
  decide

/-- C28. `Request.ToRaw` sets the id and returns no error without touching the
data: the RawPacket keeps the payload it held before, for instance `01 02 03`,
where the encoding of a record without fields is empty. -/
theorem Request_ToRaw_keeps_data (p : RawPacket) (slack : List UInt8) :
    Packet.Request.ToRaw p slack = (⟨Request_ID, p.Data, p.spare⟩, none) ∧
      (Packet.Request.ToRaw ⟨0x05, [0x01, 0x02, 0x03], []⟩ []).1.Data = [0x01, 0x02, 0x03] ∧
      (Packet.Request.fields.map (fun t => (t.WriteTo []).w)).flatten = [] :=
  ⟨rfl, rfl, rfl⟩

/-! ## Primitive types: the reported byte count -/

/-- C26. `Boolean.ReadFrom` on an empty reader reports 1 byte read where it
took none (`Byte.ReadFrom` reports 0), and `String.ReadFrom` on `03 41 42`,
which ends inside the body, takes all three bytes and reports 1. -/
theorem ReadFrom_reported_count (b : Bool) (v : Int) (old : List UInt8) :
    Boolean.ReadFrom b [] = ⟨b, 1, some Error.EOF, []⟩ ∧
      Byte.ReadFrom v [] = ⟨v, 0, some Error.EOF, []⟩ ∧
      String.ReadFrom old [0x03, 0x41, 0x42] = some ⟨old, 1, some Error.ErrUnexpectedEOF, []⟩ := by
  refine ⟨rfl, rfl, ?_⟩
  have h1 : VarInt.ReadFrom 0 [0x03, 0x41, 0x42] = ⟨3, 1, none, [0x41, 0x42]⟩ := by decide
  unfold String.ReadFrom
  rw [h1]
  rfl

/-- C29. ByteArray decode with a negative length prefix: when the VarInt at the
head of the reader decodes without error to a negative number,
`ByteArray.ReadFrom` returns no error, leaves the empty byte sequence in the
slot, reports the bytes of the prefix only and leaves the reader where the
prefix ends, whatever the slot held; `String.ReadFrom` on the same reader does
not return. -/
theorem ByteArray_negative_length (old : List UInt8) (r : Reader)
    (herr : (VarInt.ReadFrom 0 r).err = none) (hneg : (VarInt.ReadFrom 0 r).val < 0) :
    ByteArray.ReadFrom old r =
        ⟨[], (VarInt.ReadFrom 0 r).n, none, (VarInt.ReadFrom 0 r).rest⟩ ∧
      String.ReadFrom old r = none := by
  constructor
  · unfold ByteArray.ReadFrom
    simp only [herr]
    unfold CopyN
    rw [if_pos (le_of_lt hneg)]
    simp
  · unfold String.ReadFrom
    simp only [herr]
    rw [if_pos hneg]

theorem ByteArray_negative_length_witness :
    ByteArray.ReadFrom [0x07] [0xFF, 0xFF, 0xFF, 0xFF, 0x0F, 0x41, 0x42] =
        ⟨[], 5, none, [0x41, 0x42]⟩ ∧
      String.ReadFrom [0x07] [0xFF, 0xFF, 0xFF, 0xFF, 0x0F, 0x41, 0x42] = none :=
  ByteArray_negative_length [0x07] [0xFF, 0xFF, 0xFF, 0xFF, 0x0F, 0x41, 0x42] (by decide)
    (by decide)

/-! ## Framing: lengths below the length of the id -/

theorem RawPacket.setLen_neg (p : RawPacket) (d : Int) (h : d < 0) : p.setLen d = none := by
  unfold RawPacket.setLen
  rw [if_neg (by omega), if_pos h]

theorem RawPacket.unpackWithoutCompression_neg (p : RawPacket) (reader r1 r2 : Reader)
    (length n1 id n2 : Int)
    (h1 : VarInt.ReadFrom 0 reader = ⟨length, n1, none, r1⟩)
    (h2 : VarInt.ReadFrom 0 r1 = ⟨id, n2, none, r2⟩) (hlt : length - n2 < 0) :
    p.unpackWithoutCompression reader = none := by
  unfold RawPacket.unpackWithoutCompression
  rw [h1]
  simp only []
  rw [h2]
  simp only []
  rw [RawPacket.setLen_neg _ _ hlt]

/-- C27. `Unpack` does not return on the stream `00 00` without compression:
the declared length 0 less the one byte of the id gives the slice bound `-1`.
With compression it does not return on `03 01 80 01`, read with the stored
codec: the declared `dataLength` 1 is less than the two bytes of the id. -/
theorem Unpack_negative_slice (z : Zlib) (p : RawPacket) :
    RawPacket.Unpack z p [0x00, 0x00] (-1) = none ∧
      RawPacket.Unpack Zlib.stored p [0x03, 0x01, 0x80, 0x01] 0 = none := by
  constructor
  · have h1 : VarInt.ReadFrom 0 [0x00, 0x00] = ⟨0, 1, none, [0x00]⟩ := by decide
    have h2 : VarInt.ReadFrom 0 [0x00] = ⟨0, 1, none, []⟩ := by decide
    unfold RawPacket.Unpack
    rw [if_neg (by decide)]
    exact RawPacket.unpackWithoutCompression_neg p _ _ _ _ _ _ _ h1 h2 (by decide)
  · have h1 : VarInt.ReadFrom 0 [0x03, 0x01, 0x80, 0x01] = ⟨3, 1, none, [0x01, 0x80, 0x01]⟩ := by
      decide
    have h2 : CopyN [] [0x01, 0x80, 0x01] 3 = ⟨[0x01, 0x80, 0x01], 3, none, []⟩ := by decide
    have h3 : VarInt.ReadFrom 0 [0x01, 0x80, 0x01] = ⟨1, 1, none, [0x80, 0x01]⟩ := by decide
    have h4 : VarInt.ReadFrom 0 [0x80, 0x01] = ⟨128, 2, none, []⟩ := by decide
    have h5 : int32 (1 - int32 2) = -1 := by decide
    unfold RawPacket.Unpack
    rw [if_pos (by decide)]
    unfold RawPacket.unpackWithCompression
    rw [h1]
    simp only []
    rw [h2]
    simp only []
    rw [h3]
    simp only []
    rw [if_pos (by decide), if_neg (by decide), if_neg (by decide)]
    have hz : Zlib.stored.inflate [0x80, 0x01] = Except.ok ([0x80, 0x01], Error.EOF) := rfl
    rw [hz]
    simp only []
    rw [h4]
    simp only []
    rw [h5, RawPacket.setLen_neg _ _ (by decide)]

/-! ## The buffer pool -/

/-- C24. `packWithCompression` on a packet whose data is not shorter than the
threshold, starting from an empty pool, takes two buffers and puts back one
buffer and the address of the integer `dataLength`: the pool then holds an
item that is not a byte buffer, the second buffer is not returned, and no call
of `packWithCompression` on that pool returns, whatever the packet and the
threshold, its first `Get` yielding the integer. -/
theorem packWithCompression_pool (p q : RawPacket) (d : Nat) (threshold : Int) :
    p.packWithCompressionPool ((p.Data.length : Int) - (d : Int)) ⟨none, []⟩ =
        some ⟨some (PoolItem.intPtr (p.Data.length : Int)), [PoolItem.buffer []]⟩ ∧
      q.packWithCompressionPool threshold
        ⟨some (PoolItem.intPtr (p.Data.length : Int)), [PoolItem.buffer []]⟩ = none := by
  have h : ¬ ((p.Data.length : Int) < (p.Data.length : Int) - (d : Int)) := by omega
  unfold RawPacket.packWithCompressionPool
  simp [bufPool.Get, bufPool.Put, PoolItem.asBuffer, h]

/-! ## Position: decoding any word -/

theorem UInt8_ofNat_of_mod (n : Nat) (b : UInt8) (h : n % 256 = b.toNat) : UInt8.ofNat n = b := by
  obtain ⟨⟨k, hk⟩⟩ := b
  have h2 : n % 256 = k := h
  subst h2
  rfl

theorem beValue_eight (b0 b1 b2 b3 b4 b5 b6 b7 : UInt8) :
    beValue [b0, b1, b2, b3, b4, b5, b6, b7] =
      b0.toNat * 2 ^ 56 + b1.toNat * 2 ^ 48 + b2.toNat * 2 ^ 40 + b3.toNat * 2 ^ 32 +
        b4.toNat * 2 ^ 24 + b5.toNat * 2 ^ 16 + b6.toNat * 2 ^ 8 + b7.toNat := by
  simp only [beValue, List.foldl_cons, List.foldl_nil]
  omega

theorem fillLoop_beValue (b0 b1 b2 b3 b4 b5 b6 b7 : UInt8) :
    Position.fillLoop 8 (beValue [b0, b1, b2, b3, b4, b5, b6, b7]) [] =
      [b0, b1, b2, b3, b4, b5, b6, b7] := by
  have h0 := UInt8_toNat_lt b0
  have h1 := UInt8_toNat_lt b1
  have h2 := UInt8_toNat_lt b2
  have h3 := UInt8_toNat_lt b3
  have h4 := UInt8_toNat_lt b4
  have h5 := UInt8_toNat_lt b5
  have h6 := UInt8_toNat_lt b6
  have h7 := UInt8_toNat_lt b7
  rw [fillLoop_eight, beValue_eight]
  simp only [Nat.shiftRight_eq_div_pow]
  rw [UInt8_ofNat_of_mod _ b0 (by omega), UInt8_ofNat_of_mod _ b1 (by omega),
    UInt8_ofNat_of_mod _ b2 (by omega), UInt8_ofNat_of_mod _ b3 (by omega),
    UInt8_ofNat_of_mod _ b4 (by omega), UInt8_ofNat_of_mod _ b5 (by omega),
    UInt8_ofNat_of_mod _ b6 (by omega), UInt8_ofNat_of_mod _ b7 (by omega)]

theorem beValue_eight_lt (b0 b1 b2 b3 b4 b5 b6 b7 : UInt8) :
    beValue [b0, b1, b2, b3, b4, b5, b6, b7] < 2 ^ 64 := by
  have h0 := UInt8_toNat_lt b0
  have h1 := UInt8_toNat_lt b1
  have h2 := UInt8_toNat_lt b2
  have h3 := UInt8_toNat_lt b3
  have h4 := UInt8_toNat_lt b4
  have h5 := UInt8_toNat_lt b5
  have h6 := UInt8_toNat_lt b6
  have h7 := UInt8_toNat_lt b7
  rw [beValue_eight]
  omega

theorem signedBits_38 (pos : Nat) (h : pos < 2 ^ 64) :
    signedBits pos 38 26 =
      (if (pos : Int) / 2 ^ 38 ≥ 2 ^ 25 then (pos : Int) / 2 ^ 38 - 2 ^ 26
        else (pos : Int) / 2 ^ 38) := by
  unfold signedBits
  simp only []
  split_ifs <;> omega

theorem signedBits_0 (pos : Nat) :
    signedBits pos 0 12 =
      (if (pos : Int) % 2 ^ 12 ≥ 2 ^ 11 then (pos : Int) % 2 ^ 12 - 2 ^ 12
        else (pos : Int) % 2 ^ 12) := by
  unfold signedBits
  simp only []
  split_ifs <;> omega

theorem signedBits_12 (pos : Nat) :
    signedBits pos 12 26 =
      (if (pos : Int) / 2 ^ 12 % 2 ^ 26 ≥ 2 ^ 25 then (pos : Int) / 2 ^ 12 % 2 ^ 26 - 2 ^ 26
        else (pos : Int) / 2 ^ 12 % 2 ^ 26) := by
  unfold signedBits
  simp only []
  split_ifs <;> omega

theorem signedBits_range_26 (word lo : Nat) :
    -2 ^ 25 ≤ signedBits word lo 26 ∧ signedBits word lo 26 ≤ 2 ^ 25 - 1 := by
  unfold signedBits
  simp only []
  split_ifs <;> omega

theorem signedBits_range_12 (word lo : Nat) :
    -2 ^ 11 ≤ signedBits word lo 12 ∧ signedBits word lo 12 ≤ 2 ^ 11 - 1 := by
  unfold signedBits
  simp only []
  split_ifs <;> omega

theorem word_of_fields (pos : Nat) (h : pos < 2 ^ 64) :
    ((signedBits pos 38 26 % 2 ^ 26).toNat * 2 ^ 38 +
      (signedBits pos 12 26 % 2 ^ 26).toNat * 2 ^ 12 +
      (signedBits pos 0 12 % 2 ^ 12).toNat) = pos := by
  rw [signedBits_38 pos h, signedBits_0, signedBits_12]
  split_ifs <;> omega

/-- C25. Position decode on every 64-bit word: for all eight bytes (followed by
anything, whatever the receiver held), `Position.ReadFrom` returns no error and
8 bytes read, with `X` the signed value of the bits 63..38 of the big-endian
word, `Z` the signed value of the bits 37..12 and `Y` the signed value of the
bits 11..0, so `X` and `Z` lie in `[-2^25, 2^25 - 1]` and `Y` in
`[-2^11, 2^11 - 1]`; and `Position.WriteTo` of that position writes the same
eight bytes. -/
theorem Position_decode_inverse (b0 b1 b2 b3 b4 b5 b6 b7 : UInt8) (old : Position)
    (s : Reader) (w : Writer) :
    Position.ReadFrom old ([b0, b1, b2, b3, b4, b5, b6, b7] ++ s) =
        ⟨⟨signedBits (beValue [b0, b1, b2, b3, b4, b5, b6, b7]) 38 26,
          signedBits (beValue [b0, b1, b2, b3, b4, b5, b6, b7]) 0 12,
          signedBits (beValue [b0, b1, b2, b3, b4, b5, b6, b7]) 12 26⟩, 8, none, s⟩ ∧
      (-2 ^ 25 ≤ signedBits (beValue [b0, b1, b2, b3, b4, b5, b6, b7]) 38 26 ∧
        signedBits (beValue [b0, b1, b2, b3, b4, b5, b6, b7]) 38 26 ≤ 2 ^ 25 - 1) ∧
      (-2 ^ 25 ≤ signedBits (beValue [b0, b1, b2, b3, b4, b5, b6, b7]) 12 26 ∧
        signedBits (beValue [b0, b1, b2, b3, b4, b5, b6, b7]) 12 26 ≤ 2 ^ 25 - 1) ∧
      (-2 ^ 11 ≤ signedBits (beValue [b0, b1, b2, b3, b4, b5, b6, b7]) 0 12 ∧
        signedBits (beValue [b0, b1, b2, b3, b4, b5, b6, b7]) 0 12 ≤ 2 ^ 11 - 1) ∧
      Position.WriteTo
          ⟨signedBits (beValue [b0, b1, b2, b3, b4, b5, b6, b7]) 38 26,
            signedBits (beValue [b0, b1, b2, b3, b4, b5, b6, b7]) 0 12,
            signedBits (beValue [b0, b1, b2, b3, b4, b5, b6, b7]) 12 26⟩ w =
        ⟨w ++ [b0, b1, b2, b3, b4, b5, b6, b7], 8, none⟩ := by
  have hlt := beValue_eight_lt b0 b1 b2 b3 b4 b5 b6 b7
  have hfill := fillLoop_beValue b0 b1 b2 b3 b4 b5 b6 b7
  generalize beValue [b0, b1, b2, b3, b4, b5, b6, b7] = pos at hlt hfill ⊢
  refine ⟨?_, signedBits_range_26 pos 38, signedBits_range_26 pos 12,
    signedBits_range_12 pos 0, ?_⟩
  · rw [← hfill, Position.ReadFrom_word old pos hlt s, signedBits_38 pos hlt, signedBits_0,
      signedBits_12]
  · rw [Position.WriteTo_word]
    simp only []
    rw [word_of_fields pos hlt]
    unfold Write
    rw [hfill]
    rfl

end Proto
